import Mathlib

set_option maxRecDepth 100000

/-!
# Verification of the `rb_tree` red-black tree library

A shallow embedding of the pointer-linked red-black tree map of the
repository (files `src/lib.rs`, `src/node.rs`, `src/balance.rs`,
`src/iter.rs`, `src/drain.rs`, and the `RbTreeMap` drain in
`src/iter/drain.rs` together with `Root` from `src/node.rs` and
`src/node/balance.rs`).

The Rust code works on raw `NonNull<Node<K, V>>` pointers.  We model the
heap of nodes explicitly: a node reference (`NodeRef`) is a natural
number id, the heap is an association list from ids to node records, and
every pointer dereference is a heap lookup that fails (error `uaf`) when
the id was deallocated.  A Rust `unwrap`/`expect` panic is the error
`crash`.  Rust `loop`s become fuel-indexed recursion; running out of
fuel is the error `fuelOut` (only reachable when the code genuinely
loops on the given input longer than the supplied fuel).

We model *release* semantics: `debug_assert!` is compiled out, exactly
as in the shipped crate (`assert_tree` in `src/balance.rs` is
`#[cfg(test)]` and is a no-op otherwise).

Keys are fixed to `Int` (the claims only need integer keys, and `Int`
has exactly the total order the code requires of `K: Ord`); values stay
a type parameter `V`.
-/

namespace RBImpl

/-- `Color` from `src/node.rs`. -/
inductive Color where
  | red
  | black
deriving DecidableEq, Repr

/-- `ChildIndex` from `src/node.rs`. -/
inductive Side where
  | left
  | right
deriving DecidableEq, Repr

/-- `impl Not for ChildIndex` from `src/node.rs`. -/
def Side.opp : Side → Side
  | .left => .right
  | .right => .left

/-- The record behind one heap allocation: `Node<K, V>` from
`src/node.rs` (parent link, two child links, color, key, value). -/
structure NodeData (V : Type) where
  parent : Option Nat
  left : Option Nat
  right : Option Nat
  color : Color
  key : Int
  value : V
deriving DecidableEq, Repr

/-- The heap of live nodes: id ↦ node record. -/
abbrev Heap (V : Type) := List (Nat × NodeData V)

/-- Errors of the model: `crash` is a Rust panic (`unwrap` on `None`),
`uaf` is a dereference of a deallocated node (undefined behavior in the
Rust code), `fuelOut` reports that a source-level `loop` ran longer than
the supplied fuel. -/
inductive RErr where
  | crash
  | uaf
  | fuelOut
deriving DecidableEq, Repr

/-- Heap lookup (pointer dereference). -/
def hget {V : Type} : Heap V → Nat → Option (NodeData V)
  | [], _ => none
  | (j, d) :: rest, i => if j = i then some d else hget rest i

/-- Heap store at an existing id (pointer write); no-op on a dead id. -/
def hset {V : Type} : Heap V → Nat → NodeData V → Heap V
  | [], _, _ => []
  | (j, d) :: rest, i, d' =>
    if j = i then (j, d') :: rest else (j, d) :: hset rest i d'

/-- Remove an allocation from the heap (the `Box::from_raw` drop inside
`NodeRef::deallocate`). -/
def herase {V : Type} : Heap V → Nat → Heap V
  | [], _ => []
  | (j, d) :: rest, i => if j = i then rest else (j, d) :: herase rest i

/-- `RedBlackTree<K, V>` from `src/lib.rs`: root handle and length,
together with the heap the node pointers live in and the next fresh
address for `Box` allocation. -/
structure Tree (V : Type) where
  heap : Heap V
  nextId : Nat
  root : Option Nat
  len : Nat
deriving DecidableEq, Repr

/-- `RedBlackTree::new` from `src/lib.rs`. -/
def Tree.new (V : Type) : Tree V := ⟨[], 0, none, 0⟩

/-- `RedBlackTree::is_empty` from `src/lib.rs` (`self.root.is_none()`). -/
def Tree.isEmpty {V : Type} (t : Tree V) : Bool := t.root.isNone

/-- `RedBlackTree::len` from `src/lib.rs`. -/
def Tree.length {V : Type} (t : Tree V) : Nat := t.len

/-! ## Node primitive operations (`src/node.rs`), heap level -/

/-- Dereference a node id. -/
def nread {V : Type} (h : Heap V) (i : Nat) : Except RErr (NodeData V) :=
  match hget h i with
  | some d => .ok d
  | none => .error .uaf

/-- `NodeRef::new`: leak a fresh `Node` with no parent, no children,
colored **Red**. Returns the heap and the fresh id. -/
def nodeNew {V : Type} (h : Heap V) (nextId : Nat) (k : Int) (v : V) :
    Heap V × Nat × Nat :=
  (h ++ [(nextId, ⟨none, none, none, .red, k, v⟩)], nextId + 1, nextId)

/-- `NodeRef::deallocate`: clear the node's own links, free it, return
its key-value pair. -/
def deallocate {V : Type} (h : Heap V) (i : Nat) :
    Except RErr (Heap V × Int × V) := do
  let d ← nread h i
  .ok (herase h i, d.key, d.value)

/-- `NodeRef::child`. -/
def childOf {V : Type} (h : Heap V) (i : Nat) (s : Side) :
    Except RErr (Option Nat) := do
  let d ← nread h i
  .ok (match s with | .left => d.left | .right => d.right)

/-- `NodeRef::parent`. -/
def parentOf {V : Type} (h : Heap V) (i : Nat) : Except RErr (Option Nat) := do
  let d ← nread h i
  .ok d.parent

/-- `NodeRef::color`. -/
def colorOf {V : Type} (h : Heap V) (i : Nat) : Except RErr Color := do
  let d ← nread h i
  .ok d.color

/-- `NodeRef::is_red`. -/
def isRedB {V : Type} (h : Heap V) (i : Nat) : Except RErr Bool := do
  let c ← colorOf h i
  .ok (c = Color.red)

/-- `NodeRef::set_color`. -/
def setColor {V : Type} (h : Heap V) (i : Nat) (c : Color) :
    Except RErr (Heap V) := do
  let d ← nread h i
  .ok (hset h i { d with color := c })

/-- Write one child slot of a node record. -/
def NodeData.withChild {V : Type} (d : NodeData V) (s : Side)
    (c : Option Nat) : NodeData V :=
  match s with
  | .left => { d with left := c }
  | .right => { d with right := c }

/-- Read one child slot of a node record. -/
def NodeData.child {V : Type} (d : NodeData V) (s : Side) : Option Nat :=
  match s with
  | .left => d.left
  | .right => d.right

/-- `NodeRef::set_child(idx, new_child)`: first set the new child's
parent back-pointer (when the new child is `Some`), then overwrite the
slot — exactly the statement order of the source. -/
def setChild {V : Type} (h : Heap V) (i : Nat) (s : Side)
    (c : Option Nat) : Except RErr (Heap V) := do
  let h ← match c with
    | none => pure h
    | some ci => do
        let cd ← nread h ci
        pure (hset h ci { cd with parent := some i })
  let d ← nread h i
  .ok (hset h i (d.withChild s c))

/-- `NodeRef::clear_child(idx)`: clear the child's parent back-pointer,
then `take` the slot; the source `unwrap`s the taken value, so an empty
slot is a panic. Returns the removed child id. -/
def clearChild {V : Type} (h : Heap V) (i : Nat) (s : Side) :
    Except RErr (Heap V × Nat) := do
  let d ← nread h i
  let h ← match d.child s with
    | none => pure h
    | some ci => do
        let cd ← nread h ci
        pure (hset h ci { cd with parent := none })
  let d ← nread h i
  match d.child s with
  | none => .error .crash
  | some ci => .ok (hset h i (d.withChild s none), ci)

/-- `NodeRef::index_on_parent`: `None` when there is no parent;
otherwise `Left` iff the parent's **left** slot equals this node, else
`Right` (the source's fallback). -/
def indexOnParent {V : Type} (h : Heap V) (i : Nat) :
    Except RErr (Option Side) := do
  let d ← nread h i
  match d.parent with
  | none => .ok none
  | some p => do
      let pd ← nread h p
      .ok (some (if pd.left = some i then Side.left else Side.right))

/-- `NodeRef::index_and_parent` (`index_on_parent().zip(parent())`). -/
def indexAndParent {V : Type} (h : Heap V) (i : Nat) :
    Except RErr (Option (Side × Nat)) := do
  let idx ← indexOnParent h i
  let d ← nread h i
  match idx, d.parent with
  | some s, some p => .ok (some (s, p))
  | _, _ => .ok none

/-- `key.cmp(node.key)` for `Int` keys. -/
def icmp (a b : Int) : Ordering :=
  if a < b then .lt else if a = b then .eq else .gt

/-- Result of `NodeRef::search`: `Ok(found)` or
`Err((would_be_parent, side))`. -/
inductive SearchRes where
  | found (i : Nat)
  | vacant (i : Nat) (s : Side)
deriving DecidableEq, Repr

/-- `NodeRef::search` from `src/node.rs` (the descending loop), with
fuel for the source `loop`. -/
def searchFrom {V : Type} (h : Heap V) : Nat → Nat → Int →
    Except RErr SearchRes
  | 0, _, _ => .error .fuelOut
  | fuel + 1, i, k => do
    let d ← nread h i
    match icmp k d.key with
    | .eq => .ok (.found i)
    | .lt =>
      match d.left with
      | none => .ok (.vacant i .left)
      | some l => searchFrom h fuel l k
    | .gt =>
      match d.right with
      | none => .ok (.vacant i .right)
      | some r => searchFrom h fuel r k

/-- `NodeRef::min_child` (walk left while possible). -/
def minChild {V : Type} (h : Heap V) : Nat → Nat → Except RErr Nat
  | 0, _ => .error .fuelOut
  | fuel + 1, i => do
    let d ← nread h i
    match d.left with
    | none => .ok i
    | some l => minChild h fuel l

/-- `NodeRef::max_child` (walk right while possible). -/
def maxChild {V : Type} (h : Heap V) : Nat → Nat → Except RErr Nat
  | 0, _ => .error .fuelOut
  | fuel + 1, i => do
    let d ← nread h i
    match d.right with
    | none => .ok i
    | some r => maxChild h fuel r

end RBImpl

namespace RBImpl

/-- `Option::unwrap`: panic on `None`. -/
def unwrapO {α : Type} : Option α → Except RErr α
  | none => .error .crash
  | some a => .ok a

/-- `NodeRef::sibling` from `src/node.rs`. -/
def siblingOf {V : Type} (h : Heap V) (i : Nat) :
    Except RErr (Option Nat) := do
  let idx ← indexOnParent h i
  match idx with
  | none => .ok none
  | some s => do
    let d ← nread h i
    match d.parent with
    | none => .ok none
    | some p => childOf h p s.opp

/-- `NodeRef::uncle` from `src/node.rs` (`parent()?.sibling()`). -/
def uncleOf {V : Type} (h : Heap V) (i : Nat) :
    Except RErr (Option Nat) := do
  let d ← nread h i
  match d.parent with
  | none => .ok none
  | some p => siblingOf h p

/-- `NodeRef::grandparent` from `src/node.rs`. -/
def grandparentOf {V : Type} (h : Heap V) (i : Nat) :
    Except RErr (Option Nat) := do
  let d ← nread h i
  match d.parent with
  | none => .ok none
  | some p => parentOf h p

/-- `opt.map_or(false, |n| n.is_red())`. -/
def optRed {V : Type} (h : Heap V) : Option Nat → Except RErr Bool
  | none => .ok false
  | some i => isRedB h i

/-! ## The rebalancer (`src/balance.rs`), on `RedBlackTree` -/

/-- The last three statements of `RedBlackTree::rotate` from
`src/balance.rs` (they follow both re-linking branches), named so the
two branches share one continuation. -/
def rotFinish {V : Type} (t : Tree V) (target pivot : Nat) (pidx : Side)
    (beMoved : Option Nat) : Except RErr (Tree V × Nat) := do
  let h ← setChild t.heap pivot pidx.opp (some target)
  let h ← setChild h target pidx beMoved
  .ok ({ t with heap := h }, pivot)

/-- `RedBlackTree::rotate` from `src/balance.rs`: promotes `target`'s
`pidx`-child (the pivot) into `target`'s position, updating the tree's
root slot when `target` was the root. Returns the pivot. -/
def rotate {V : Type} (t : Tree V) (target : Nat) (pidx : Side) :
    Except RErr (Tree V × Nat) := do
  let pivotOpt ← childOf t.heap target pidx
  let pivot ← unwrapO pivotOpt
  let beMoved ← childOf t.heap pivot pidx.opp
  let iap ← indexAndParent t.heap target
  let t ← match iap with
    | some (idx, parent) => do
        let (h, _) ← clearChild t.heap parent idx
        let h ← setChild h parent idx (some pivot)
        pure { t with heap := h }
    | none => do
        let pd ← nread t.heap pivot
        pure { t with heap := hset t.heap pivot { pd with parent := none },
                      root := some pivot }
  rotFinish t target pivot pidx beMoved

/-- The closing statements of the red-uncle `else` branch of
`RedBlackTree::balance_after_insert` from `src/balance.rs` (from
`let parent = target.parent().unwrap();` to the final rotation),
named so the two ways into it (with and without the preparatory
inner rotation) share one definition. -/
def balanceInsertTail {V : Type} (t : Tree V) (target : Nat) :
    Except RErr (Tree V) := do
  let p2Opt ← parentOf t.heap target
  let p2 ← unwrapO p2Opt
  let h ← setColor t.heap p2 .black
  let g2 ← grandparentOf h target
  let gi ← unwrapO g2
  let h ← setColor h gi .red
  let tio2 ← indexOnParent h target
  let tis2 ← unwrapO tio2
  let (t2, _) ← rotate { t with heap := h } gi tis2
  .ok t2

/-- The black-uncle `else` branch of
`RedBlackTree::balance_after_insert` from `src/balance.rs` (from
`let parent_idx = parent.index_on_parent();` on), named so the loop
body stays readable; `p` is the red parent's handle. -/
def balanceInsertSplit {V : Type} (t : Tree V) (target p : Nat) :
    Except RErr (Tree V) := do
  let pio ← indexOnParent t.heap p
  let tio ← indexOnParent t.heap target
  let (t, target) ←
    if pio ≠ tio then do
      let tis ← unwrapO tio
      let (t2, _) ← rotate t p tis
      pure (t2, p)
    else pure (t, target)
  balanceInsertTail t target

/-- `RedBlackTree::balance_after_insert` from `src/balance.rs`
(the `loop` is fuel-indexed; `assert_tree` is a release no-op). -/
def balanceAfterInsert {V : Type} (t : Tree V) : Nat → Nat →
    Except RErr (Tree V)
  | 0, _ => .error .fuelOut
  | fuel + 1, target => do
    let pOpt ← parentOf t.heap target
    match pOpt with
    | none => .ok t
    | some p => do
      let pBlack ← do let r ← isRedB t.heap p; pure !r
      if pBlack then .ok t
      else do
        let gOpt ← grandparentOf t.heap target
        match gOpt with
        | none => do
            let h ← setColor t.heap p .black
            .ok { t with heap := h }
        | some _ => do
            let u ← uncleOf t.heap target
            let uncleRed ← optRed t.heap u
            if uncleRed then do
              let h ← setColor t.heap p .black
              let u2 ← uncleOf h target
              let ui ← unwrapO u2
              let h ← setColor h ui .black
              let g2 ← grandparentOf h target
              let gi ← unwrapO g2
              let h ← setColor h gi .red
              balanceAfterInsert { t with heap := h } fuel gi
            else balanceInsertSplit t target p

/-- The `loop` of `RedBlackTree::balance_after_remove` from
`src/balance.rs`. The local variables `parent`, `sibling`,
`close_nephew`, `distant_nephew` are threaded exactly as the source
mutates them (in particular they are *not* recomputed when the loop
re-enters with `parent = grandparent`, faithful to the code). -/
def removeLoop {V : Type} (t : Tree V) (idx : Side) : Nat → Nat →
    Option Nat → Option Nat → Option Nat → Except RErr (Tree V)
  | 0, _, _, _, _ => .error .fuelOut
  | fuel + 1, parent, sibling, close, distant => do
    let sRed ← optRed t.heap sibling
    if sRed then do
      let (t, _) ← rotate t parent idx.opp
      let h ← setColor t.heap parent .red
      let si ← unwrapO sibling
      let h ← setColor h si .black
      let sibling2 := close
      let si2 ← unwrapO sibling2
      let dn ← childOf h si2 idx.opp
      let cn ← childOf h si2 idx
      removeLoop { t with heap := h } idx fuel parent sibling2 cn dn
    else do
      let dRed ← optRed t.heap distant
      if dRed then do
        let (t, _) ← rotate t parent idx.opp
        let si ← unwrapO sibling
        let pc ← colorOf t.heap parent
        let h ← setColor t.heap si pc
        let h ← setColor h parent .black
        let di ← unwrapO distant
        let h ← setColor h di .black
        .ok { t with heap := h }
      else do
        let cRed ← optRed t.heap close
        if cRed then do
          let si ← unwrapO sibling
          let (t, _) ← rotate t si idx
          let h ← setColor t.heap si .red
          let ci ← unwrapO close
          let h ← setColor h ci .black
          removeLoop { t with heap := h } idx fuel parent close close sibling
        else do
          let pRed ← isRedB t.heap parent
          if pRed then do
            let si ← unwrapO sibling
            let h ← setColor t.heap si .red
            let h ← setColor h parent .black
            .ok { t with heap := h }
          else do
            let si ← unwrapO sibling
            let h ← setColor t.heap si .red
            let gp ← parentOf h parent
            match gp with
            | some g => removeLoop { t with heap := h } idx fuel g sibling close distant
            | none => .ok { t with heap := h }

/-- `RedBlackTree::balance_after_remove` from `src/balance.rs`:
reads `(idx, parent)` and the nephews once, unlinks `target` from its
parent, then runs the loop. -/
def balanceAfterRemove {V : Type} (t : Tree V) (target : Nat) :
    Except RErr (Tree V) := do
  let iap ← indexAndParent t.heap target
  let (idx, parent) ← unwrapO iap
  let sibling ← childOf t.heap parent idx.opp
  let close ← match sibling with
    | none => pure none
    | some s => childOf t.heap s idx
  let distant ← match sibling with
    | none => pure none
    | some s => childOf t.heap s idx.opp
  let (h, _) ← clearChild t.heap parent idx
  removeLoop { t with heap := h } idx (t.heap.length + 1) parent sibling close distant

end RBImpl

namespace RBImpl

/-! ## `RedBlackTree` methods (`src/lib.rs`) -/

/-- `RedBlackTree::first_node` (walk left from the root). -/
def firstNode {V : Type} (t : Tree V) : Except RErr (Option Nat) :=
  match t.root with
  | none => .ok none
  | some r => do
    let i ← minChild t.heap (t.heap.length + 1) r
    .ok (some i)

/-- `RedBlackTree::last_node` (walk right from the root). -/
def lastNode {V : Type} (t : Tree V) : Except RErr (Option Nat) :=
  match t.root with
  | none => .ok none
  | some r => do
    let i ← maxChild t.heap (t.heap.length + 1) r
    .ok (some i)

/-- `RedBlackTree::search_node` (`self.root.unwrap().search(key)`). -/
def searchNode {V : Type} (t : Tree V) (k : Int) : Except RErr SearchRes :=
  match t.root with
  | none => .error .crash
  | some r => searchFrom t.heap (t.heap.length + 1) r k

/-- `RedBlackTree::insert` from `src/lib.rs`, including
`RedBlackTree::insert_node`. Returns the updated tree and the
`Option<(K, V)>` result. -/
def insert {V : Type} (t : Tree V) (k : Int) (v : V) :
    Except RErr (Tree V × Option (Int × V)) :=
  if t.isEmpty then
    let t := { t with len := t.len + 1 }
    let (h, nid, i) := nodeNew t.heap t.nextId k v
    .ok ({ t with heap := h, nextId := nid, root := some i }, none)
  else do
    let res ← searchNode t k
    match res with
    | .found f => do
        let d ← nread t.heap f
        .ok ({ t with heap := hset t.heap f { d with value := v } },
             some (k, d.value))
    | .vacant target idx => do
        let (h, nid, newNode) := nodeNew t.heap t.nextId k v
        let t := { t with heap := h, nextId := nid, len := t.len + 1 }
        let h2 ← setChild t.heap target idx (some newNode)
        let t ← balanceAfterInsert { t with heap := h2 }
          (t.heap.length + 1) newNode
        .ok (t, none)

/-- `RedBlackTree::remove_node` from `src/lib.rs`, translated statement
by statement (including the two-children replacement block and the
red-child replacement block exactly as written). -/
def removeNode {V : Type} (t : Tree V) (node0 : Nat) :
    Except RErr (Tree V × Int × V) := do
  if t.len = 0 then do
    let (h, k, v) ← deallocate t.heap node0
    .ok ({ t with heap := h }, k, v)
  else do
    let d ← nread t.heap node0
    let (node, t) ← match d.left, d.right with
      | some left, some right => do
          let maxL ← maxChild t.heap (t.heap.length + 1) left
          let nodeColor := d.color
          let (h, _) ← clearChild t.heap node0 .right
          let mlLeft ← childOf h maxL .left
          let h ← setChild h node0 .left mlLeft
          let mlColor ← colorOf h maxL
          let h ← setColor h node0 mlColor
          let h ← setChild h maxL .left (some left)
          let h ← setChild h maxL .right (some right)
          let h ← setColor h maxL nodeColor
          pure (maxL, { t with heap := h })
      | _, _ => pure (node0, t)
    let nd ← nread t.heap node
    if nd.color = Color.red then do
      let iap ← indexAndParent t.heap node
      let (idx, parent) ← unwrapO iap
      let (h, _) ← clearChild t.heap parent idx
      let (h, k, v) ← deallocate h node
      .ok ({ t with heap := h }, k, v)
    else do
      let redChild ← do
        let c := match nd.left with
          | some l => some l
          | none => nd.right
        match c with
        | none => pure (none : Option Nat)
        | some ci => do
            let r ← isRedB t.heap ci
            pure (if r then some ci else none)
      let (node, t) ← match redChild with
        | some rc => do
            let rcIdxO ← indexOnParent t.heap rc
            let rcIdx ← unwrapO rcIdxO
            let (h, _) ← clearChild t.heap node rcIdx
            let iap ← indexAndParent h node
            let (idx, parent) ← unwrapO iap
            let h ← setChild h parent idx (some rc)
            let h ← setColor h rc .black
            let h ← setChild h rc rcIdx (some node)
            pure (rc, { t with heap := h })
        | none => pure (node, t)
      let t ← balanceAfterRemove t node
      let iap ← indexAndParent t.heap node
      let (idx, parent) ← unwrapO iap
      let (h, _) ← clearChild t.heap parent idx
      let (h, k, v) ← deallocate h node
      .ok ({ t with heap := h }, k, v)

/-- `RedBlackTree::remove_entry` from `src/lib.rs` (note: `len` is
decremented *before* `remove_node` runs, as in the source). -/
def removeEntry {V : Type} (t : Tree V) (k : Int) :
    Except RErr (Tree V × Option (Int × V)) :=
  if t.isEmpty then .ok (t, none)
  else do
    let res ← searchNode t k
    match res with
    | .vacant _ _ => .ok (t, none)
    | .found f => do
        let t := { t with len := t.len - 1 }
        let (t, k2, v2) ← removeNode t f
        .ok (t, some (k2, v2))

/-- `RedBlackTree::remove` (`remove_entry(key).map(|(_, v)| v)`). -/
def remove {V : Type} (t : Tree V) (k : Int) :
    Except RErr (Tree V × Option V) := do
  let (t, r) ← removeEntry t k
  .ok (t, r.map Prod.snd)

/-- `RedBlackTree::get_key_value` from `src/lib.rs`. -/
def getKeyValue {V : Type} (t : Tree V) (k : Int) :
    Except RErr (Option (Int × V)) :=
  if t.isEmpty then .ok none
  else do
    let res ← searchNode t k
    match res with
    | .found f => do
        let d ← nread t.heap f
        .ok (some (d.key, d.value))
    | .vacant _ _ => .ok none

/-- `RedBlackTree::get` (`get_key_value(key).map(|(_, v)| v)`). -/
def getVal {V : Type} (t : Tree V) (k : Int) : Except RErr (Option V) := do
  let r ← getKeyValue t k
  .ok (r.map Prod.snd)

/-! ## Ordered iterators (`src/iter.rs`) -/

/-- `RefLeafRange::cut_left` from `src/iter.rs`: yield the node at
`start`, then move `start` to `start.right ∨ start.parent`; when
neither exists, yield nothing and leave `start` unchanged. (The
borrowing iterator: no deallocation.) -/
def cutLeftRef {V : Type} (h : Heap V) (start : Option Nat) :
    Except RErr (Option Nat × Option (Int × V)) :=
  match start with
  | none => .ok (none, none)
  | some s => do
    let d ← nread h s
    let nxt := match d.right with
      | some r => some r
      | none => d.parent
    match nxt with
    | none => .ok (some s, none)
    | some n => .ok (some n, some (d.key, d.value))

/-- `RefLeafRange::cut_right` from `src/iter.rs` (mirror image). -/
def cutRightRef {V : Type} (h : Heap V) (end_ : Option Nat) :
    Except RErr (Option Nat × Option (Int × V)) :=
  match end_ with
  | none => .ok (none, none)
  | some s => do
    let d ← nread h s
    let nxt := match d.left with
      | some l => some l
      | none => d.parent
    match nxt with
    | none => .ok (some s, none)
    | some n => .ok (some n, some (d.key, d.value))

/-- `Iter::next` driven to exhaustion: the state of `Iter` is
`(start, length)`; `next` returns `None` once `length` is zero,
otherwise decrements it and calls `cut_left`. Collects all yields in
order (what `collect::<Vec<_>>()` on `iter()` observes). -/
def iterCollectAux {V : Type} (h : Heap V) : Nat → Option Nat →
    Except RErr (List (Int × V))
  | 0, _ => .ok []
  | n + 1, start => do
    let (start', y) ← cutLeftRef h start
    match y with
    | none => .ok []
    | some kv => do
        let rest ← iterCollectAux h n start'
        .ok (kv :: rest)

/-- `tree.iter().collect()`: build the `Iter` (start = first node,
length = `len`) and drain it forward. -/
def iterCollect {V : Type} (t : Tree V) : Except RErr (List (Int × V)) := do
  let s ← firstNode t
  iterCollectAux t.heap t.len s

/-- `LeafRange::cut_left` from `src/iter.rs` (the consuming iterator):
like the borrowing walk but the yielded node is deallocated. -/
def cutLeftOwn {V : Type} (h : Heap V) (start : Option Nat) :
    Except RErr (Heap V × Option Nat × Option (Int × V)) :=
  match start with
  | none => .ok (h, none, none)
  | some s => do
    let d ← nread h s
    let nxt := match d.right with
      | some r => some r
      | none => d.parent
    match nxt with
    | none => .ok (h, some s, none)
    | some n => do
        let (h, k, v) ← deallocate h s
        .ok (h, some n, some (k, v))

/-- `IntoIter::next` driven to exhaustion (the `for` loop over
`tree.into_iter()`): state `(heap, start, length)`. -/
def intoIterCollectAux {V : Type} : Nat → Heap V → Option Nat →
    Except RErr (List (Int × V))
  | 0, _, _ => .ok []
  | n + 1, h, start => do
    let (h, start', y) ← cutLeftOwn h start
    match y with
    | none => .ok []
    | some kv => do
        let rest ← intoIterCollectAux n h start'
        .ok (kv :: rest)

/-- `tree.into_iter().collect()`: start = first node, end unused by the
forward drain, length = `len`; the tree itself is `mem::forget`-ten. -/
def intoIterCollect {V : Type} (t : Tree V) :
    Except RErr (List (Int × V)) := do
  let s ← firstNode t
  intoIterCollectAux t.len t.heap s

/-- `RedBlackTree::clear` from `src/lib.rs`: `*self = Self::new()`.
The displaced old tree is dropped, and `impl Drop for RedBlackTree`
(`src/lib.rs` 157-162) runs
`drop(std::ptr::read(self).into_iter())`: the consuming iterator is
built and immediately dropped, and `IntoIter`'s own `Drop`
(`src/iter.rs` 49-53) exhausts it with `for _ in self {}` — the same
deallocate-and-walk loop the round-trip uses, its yields discarded.
Only after that walk finishes does the fresh map stand. -/
def Tree.clear {V : Type} (t : Tree V) : Except RErr (Tree V) := do
  let _ ← intoIterCollect t
  .ok (Tree.new V)

/-- `FromIterator for RedBlackTree` from `src/lib.rs`: insert all pairs
into a fresh tree in order. -/
def fromList {V : Type} : List (Int × V) → Except RErr (Tree V)
  | [] => .ok (Tree.new V)
  | kv :: rest => go (Tree.new V) (kv :: rest)
where
  go (t : Tree V) : List (Int × V) → Except RErr (Tree V)
    | [] => .ok t
    | (k, v) :: rest => do
        let (t, _) ← insert t k v
        go t rest

end RBImpl

namespace RBImpl

/-! ## Range queries (`src/iter.rs`) -/

/-- `SearchBound` from `src/iter.rs`. -/
inductive SearchBound where
  | included (k : Int)
  | excluded (k : Int)
  | allIncluded
  | allExcluded
deriving DecidableEq, Repr

/-- `ops::Bound` (the standard library bound fed to `range`). -/
inductive RBound where
  | included (k : Int)
  | excluded (k : Int)
  | unbounded
deriving DecidableEq, Repr

/-- `From<ops::Bound<I>> for SearchBound`. -/
def RBound.toSearch : RBound → SearchBound
  | .included k => .included k
  | .excluded k => .excluded k
  | .unbounded => .allIncluded

/-- The descending walk of `find_lower`'s `Included` case: `Less` goes
left when possible else stops here, `Equal` stops here, `Greater` goes
right when possible else stops here. -/
def findLowerIncl {V : Type} (h : Heap V) : Nat → Nat → Int →
    Except RErr (Option Nat)
  | 0, _, _ => .error .fuelOut
  | fuel + 1, cur, k => do
    let d ← nread h cur
    match icmp k d.key with
    | .eq => .ok (some cur)
    | .lt =>
      match d.left with
      | none => .ok (some cur)
      | some l => findLowerIncl h fuel l k
    | .gt =>
      match d.right with
      | none => .ok (some cur)
      | some r => findLowerIncl h fuel r k

/-- `RedBlackTree::find_lower` from `src/iter.rs`. -/
def findLower {V : Type} (t : Tree V) : SearchBound →
    Except RErr (Option Nat)
  | .included k =>
    match t.root with
    | none => .ok none
    | some r => findLowerIncl t.heap (t.heap.length + 1) r k
  | .excluded k => do
    let inc ← match t.root with
      | none => pure (none : Option Nat)
      | some r => findLowerIncl t.heap (t.heap.length + 1) r k
    match inc with
    | none => .ok none
    | some n => do
        let d ← nread t.heap n
        if k = d.key then .ok (some n)
        else
          match d.right with
          | some r => .ok (some r)
          | none => .ok d.parent
  | .allIncluded => firstNode t
  | .allExcluded => .ok none

/-- The descending walk of `find_upper`'s `Included` case (the source
is *identical* to `find_lower`'s, including the direction choices). -/
def findUpperIncl {V : Type} (h : Heap V) : Nat → Nat → Int →
    Except RErr (Option Nat) := findLowerIncl h

/-- `RedBlackTree::find_upper` from `src/iter.rs`. -/
def findUpper {V : Type} (t : Tree V) : SearchBound →
    Except RErr (Option Nat)
  | .included k =>
    match t.root with
    | none => .ok none
    | some r => findUpperIncl t.heap (t.heap.length + 1) r k
  | .excluded k => do
    let inc ← match t.root with
      | none => pure (none : Option Nat)
      | some r => findUpperIncl t.heap (t.heap.length + 1) r k
    match inc with
    | none => .ok none
    | some n => do
        let d ← nread t.heap n
        if k = d.key then .ok (some n)
        else
          match d.left with
          | some l => .ok (some l)
          | none => .ok d.parent
  | .allIncluded => lastNode t
  | .allExcluded => .ok none

/-- `RedBlackTree::search_range` from `src/iter.rs`: the bound
preprocessing (`AllExcluded` when the raw bound keys are inverted or
equal-and-both-excluded) followed by `find_lower`/`find_upper`. -/
def searchRange {V : Type} (t : Tree V) (lo hi : RBound) :
    Except RErr (Option Nat × Option Nat) := do
  let s := lo.toSearch
  let e := hi.toSearch
  let (s, e) :=
    match s, e with
    | .excluded a, .excluded b =>
      if a = b then (.allExcluded, .allExcluded)
      else if a > b then (.allExcluded, .allExcluded) else (s, e)
    | .included a, .included b =>
      if a > b then (.allExcluded, .allExcluded) else (s, e)
    | .included a, .excluded b =>
      if a > b then (.allExcluded, .allExcluded) else (s, e)
    | .excluded a, .included b =>
      if a > b then (.allExcluded, .allExcluded) else (s, e)
    | _, _ => (s, e)
  let lower ← findLower t s
  let upper ← findUpper t e
  .ok (lower, upper)

/-- `Range::next` (`self.0.cut_left()`): note the source `Range`
iterator carries **no** length or end-comparison, so repeated `next`
only stops when the walk falls off the root. Collect at most `fuel`
yields. -/
def rangeCollectAux {V : Type} (h : Heap V) : Nat → Option Nat →
    Except RErr (List (Int × V))
  | 0, _ => .error .fuelOut
  | n + 1, start => do
    let (start', y) ← cutLeftRef h start
    match y with
    | none => .ok []
    | some kv => do
        let rest ← rangeCollectAux h n start'
        .ok (kv :: rest)

/-- `tree.range(bounds)` followed by collecting forward yields (bounded
by `fuel` because the source loop need not terminate). -/
def rangeCollect {V : Type} (t : Tree V) (lo hi : RBound) (fuel : Nat) :
    Except RErr (List (Int × V)) := do
  let (s, _e) ← searchRange t lo hi
  rangeCollectAux t.heap fuel s

/-- The first yield of `tree.range(bounds)`. -/
def rangeFirst {V : Type} (t : Tree V) (lo hi : RBound) :
    Except RErr (Option (Int × V)) := do
  let (s, _e) ← searchRange t lo hi
  let (_, y) ← cutLeftRef t.heap s
  .ok y

/-! ## The old drain filter (`src/drain.rs`) -/

/-- One call of `DrainFilter::next` from `src/drain.rs`: the inner
`loop` walks `current := current.right ∨ current.parent`, calls the
predicate, and on a hit removes the key from the tree via
`remove_entry` *while the cursor still points into it*. `pred` is
modeled as a pure predicate (the claims' predicates never mutate the
value). -/
def drainNextOld {V : Type} (pred : Int → V → Bool) : Nat → Tree V →
    Option Nat → Except RErr (Tree V × Option Nat × Option (Int × V))
  | 0, _, _ => .error .fuelOut
  | fuel + 1, t, cur =>
    match cur with
    | none => .ok (t, none, none)
    | some c => do
      let d ← nread t.heap c
      let cur' := match d.right with
        | some r => some r
        | none => d.parent
      if pred d.key d.value then do
        let (t, r) ← removeEntry t d.key
        .ok (t, cur', r)
      else
        drainNextOld pred fuel t cur'

/-- `tree.drain_filter(pred)` then repeated `next` until `None`,
collecting the yields (each `next` gets its own fuel). -/
def drainCollectOld {V : Type} (pred : Int → V → Bool) : Nat → Nat →
    Tree V → Option Nat → Except RErr (Tree V × List (Int × V))
  | 0, _, _, _ => .error .fuelOut
  | calls + 1, fuel, t, cur => do
    let (t, cur', y) ← drainNextOld pred fuel t cur
    match y with
    | none => .ok (t, [])
    | some kv => do
        let (t, rest) ← drainCollectOld pred calls fuel t cur'
        .ok (t, kv :: rest)

/-- `RedBlackTree::drain_filter` construction from `src/drain.rs`:
`current = self.first_node()`. -/
def drainStartOld {V : Type} (t : Tree V) : Except RErr (Option Nat) :=
  firstNode t

/-! ## Operation sequences (for the invariant claims) -/

/-- One user-level operation of the map API. -/
inductive Op (V : Type) where
  | ins (k : Int) (v : V)
  | del (k : Int)
deriving DecidableEq, Repr

/-- Apply one operation, discarding the returned value. -/
def applyOp {V : Type} (t : Tree V) : Op V → Except RErr (Tree V)
  | .ins k v => do
      let (t, _) ← insert t k v
      .ok t
  | .del k => do
      let (t, _) ← remove t k
      .ok t

/-- Run a sequence of operations from the given tree. -/
def applyOps {V : Type} (t : Tree V) : List (Op V) → Except RErr (Tree V)
  | [] => .ok t
  | op :: rest => do
      let t ← applyOp t op
      applyOps t rest

end RBImpl

namespace RBImpl

/-! ## The `RbTreeMap` generation: `Root` (`src/node.rs`),
`NodeRef::rotate`/fixups (`src/node/balance.rs`) and the detach-root
drain filter (`src/iter/drain.rs`). -/

/-- `NodeRef::close_nephew` from `src/node.rs`. -/
def closeNephewOf {V : Type} (h : Heap V) (i : Nat) :
    Except RErr (Option Nat) := do
  let idx ← indexOnParent h i
  match idx with
  | none => .ok none
  | some s => do
    let sib ← siblingOf h i
    match sib with
    | none => .ok none
    | some si => childOf h si s

/-- `NodeRef::distant_nephew` from `src/node.rs`. -/
def distantNephewOf {V : Type} (h : Heap V) (i : Nat) :
    Except RErr (Option Nat) := do
  let idx ← indexOnParent h i
  match idx with
  | none => .ok none
  | some s => do
    let sib ← siblingOf h i
    match sib with
    | none => .ok none
    | some si => childOf h si s.opp

/-- `NodeRef::rotate` from `src/node/balance.rs`: unlike the
`RedBlackTree` rotation it has no access to a root slot; when the
target has no parent it merely clears the pivot's parent pointer. -/
def rotateNG {V : Type} (h : Heap V) (target : Nat) (pidx : Side) :
    Except RErr (Heap V × Nat) := do
  let pOpt ← childOf h target pidx
  let pivot ← unwrapO pOpt
  let beMoved ← childOf h pivot pidx.opp
  let d ← nread h target
  let iop ← indexOnParent h target
  let h ← match d.parent, iop with
    | some par, some idx => setChild h par idx (some pivot)
    | _, _ => do
        let pd ← nread h pivot
        pure (hset h pivot { pd with parent := none })
  let h ← setChild h pivot pidx.opp (some target)
  let h ← setChild h target pidx beMoved
  .ok (h, pivot)

/-- `NodeRef::balance_after_insert` from `src/node/balance.rs`
(fuel-indexed loop). -/
def balanceInsertNG {V : Type} (h : Heap V) : Nat → Nat →
    Except RErr (Heap V)
  | 0, _ => .error .fuelOut
  | fuel + 1, self_ => do
    let pOpt ← parentOf h self_
    match pOpt with
    | none => .ok h
    | some p => do
      let pBlack ← do let r ← isRedB h p; pure !r
      if pBlack then .ok h
      else do
        let gOpt ← grandparentOf h self_
        match gOpt with
        | none => do
            let h ← setColor h p .black
            .ok h
        | some _ => do
            let u ← uncleOf h self_
            let uncleRed ← optRed h u
            if uncleRed then do
              let h ← setColor h p .black
              let u2 ← uncleOf h self_
              let ui ← unwrapO u2
              let h ← setColor h ui .black
              let g2 ← grandparentOf h self_
              let gi ← unwrapO g2
              let h ← setColor h gi .red
              balanceInsertNG h fuel gi
            else do
              let pio ← indexOnParent h p
              let sio ← indexOnParent h self_
              let (h, self_) ←
                if pio ≠ sio then do
                  let sis ← unwrapO sio
                  let (h2, _) ← rotateNG h p sis
                  pure (h2, p)
                else pure (h, self_)
              let p2Opt ← parentOf h self_
              let p2 ← unwrapO p2Opt
              let h ← setColor h p2 .black
              let g2 ← grandparentOf h self_
              let gi ← unwrapO g2
              let h ← setColor h gi .red
              let sio2 ← indexOnParent h self_
              let sis2 ← unwrapO sio2
              let (h, _) ← rotateNG h gi sis2
              .ok h

/-- `NodeRef::balance_after_remove` from `src/node/balance.rs`: the
`while let Some(parent)` loop; the sibling and nephews are recomputed
on every iteration. (`src/node.rs` invokes it as
`to_remove.balance_after_remove(&mut self.root)`, but the function in
`src/node/balance.rs` takes no root slot, so the root slot is not
updated here.) -/
def balanceRemoveNG {V : Type} (h : Heap V) : Nat → Nat →
    Except RErr (Heap V)
  | 0, _ => .error .fuelOut
  | fuel + 1, self_ => do
    let d ← nread h self_
    match d.parent with
    | none => .ok h
    | some parent => do
      let sibling ← siblingOf h self_
      let close ← closeNephewOf h self_
      let distant ← distantNephewOf h self_
      let sRed ← optRed h sibling
      if sRed then do
        let iop ← indexOnParent h self_
        let s ← unwrapO iop
        let (h, _) ← rotateNG h parent s.opp
        let h ← setColor h parent .red
        let si ← unwrapO sibling
        let h ← setColor h si .black
        balanceRemoveNG h fuel self_
      else do
        let dRed ← optRed h distant
        if dRed then do
          let iop ← indexOnParent h self_
          let s ← unwrapO iop
          let (h, _) ← rotateNG h parent s.opp
          let si ← unwrapO sibling
          let pc ← colorOf h parent
          let h ← setColor h si pc
          let h ← setColor h parent .black
          let di ← unwrapO distant
          let h ← setColor h di .black
          .ok h
        else do
          let cRed ← optRed h close
          if cRed then do
            let si ← unwrapO sibling
            let iop ← indexOnParent h self_
            let s ← unwrapO iop
            let (h, _) ← rotateNG h si s
            let h ← setColor h si .red
            let ci ← unwrapO close
            let h ← setColor h ci .black
            balanceRemoveNG h fuel self_
          else do
            let pRed ← isRedB h parent
            if pRed then do
              let h ← match sibling with
                | some si => setColor h si .red
                | none => pure h
              let h ← setColor h parent .black
              .ok h
            else do
              let h ← match sibling with
                | some si => setColor h si .red
                | none => pure h
              balanceRemoveNG h fuel parent

/-- `Root<K, V>` from `src/node.rs`: root handle plus length. -/
structure RootS where
  root : Option Nat
  len : Nat
deriving DecidableEq, Repr

/-- `Root::new`. -/
def RootS.new : RootS := ⟨none, 0⟩

/-- `RbTreeMap<K, V>` from `src/map.rs` (`root: Root<K, V>`) together
with the heap its nodes live in. -/
structure MapSt (V : Type) where
  heap : Heap V
  nextId : Nat
  rootS : RootS
deriving DecidableEq, Repr

/-- `RbTreeMap::new`. -/
def MapSt.new (V : Type) : MapSt V := ⟨[], 0, RootS.new⟩

/-- `Root::insert_node` from `src/node.rs` (used through
`RbTreeMap::insert`); returns `none` on a fresh insert and
`some (k, old_v)` on replacement. -/
def insertNG {V : Type} (m : MapSt V) (k : Int) (v : V) :
    Except RErr (MapSt V × Option (Int × V)) :=
  match m.rootS.root with
  | none =>
    let (h, nid, i) := nodeNew m.heap m.nextId k v
    .ok ({ heap := h, nextId := nid,
           rootS := ⟨some i, m.rootS.len + 1⟩ }, none)
  | some r => do
    let res ← searchFrom m.heap (m.heap.length + 1) r k
    match res with
    | .found f => do
        let d ← nread m.heap f
        .ok ({ m with heap := hset m.heap f { d with value := v } },
             some (k, d.value))
    | .vacant target idx => do
        let (h, nid, newNode) := nodeNew m.heap m.nextId k v
        let h ← setChild h target idx (some newNode)
        let h ← balanceInsertNG h (h.length + 1) newNode
        .ok ({ heap := h, nextId := nid,
               rootS := ⟨m.rootS.root, m.rootS.len + 1⟩ }, none)

/-- `Root::remove_node` from `src/node.rs`, heap-level (the root slot
is threaded as a `RootS` value). -/
def removeNodeNG {V : Type} (h : Heap V) (r : RootS) (k : Int) :
    Except RErr (Heap V × RootS × Option (Int × V)) := do
  match r.root with
  | none => .ok (h, r, none)
  | some rt => do
    let res ← searchFrom h (h.length + 1) rt k
    match res with
    | .vacant _ _ => .ok (h, r, none)
    | .found toRemove => do
      let r := { r with len := r.len - 1 }
      let d ← nread h toRemove
      if r.root = some toRemove ∧ d.left = none ∧ d.right = none then do
        let (h, k2, v2) ← deallocate h toRemove
        .ok (h, { r with root := none }, some (k2, v2))
      else do
        let (h, r) ← match d.left, d.right with
          | some left, some right => do
              let maxL ← maxChild h (h.length + 1) left
              let redundant ← childOf h maxL .left
              let iap ← indexAndParent h maxL
              let (idx, par) ← unwrapO iap
              let h ← setChild h par idx redundant
              let iap2 ← indexAndParent h toRemove
              let (h, r) ← match iap2 with
                | some (idx2, par2) => do
                    let h ← setChild h par2 idx2 (some maxL)
                    pure (h, r)
                | none => pure (h, { r with root := some maxL })
              let h ← setChild h maxL .left (some left)
              let h ← setChild h maxL .right (some right)
              pure (h, r)
          | _, _ => pure (h, r)
        let d2 ← nread h toRemove
        if d2.color = Color.red then do
          let iap ← indexAndParent h toRemove
          let (idx, par) ← unwrapO iap
          let (h, _) ← clearChild h par idx
          let (h, k2, v2) ← deallocate h toRemove
          .ok (h, r, some (k2, v2))
        else do
          let c := match d2.left with
            | some l => some l
            | none => d2.right
          let (h, r) ← match c with
            | some redChild => do
                let iap ← indexAndParent h toRemove
                let (h, r) ← match iap with
                  | some (idx, par) => do
                      let h ← setChild h par idx (some redChild)
                      pure (h, r)
                  | none => do
                      let cd ← nread h redChild
                      pure (hset h redChild { cd with parent := none },
                            { r with root := some redChild })
                let h ← setColor h redChild .black
                pure (h, r)
            | none => do
                let h ← balanceRemoveNG h (h.length + 1) toRemove
                pure (h, r)
          let (h, k2, v2) ← deallocate h toRemove
          .ok (h, r, some (k2, v2))

end RBImpl

namespace RBImpl

/-- `PreviousStep` from `src/map/iter.rs`. -/
inductive PrevStep where
  | parent
  | leftChild
  | rightChild
deriving DecidableEq, Repr

/-- The state of `DrainFilter` from `src/iter/drain.rs`: the mutably
borrowed owning map's root field (`self.tree.root`), the detached root
held by the iterator (`self.root`), the cursor, the 3-state marker, and
the pending-removal key list. -/
structure DrainSt (V : Type) where
  treeRoot : RootS
  root : RootS
  current : Option Nat
  prev : PrevStep
  toRemove : List Int
deriving DecidableEq, Repr

/-- `RbTreeMap::drain_filter` from `src/iter/drain.rs`: take
(`mem::take`) the map's root — leaving `Root::new()` behind — and hold
it in the iterator; the cursor starts at the minimum node with marker
`LeftChild`. -/
def drainFilterNew {V : Type} (m : MapSt V) :
    Except RErr (MapSt V × DrainSt V) := do
  let root := m.rootS
  let m := { m with rootS := RootS.new }
  let current ← match root.root with
    | none => pure (none : Option Nat)
    | some r => do
        let i ← minChild m.heap (m.heap.length + 1) r
        pure (some i)
  .ok (m, { treeRoot := m.rootS, root := root, current := current,
            prev := .leftChild, toRemove := [] })

/-- `DrainFilter::next` from `src/iter/drain.rs` (the marker
automaton), with `pred` modeled as a pure predicate. The heap is
threaded through (and, as `drainNextNew_frame` shows, never
written). -/
def drainNextNew {V : Type} (pred : Int → V → Bool) (h : Heap V) :
    Nat → DrainSt V →
    Except RErr (Heap V × DrainSt V × Option (Int × V))
  | 0, _ => .error .fuelOut
  | fuel + 1, st =>
    match st.current with
    | none => .ok (h, st, none)
    | some curr =>
      match st.prev with
      | .parent => do
          let d ← nread h curr
          match d.left with
          | some l => drainNextNew pred h fuel { st with current := some l }
          | none => drainNextNew pred h fuel { st with prev := .leftChild }
      | .leftChild => do
          let d ← nread h curr
          let st ← match d.right with
            | some r => pure { st with prev := .parent, current := some r }
            | none => pure { st with prev := .rightChild }
          if pred d.key d.value then
            .ok (h, { st with toRemove := st.toRemove ++ [d.key] },
                 some (d.key, d.value))
          else
            drainNextNew pred h fuel st
      | .rightChild => do
          let d ← nread h curr
          let iop ← indexOnParent h curr
          let st := { st with current := d.parent }
          let st := match iop with
            | some Side.left => { st with prev := PrevStep.leftChild }
            | _ => st
          drainNextNew pred h fuel st

/-- The `self.for_each(drop)` part of `DrainFilter::drop`: keep calling
`next` until it yields `None`. -/
def drainForEach {V : Type} (pred : Int → V → Bool) (h : Heap V)
    (stepFuel : Nat) : Nat → DrainSt V →
    Except RErr (Heap V × DrainSt V)
  | 0, _ => .error .fuelOut
  | calls + 1, st => do
      let (h, st, y) ← drainNextNew pred h stepFuel st
      match y with
      | none => .ok (h, st)
      | some _ => drainForEach pred h stepFuel calls st

/-- The pending-removal sweep of `DrainFilter::drop`: one
`Root::remove_node` per recorded key, on the still-detached root. -/
def drainRemovePending {V : Type} (h : Heap V) (r : RootS) :
    List Int → Except RErr (Heap V × RootS)
  | [] => .ok (h, r)
  | k :: rest => do
      let (h, r, _) ← removeNodeNG h r k
      drainRemovePending h r rest

/-- `DrainFilter::drop` from `src/iter/drain.rs`: finish the iteration,
remove every recorded key from the detached root, then reattach
(`self.tree.root = mem::take(&mut self.root)`). Returns the final heap
and the owning map's final root field. -/
def drainDropNew {V : Type} (pred : Int → V → Bool) (h : Heap V)
    (stepFuel callsFuel : Nat) (st : DrainSt V) :
    Except RErr (Heap V × RootS) := do
  let (h, st) ← drainForEach pred h stepFuel callsFuel st
  let (h, r) ← drainRemovePending h st.root st.toRemove
  .ok (h, r)

end RBImpl

namespace RBImpl

/-! ## Specification-side invariant walker (spec §3/§8)

These definitions are the checking walker the spec's §8 describes; they
are evaluated on the model states produced by the translated code. -/

/-- In-order traversal collecting `(id, node)` pairs; `none` when a
link points at a dead node or the structure is deeper than the fuel
(which is impossible for a well-formed heap given fuel > heap size). -/
def inorderNodes {V : Type} (h : Heap V) :
    Nat → Option Nat → Option (List (Nat × NodeData V))
  | _, none => some []
  | 0, some _ => none
  | fuel + 1, some i => do
    let d ← hget h i
    let l ← inorderNodes h fuel d.left
    let r ← inorderNodes h fuel d.right
    some (l ++ [(i, d)] ++ r)

/-- Height of the structure reachable from a link (fuel-guarded). -/
def heightOf {V : Type} (h : Heap V) : Nat → Option Nat → Option Nat
  | _, none => some 0
  | 0, some _ => none
  | fuel + 1, some i => do
    let d ← hget h i
    let l ← heightOf h fuel d.left
    let r ← heightOf h fuel d.right
    some (max l r + 1)

/-- Black-height of a link; `none` if the two subtrees disagree
anywhere (spec invariant 4 fails) or the walk is ill-formed. -/
def blackHeight {V : Type} (h : Heap V) : Nat → Option Nat → Option Nat
  | _, none => some 0
  | 0, some _ => none
  | fuel + 1, some i => do
    let d ← hget h i
    let l ← blackHeight h fuel d.left
    let r ← blackHeight h fuel d.right
    if l = r then some (l + (if d.color = Color.black then 1 else 0))
    else none

/-- Does a child link point to a live node whose parent field points
back here? (`true` for an empty link.) -/
def backLinkOk {V : Type} (h : Heap V) (i : Nat) : Option Nat → Bool
  | none => true
  | some c =>
    match hget h c with
    | some cd => cd.parent = some i
    | none => false

/-- Is a child link empty or a live black node? -/
def childBlack {V : Type} (h : Heap V) : Option Nat → Bool
  | none => true
  | some c =>
    match hget h c with
    | some cd => cd.color = Color.black
    | none => false

/-- No duplicate ids. -/
def nodupB : List Nat → Bool
  | [] => true
  | x :: xs => !(xs.contains x) && nodupB xs

/-- Fuel-driven ⌊log₂⌋ (kernel-computable). -/
def log2fuel : Nat → Nat → Nat
  | 0, _ => 0
  | fuel + 1, n => if n ≤ 1 then 0 else 1 + log2fuel fuel (n / 2)

/-- ⌊log₂ n⌋. -/
def log2floor (n : Nat) : Nat := log2fuel n n

/-- Is a list of keys strictly ascending? -/
def strictAscB : List Int → Bool
  | [] => true
  | [_] => true
  | a :: b :: rest => (a < b) && strictAscB (b :: rest)

/-- The six invariants of the claim, checked on a tree state:
1 in-order keys strictly ascending (no duplicates), 2 parent links
consistent and each node reached once, 3 no red node with a red child,
4 equal black counts on all root-to-null paths, 5 `len` equals the node
count, 6 height ≤ 2·⌊log₂(len + 1)⌋. -/
def invariantsOk {V : Type} (t : Tree V) : Bool :=
  match inorderNodes t.heap (t.heap.length + 1) t.root with
  | none => false
  | some ns =>
    let keys := ns.map (fun p => p.2.key)
    let asc := strictAscB keys
    let back := ns.all (fun p =>
      backLinkOk t.heap p.1 p.2.left && backLinkOk t.heap p.1 p.2.right)
    let rootOk := match t.root with
      | none => true
      | some r =>
        match hget t.heap r with
        | some d => d.parent = none
        | none => false
    let nodup := nodupB (ns.map Prod.fst)
    let red := ns.all (fun p =>
      p.2.color = Color.black ||
        (childBlack t.heap p.2.left && childBlack t.heap p.2.right))
    let bh := (blackHeight t.heap (t.heap.length + 1) t.root).isSome
    let size := t.len = ns.length
    let hb := match heightOf t.heap (t.heap.length + 1) t.root with
      | some ht => ht ≤ 2 * log2floor (t.len + 1)
      | none => false
    asc && back && rootOk && nodup && red && bh && size && hb

/-- Count of nodes reachable from the root by the walker. -/
def reachCount {V : Type} (t : Tree V) : Option Nat :=
  (inorderNodes t.heap (t.heap.length + 1) t.root).map List.length

/-- Run a sequence of operations, checking the invariants after every
single operation (the claim's "after each operation returns"). -/
def invariantHistory {V : Type} (t : Tree V) :
    List (Op V) → Except RErr Bool
  | [] => .ok true
  | op :: rest => do
      let t ← applyOp t op
      let b ← invariantHistory t rest
      .ok (invariantsOk t && b)

/-- The insertion sequence of spec §8 scenario 1. -/
def opsT5 : List (Op Char) :=
  [.ins 1 'a', .ins 4 'b', .ins 2 'c', .ins 3 'd', .ins 5 'e']

end RBImpl

namespace RBImpl

deriving instance DecidableEq for Except

/-- Color of the node sitting in the root slot. -/
def rootColorOf {V : Type} (t : Tree V) : Option Color :=
  match t.root with
  | none => none
  | some r => (hget t.heap r).map (fun d => d.color)

/-- **C1.** Counterexample: build the map by inserting
(1,'a'), (4,'b'), (2,'c'), (3,'d'), (5,'e') — after each of those five
inserts all six invariants hold — then call `remove(&2)`. The call
*returns normally* (yielding `Some('a')`, the wrong entry), yet the
resulting state violates the invariants: `len` is 4 while the walker
reaches exactly 1 node, so invariant 5 (and with it the whole
conjunction) fails. The spec claims all six invariants hold after each
operation returns. -/
theorem claim1_invariants_broken_after_remove :
    invariantHistory (Tree.new Char) opsT5 = .ok true ∧
    (applyOps (Tree.new Char) (opsT5 ++ [Op.del 2])).map
        (fun t => (invariantsOk t, t.len, reachCount t)) =
      .ok (false, 4, some 1) :=
  ⟨by decide, by decide⟩

/-- **C3.** Counterexample: on the same five-entry map, `remove(&2)`
returns `Some('a')` — the value that was inserted at key 1, not the
value 'c' most recently inserted at key 2 — and `remove(&1)` does not
return at all (it panics at the `unwrap` in `remove_node` after
`balance_after_remove` has already detached the node). The claim says
the yielded value equals the most recently inserted value for the key
and that the scenario's removals return 'a','c','d','b','e'. -/
theorem claim3_remove_returns_wrong_value :
    (do
        let t ← applyOps (Tree.new Char) opsT5
        remove t 2).map Prod.snd = .ok (some 'a') ∧
    (some 'a' ≠ some 'c') ∧
    (do
        let t ← applyOps (Tree.new Char) opsT5
        remove t 1).map Prod.snd = .error .crash :=
  ⟨by decide, by decide, by decide⟩

/-- **C4.** Counterexample: on the five-entry map of the claim's own
scenario, the forward iterator yields
[(1,'a'),(2,'c'),(4,'b'),(5,'e'),(4,'b')] — key 3 is skipped, key 4 is
yielded twice, and the key sequence is not strictly ascending — instead
of the claimed [(1,'a'),(2,'c'),(3,'d'),(4,'b'),(5,'e')]. -/
theorem claim4_iter_skips_and_repeats :
    (do
        let t ← applyOps (Tree.new Char) opsT5
        iterCollect t) =
      .ok [(1, 'a'), (2, 'c'), (4, 'b'), (5, 'e'), (4, 'b')] ∧
    strictAscB
        ([((1 : Int), 'a'), (2, 'c'), (4, 'b'), (5, 'e'), (4, 'b')].map
          Prod.fst) = false ∧
    [((1 : Int), 'a'), (2, 'c'), (4, 'b'), (5, 'e'), (4, 'b')] ≠
      [(1, 'a'), (2, 'c'), (3, 'd'), (4, 'b'), (5, 'e')] :=
  ⟨by decide, by decide, by decide⟩

/-- The inserts building the map with keys 3, 5, 8 (spec scenario 4). -/
def opsT358 : List (Op Char) := [.ins 3 'x', .ins 5 'y', .ins 8 'z']

/-- **C5.** Counterexample: on the map with keys {3,5,8}, the first
yield of `range((Included(4), Included(8)))` is the entry with key 3 —
which is *below* the lower bound — because `find_lower` stops on the
last probed node even when its key is smaller than the bound; the claim
says the range yields exactly the entries for 5 and 8. Moreover the
range walk does not terminate (100 further `next` calls still have not
exhausted it, as the `fuelOut` result shows: `Range` carries no length
or end check). -/
theorem claim5_range_yields_out_of_bounds_key :
    (do
        let t ← applyOps (Tree.new Char) opsT358
        rangeFirst t (.included 4) (.included 8)) = .ok (some (3, 'x')) ∧
    ((3 : Int) < 4) ∧
    (do
        let t ← applyOps (Tree.new Char) opsT358
        rangeCollect t (.included 4) (.included 8) 100) =
      .error .fuelOut :=
  ⟨by decide, by decide, by decide⟩

/-- **C8.** Counterexample: consuming the five-entry map of scenario 1
with `into_iter` and collecting back crashes with a use-after-free:
after the iterator deallocates node 4, the successor step from node 5
follows node 5's stale parent pointer into the freed node. The claimed
round-trip equality therefore fails for this map. -/
theorem claim8_into_iter_roundtrip_crashes :
    (do
        let t ← applyOps (Tree.new Char) opsT5
        let l ← intoIterCollect t
        fromList l) = .error .uaf :=
  by decide

/-- **C9.** Counterexample: inserting (37, "a") into an empty map
returns `None` and sets `len` to 1, but the node installed as the root
is colored **Red** at the moment `insert` returns — `NodeRef::new`
always allocates Red and the empty-tree branch of `insert` never
recolors — contradicting the claimed Black. -/
theorem claim9_fresh_root_is_red :
    (insert (Tree.new String) 37 "a").map
        (fun p => (rootColorOf p.1, p.2, p.1.len)) =
      .ok (some Color.red, none, 1) :=
  by decide

/-- **C9 (amended).** When `insert(k, v)` is called on an empty map,
the newly allocated node installed as the root is colored **Red** at
the moment `insert` returns (it has no parent and no children), `len`
becomes 1, and `None` is returned. -/
theorem claim9_amended_fresh_root_red (V : Type) (k : Int) (v : V) :
    insert (Tree.new V) k v =
      .ok (⟨[(0, ⟨none, none, none, .red, k, v⟩)], 1, some 0, 1⟩, none) :=
  rfl

/-- **C10.** Counterexample: `clear()` is `*self = Self::new()`, and
dropping the displaced tree runs the consuming-iterator walk
(`Drop for RedBlackTree` → `into_iter()` → `for _ in self {}`). On the
five-entry scenario map that walk deallocates node 4 and then follows
node 5's stale parent pointer into the freed node — the same
use-after-free as the `into_iter` round trip — so `clear` never
returns normally and the claimed fresh-map post-state is unreachable
for this non-empty map, refuting the claim's "every map, including
non-empty ones". On the empty map the drop walk is trivial and `clear`
does return a map with `len() = 0`, `is_empty()` true and `get = None`
for every key (last conjuncts). -/
theorem claim10_clear_crashes :
    (do
        let t ← applyOps (Tree.new Char) opsT5
        Tree.clear t) = .error .uaf ∧
    Tree.clear (Tree.new Char) = .ok (Tree.new Char) ∧
    (Tree.new Char).length = 0 ∧
    (Tree.new Char).isEmpty = true ∧
    (∀ k : Int, getVal (Tree.new Char) k = .ok none) :=
  ⟨by decide, by decide, rfl, rfl, fun k => rfl⟩

end RBImpl

namespace RBImpl

/-- The inserts building the map with keys 0..8 each mapped to itself
(spec scenario 3). -/
def opsT8 : List (Op Int) := (List.range 8).map (fun n => .ins n n)

/-- The tree state the translated code builds from `opsT8` (certified
against `applyOps` inside the claim theorem). -/
def T8tree : Tree Int :=
  ⟨[(0, ⟨some 1, none, none, .black, 0, 0⟩),
    (1, ⟨some 3, some 0, some 2, .red, 1, 1⟩),
    (2, ⟨some 1, none, none, .black, 2, 2⟩),
    (3, ⟨none, some 1, some 5, .black, 3, 3⟩),
    (4, ⟨some 5, none, none, .black, 4, 4⟩),
    (5, ⟨some 3, some 4, some 6, .red, 5, 5⟩),
    (6, ⟨some 5, none, some 7, .black, 6, 6⟩),
    (7, ⟨some 6, none, none, .red, 7, 7⟩)], 8, some 3, 8⟩

/-- On `T8tree` the old drain-filter cursor walk
(`current.right ∨ current.parent`) falls into the 2-cycle between the
nodes with keys 1 and 2 and never becomes `None`: with the
constantly-false predicate, `DrainFilter::next` loops forever, whatever
fuel it is given. -/
theorem drainOldFalseDiverges :
    ∀ fuel (c : Nat), (c = 0 ∨ c = 1 ∨ c = 2) →
      drainNextOld (fun _ _ => false) fuel T8tree (some c) =
        .error .fuelOut := by
  intro fuel
  induction fuel with
  | zero => intro c hc; rcases hc with h | h | h <;> subst h <;> rfl
  | succ n ih =>
    intro c hc
    rcases hc with h | h | h <;> subst h
    · exact (show drainNextOld (fun _ _ => false) (n + 1) T8tree (some 0) =
          drainNextOld (fun _ _ => false) n T8tree (some 1) from rfl).trans
        (ih 1 (by decide))
    · exact (show drainNextOld (fun _ _ => false) (n + 1) T8tree (some 1) =
          drainNextOld (fun _ _ => false) n T8tree (some 2) from rfl).trans
        (ih 2 (by decide))
    · exact (show drainNextOld (fun _ _ => false) (n + 1) T8tree (some 2) =
          drainNextOld (fun _ _ => false) n T8tree (some 1) from rfl).trans
        (ih 1 (by decide))

/-- **C6.** Counterexample on the claim's own scenario (keys 0..8 each
mapped to itself): `drain_filter(|_,_| false)` never yields — but not
because it terminates cleanly: its first `next()` call loops forever
(the cursor walk `right ∨ parent` cycles between two inner nodes), so
it does *not* "yield no elements and leave the map unchanged"; and
`drain_filter(|k,_| true)` (likewise `k % 2 == 0`) panics inside the
`remove_entry` it performs mid-walk instead of yielding
(0,0),(2,2),(4,4),(6,6). -/
theorem claim6_drain_filter_loops_or_panics :
    applyOps (Tree.new Int) opsT8 = .ok T8tree ∧
    drainStartOld T8tree = .ok (some 0) ∧
    (∀ fuel, drainNextOld (fun _ _ => false) fuel T8tree (some 0) =
      .error .fuelOut) ∧
    drainNextOld (fun _ _ => true) 100 T8tree (some 0) = .error .crash ∧
    drainCollectOld (fun k _ => k % 2 == 0) 20 100 T8tree (some 0) =
      .error .crash :=
  ⟨by decide, by decide,
   fun fuel => drainOldFalseDiverges fuel 0 (Or.inl rfl),
   by decide, by decide⟩

end RBImpl

namespace RBImpl

/-- `DrainFilter::next` (new generation) writes neither the heap nor
the owning map's root field nor the detached root it holds: it only
moves the cursor/marker and records keys. -/
theorem drainNextNew_frame {V : Type} (pred : Int → V → Bool) :
    ∀ (fuel : Nat) (h : Heap V) (st : DrainSt V) h' st' y,
      drainNextNew pred h fuel st = .ok (h', st', y) →
      h' = h ∧ st'.treeRoot = st.treeRoot ∧ st'.root = st.root := by
  intro fuel
  induction fuel with
  | zero =>
    intro h st h' st' y hq
    exact absurd hq (by simp [drainNextNew])
  | succ n ih =>
    intro h st h' st' y hq
    unfold drainNextNew at hq
    cases hc : st.current with
    | none =>
      rw [hc] at hq
      cases hq
      exact ⟨rfl, rfl, rfl⟩
    | some curr =>
      rw [hc] at hq
      cases hp : st.prev <;> rw [hp] at hq
      · -- parent
        cases hg : hget h curr
        · simp [nread, hg, bind, Except.bind] at hq
        · rename_i d
          cases hl : d.left
          all_goals simp only [nread, hg, hl, bind, Except.bind] at hq
          · have r := ih h _ h' st' y hq
            exact ⟨r.1, r.2.1, r.2.2⟩
          · have r := ih h _ h' st' y hq
            exact ⟨r.1, r.2.1, r.2.2⟩
      · -- leftChild
        cases hg : hget h curr
        · simp [nread, hg, bind, Except.bind] at hq
        · rename_i d
          cases hl : d.right
          all_goals cases hpred : pred d.key d.value
          all_goals simp only [nread, hg, hl, hpred, bind, Except.bind,
            pure, Except.pure, Bool.false_eq_true, if_true, if_false,
            reduceIte] at hq
          · have r := ih h _ h' st' y hq
            exact ⟨r.1, r.2.1, r.2.2⟩
          · simp only [Except.ok.injEq, Prod.mk.injEq] at hq
            obtain ⟨h1, h2, _⟩ := hq
            subst h1; subst h2
            exact ⟨rfl, rfl, rfl⟩
          · have r := ih h _ h' st' y hq
            exact ⟨r.1, r.2.1, r.2.2⟩
          · simp only [Except.ok.injEq, Prod.mk.injEq] at hq
            obtain ⟨h1, h2, _⟩ := hq
            subst h1; subst h2
            exact ⟨rfl, rfl, rfl⟩
      · -- rightChild
        cases hg : hget h curr
        · simp [nread, hg, bind, Except.bind] at hq
        · rename_i d
          cases hip : d.parent
          · simp only [indexOnParent, nread, hg, hip, bind,
              Except.bind] at hq
            have r := ih h _ h' st' y hq
            exact ⟨r.1, r.2.1, r.2.2⟩
          · rename_i p
            cases hpg : hget h p
            · simp [indexOnParent, nread, hg, hip, hpg, bind,
                Except.bind] at hq
            · rename_i pd
              by_cases hpl : pd.left = some curr
              all_goals simp only [indexOnParent, nread, hg, hip, hpg,
                hpl, bind, Except.bind, if_true, if_false, if_pos,
                if_neg, reduceIte] at hq
              · have r := ih h _ h' st' y hq
                exact ⟨r.1, r.2.1, r.2.2⟩
              · have r := ih h _ h' st' y hq
                exact ⟨r.1, r.2.1, r.2.2⟩

end RBImpl

namespace RBImpl

/-- With a predicate that never matches, `DrainFilter::next` yields
nothing and records no key. -/
theorem drainNextNew_falsePred {V : Type} (pred : Int → V → Bool)
    (hf : ∀ k v, pred k v = false) :
    ∀ (fuel : Nat) (h : Heap V) (st : DrainSt V) h' st' y,
      drainNextNew pred h fuel st = .ok (h', st', y) →
      y = none ∧ st'.toRemove = st.toRemove := by
  intro fuel
  induction fuel with
  | zero =>
    intro h st h' st' y hq
    exact absurd hq (by simp [drainNextNew])
  | succ n ih =>
    intro h st h' st' y hq
    unfold drainNextNew at hq
    cases hc : st.current with
    | none =>
      rw [hc] at hq
      cases hq
      exact ⟨rfl, rfl⟩
    | some curr =>
      rw [hc] at hq
      cases hp : st.prev <;> rw [hp] at hq
      · cases hg : hget h curr
        · simp [nread, hg, bind, Except.bind] at hq
        · rename_i d
          cases hl : d.left
          all_goals simp only [nread, hg, hl, bind, Except.bind] at hq
          · have r := ih h _ h' st' y hq
            exact ⟨r.1, r.2⟩
          · have r := ih h _ h' st' y hq
            exact ⟨r.1, r.2⟩
      · cases hg : hget h curr
        · simp [nread, hg, bind, Except.bind] at hq
        · rename_i d
          cases hl : d.right
          all_goals simp only [nread, hg, hl, hf d.key d.value, bind,
            Except.bind, pure, Except.pure, Bool.false_eq_true, if_false,
            reduceIte] at hq
          · have r := ih h _ h' st' y hq
            exact ⟨r.1, r.2⟩
          · have r := ih h _ h' st' y hq
            exact ⟨r.1, r.2⟩
      · cases hg : hget h curr
        · simp [nread, hg, bind, Except.bind] at hq
        · rename_i d
          cases hip : d.parent
          · simp only [indexOnParent, nread, hg, hip, bind,
              Except.bind] at hq
            have r := ih h _ h' st' y hq
            exact ⟨r.1, r.2⟩
          · rename_i p
            cases hpg : hget h p
            · simp [indexOnParent, nread, hg, hip, hpg, bind,
                Except.bind] at hq
            · rename_i pd
              by_cases hpl : pd.left = some curr
              all_goals simp only [indexOnParent, nread, hg, hip, hpg,
                hpl, bind, Except.bind, if_true, if_false,
                reduceIte] at hq
              · have r := ih h _ h' st' y hq
                exact ⟨r.1, r.2⟩
              · have r := ih h _ h' st' y hq
                exact ⟨r.1, r.2⟩

/-- The `for_each` part of the drop keeps the heap, the owning map's
root field, and the detached root untouched. -/
theorem drainForEach_frame {V : Type} (pred : Int → V → Bool)
    (stepFuel : Nat) :
    ∀ (calls : Nat) (h : Heap V) (st : DrainSt V) h' st',
      drainForEach pred h stepFuel calls st = .ok (h', st') →
      h' = h ∧ st'.treeRoot = st.treeRoot ∧ st'.root = st.root := by
  intro calls
  induction calls with
  | zero =>
    intro h st h' st' hq
    exact absurd hq (by simp [drainForEach])
  | succ n ih =>
    intro h st h' st' hq
    unfold drainForEach at hq
    cases hn : drainNextNew pred h stepFuel st with
    | error e => rw [hn] at hq; cases hq
    | ok r =>
      obtain ⟨h1, st1, y⟩ := r
      have hfr := drainNextNew_frame pred stepFuel h st h1 st1 y hn
      rw [hn] at hq
      simp only [bind, Except.bind] at hq
      cases y with
      | none =>
        cases hq
        exact ⟨hfr.1, hfr.2.1, hfr.2.2⟩
      | some kv =>
        have r2 := ih h1 st1 h' st' hq
        exact ⟨r2.1.trans hfr.1, r2.2.1.trans hfr.2.1,
               r2.2.2.trans hfr.2.2⟩

/-- With a never-matching predicate the completed iteration records no
pending removals. -/
theorem drainForEach_falsePred {V : Type} (pred : Int → V → Bool)
    (hf : ∀ k v, pred k v = false) (stepFuel : Nat) :
    ∀ (calls : Nat) (h : Heap V) (st : DrainSt V) h' st',
      drainForEach pred h stepFuel calls st = .ok (h', st') →
      st'.toRemove = st.toRemove := by
  intro calls
  induction calls with
  | zero =>
    intro h st h' st' hq
    exact absurd hq (by simp [drainForEach])
  | succ n _ih =>
    intro h st h' st' hq
    unfold drainForEach at hq
    cases hn : drainNextNew pred h stepFuel st with
    | error e => rw [hn] at hq; cases hq
    | ok r =>
      obtain ⟨h1, st1, y⟩ := r
      have hfp := drainNextNew_falsePred pred hf stepFuel h st h1 st1 y hn
      rw [hn] at hq
      simp only [bind, Except.bind] at hq
      cases y with
      | none =>
        cases hq
        exact hfp.2
      | some kv => exact absurd hfp.1 (by simp)

/-- Unfolding `DrainFilter::drop`: the heap is unchanged by the
completing iteration, and the root finally handed back to the map is
exactly the detached root shrunk by one `Root::remove_node` per
recorded key. -/
theorem drainDropNew_spec {V : Type} (pred : Int → V → Bool)
    (h : Heap V) (stepFuel callsFuel : Nat) (st : DrainSt V) (h2 : Heap V)
    (r2 : RootS) (hq : drainDropNew pred h stepFuel callsFuel st = .ok (h2, r2)) :
    ∃ st1, drainForEach pred h stepFuel callsFuel st = .ok (h, st1) ∧
      st1.root = st.root ∧
      drainRemovePending h st.root st1.toRemove = .ok (h2, r2) := by
  unfold drainDropNew at hq
  cases hfe : drainForEach pred h stepFuel callsFuel st with
  | error e => rw [hfe] at hq; cases hq
  | ok r =>
    obtain ⟨h1, st1⟩ := r
    have hfr := drainForEach_frame pred stepFuel callsFuel h st h1 st1 hfe
    rw [hfe] at hq
    simp only [bind, Except.bind] at hq
    have hh : h1 = h := hfr.1
    have hroot : st1.root = st.root := hfr.2.2
    rw [hh] at hq
    refine ⟨st1, by rw [hh], hroot, ?_⟩
    rw [← hroot]
    cases hrp : drainRemovePending h st1.root st1.toRemove with
    | error e => rw [hrp] at hq; cases hq
    | ok r =>
      obtain ⟨h3, r3⟩ := r
      rw [hrp] at hq
      cases hq
      rfl

end RBImpl

namespace RBImpl

/-- A concrete three-entry `RbTreeMap` built by `Root::insert_node`
(keys 2, 1, 3). -/
def M3map : MapSt Int :=
  ⟨[(0, ⟨none, some 1, some 2, .black, 2, 20⟩),
    (1, ⟨some 0, none, none, .red, 1, 10⟩),
    (2, ⟨some 0, none, none, .red, 3, 30⟩)], 3, ⟨some 0, 3⟩⟩

/-- The map right after `drain_filter` detached its root. -/
def M3taken : MapSt Int := { M3map with rootS := RootS.new }

/-- The iterator state `drain_filter` builds on `M3map`. -/
def M3st : DrainSt Int :=
  ⟨RootS.new, ⟨some 0, 3⟩, some 1, .leftChild, []⟩

/-- **C7.** Counterexample to the claim's final conjunct: on the
three-entry map 1 ↦ 10, 2 ↦ 20, 3 ↦ 30 (built by `Root::insert_node`,
first two conjuncts), `drain_filter(|k, _| k == 2)` detaches the root
at construction and yields exactly (2, 20) — the only drained entry —
then exhausts (third to fifth conjuncts).  Yet after
`DrainFilter::drop` removes the one recorded key from the detached
root and hands the shrunk root back, the in-order walk from that root
reaches only the entry (3, 30): the *undrained* entry (1, 10) has been
lost, its node left self-linked off the tree (`Root::remove_node`'s
two-children transplant links the predecessor to itself and then
re-roots at the right child).  So "all fields of the map other than
the drained entries are unchanged" fails.  (The claim's first-cited
`RedBlackTree::drain_filter` in `src/drain.rs` performs no root swap
at construction at all — only the `src/iter/drain.rs` generation
does.) -/
theorem claim7_drain_loses_undrained_entry :
    (do
      let (m, _) ← insertNG (MapSt.new Int) 2 20
      let (m, _) ← insertNG m 1 10
      let (m, _) ← insertNG m 3 30
      .ok m) = .ok M3map ∧
    (inorderNodes M3map.heap 10 M3map.rootS.root).map
        (fun l => l.map (fun q => (q.2.key, q.2.value))) =
      some [(1, 10), (2, 20), (3, 30)] ∧
    drainFilterNew M3map = .ok (M3taken, M3st) ∧
    drainNextNew (fun kk _ => kk == 2) M3taken.heap 20 M3st =
      .ok (M3taken.heap,
        ⟨RootS.new, ⟨some 0, 3⟩, some 2, .parent, [2]⟩,
        some (2, 20)) ∧
    drainNextNew (fun kk _ => kk == 2) M3taken.heap 20
        ⟨RootS.new, ⟨some 0, 3⟩, some 2, .parent, [2]⟩ =
      .ok (M3taken.heap,
        ⟨RootS.new, ⟨some 0, 3⟩, none, .rightChild, [2]⟩, none) ∧
    drainDropNew (fun kk _ => kk == 2) M3taken.heap 20 5 M3st =
      .ok ([(1, ⟨some 1, some 1, some 2, .red, 1, 10⟩),
            (2, ⟨none, none, none, .black, 3, 30⟩)], ⟨some 2, 2⟩) ∧
    (inorderNodes
        [(1, (⟨some 1, some 1, some 2, .red, 1, 10⟩ : NodeData Int)),
         (2, ⟨none, none, none, .black, 3, 30⟩)] 10 (some 2)).map
        (fun l => l.map (fun q => (q.2.key, q.2.value))) =
      some [(3, 30)] :=
  ⟨by decide, by decide, by decide, by decide, by decide, by decide,
    by decide⟩

end RBImpl

namespace RBImpl

/-! ## Heap lemmas -/

theorem hget_hset {V : Type} (h : Heap V) (i : Nat) (d : NodeData V) :
    ∀ j, hget (hset h i d) j =
      if j = i then (if (hget h i).isSome then some d else none)
      else hget h j := by
  induction h with
  | nil => intro j; simp [hget, hset]
  | cons p rest ih =>
    intro j
    obtain ⟨a, b⟩ := p
    by_cases hai : a = i
    · subst hai
      by_cases hja : j = a
      · subst hja
        simp [hget, hset]
      · simp [hget, hset, hja, Ne.symm hja]
    · by_cases hja : j = a
      · subst hja
        simp [hget, hset, hai, Ne.symm hai]
      · simp only [hset, if_neg hai, hget, if_neg (by exact Ne.symm hja)]
        rw [ih j]

theorem hget_hset_self {V : Type} (h : Heap V) (i : Nat) (d d0 : NodeData V)
    (h0 : hget h i = some d0) : hget (hset h i d) i = some d := by
  rw [hget_hset]
  simp [h0]

theorem hget_hset_ne {V : Type} (h : Heap V) (i j : Nat) (d : NodeData V)
    (hne : j ≠ i) : hget (hset h i d) j = hget h j := by
  rw [hget_hset]
  simp [hne]

theorem hset_isSome {V : Type} (h : Heap V) (i : Nat) (d : NodeData V) :
    ∀ j, (hget (hset h i d) j).isSome = (hget h j).isSome := by
  intro j
  rw [hget_hset]
  by_cases hji : j = i
  · subst hji
    cases hx : hget h j <;> simp [hx]
  · simp [hji]

theorem hget_append_new {V : Type} (h : Heap V) (n : Nat) (d : NodeData V)
    (hfresh : hget h n = none) :
    ∀ j, hget (h ++ [(n, d)]) j = if j = n then some d else hget h j := by
  induction h with
  | nil => intro j; simp [hget]; split <;> simp_all [hget, eq_comm]
  | cons p rest ih =>
    intro j
    obtain ⟨a, b⟩ := p
    simp only [hget] at hfresh
    by_cases haj : a = j
    · subst haj
      have : ¬(a = n) := by
        intro hh
        rw [if_pos hh] at hfresh
        cases hfresh
      simp [hget, this, Ne.symm this]
    · simp only [List.cons_append, hget, if_neg haj]
      by_cases han : a = n
      · rw [if_pos han] at hfresh
        cases hfresh
      · rw [if_neg han] at hfresh
        exact ih hfresh j

/-! ## Specification-side trees and zippers -/

/-- Spec-side binary tree with explicit node ids. -/
inductive BT (V : Type) where
  | nil
  | nd (l : BT V) (i : Nat) (c : Color) (k : Int) (v : V) (r : BT V)
deriving DecidableEq, Repr

/-- Root id of a spec tree. -/
def BT.rootId {V : Type} : BT V → Option Nat
  | .nil => none
  | .nd _ i _ _ _ _ => some i

/-- In-order listing of (id, key, value) triples. -/
def BT.flat {V : Type} : BT V → List (Nat × Int × V)
  | .nil => []
  | .nd l i _ k v r => l.flat ++ (i, k, v) :: r.flat

/-- In-order ids. -/
def BT.ids {V : Type} (bt : BT V) : List Nat := bt.flat.map Prod.fst

/-- In-order entries. -/
def BT.entries {V : Type} (bt : BT V) : List (Int × V) :=
  bt.flat.map Prod.snd

/-- In-order keys. -/
def BT.keys {V : Type} (bt : BT V) : List Int :=
  bt.flat.map (fun p => p.2.1)

/-- Node count. -/
def BT.size {V : Type} (bt : BT V) : Nat := bt.flat.length

/-- Strict BST order. -/
inductive Ordered {V : Type} : BT V → Prop
  | nil : Ordered .nil
  | nd {l : BT V} {i : Nat} {c : Color} {k : Int} {v : V} {r : BT V} :
      (∀ k' ∈ l.keys, k' < k) → (∀ k' ∈ r.keys, k < k') →
      Ordered l → Ordered r → Ordered (.nd l i c k v r)

/-- One zipper frame: the parent node's id, color, key, value, the
sibling subtree, and the side the hole is on. -/
structure CtxF (V : Type) where
  side : Side
  i : Nat
  c : Color
  k : Int
  v : V
  other : BT V
deriving DecidableEq, Repr

/-- A zipper context, innermost frame first. -/
abbrev Ctx (V : Type) := List (CtxF V)

/-- Fill one frame with a subtree. -/
def CtxF.fill {V : Type} (f : CtxF V) (sub : BT V) : BT V :=
  match f.side with
  | .left => .nd sub f.i f.c f.k f.v f.other
  | .right => .nd f.other f.i f.c f.k f.v sub

/-- Plug a subtree into a context. -/
def plug {V : Type} : Ctx V → BT V → BT V
  | [], sub => sub
  | f :: rest, sub => plug rest (f.fill sub)

/-- The parent id of the hole. -/
def pidCtx {V : Type} : Ctx V → Option Nat
  | [] => none
  | f :: _ => some f.i

/-- Ids mentioned by a context. -/
def ctxIds {V : Type} : Ctx V → List Nat
  | [] => []
  | f :: rest => f.i :: f.other.ids ++ ctxIds rest

/-- `k` is admissible at the hole of the context. -/
def InHole {V : Type} : Ctx V → Int → Prop
  | [], _ => True
  | f :: rest, k =>
    InHole rest k ∧
      (f.side = Side.left → k < f.k) ∧ (f.side = Side.right → f.k < k)

end RBImpl

namespace RBImpl

/-- A heap renders a spec tree at a link with a given parent id:
every node's record stores the parent id, its children's root ids, and
its color/key/value. -/
inductive Renders {V : Type} (h : Heap V) : Option Nat → BT V → Prop
  | nil (pid : Option Nat) : Renders h pid .nil
  | nd {pid : Option Nat} {l : BT V} {i : Nat} {c : Color} {k : Int}
      {v : V} {r : BT V} :
      hget h i = some ⟨pid, l.rootId, r.rootId, c, k, v⟩ →
      Renders h (some i) l → Renders h (some i) r →
      Renders h pid (.nd l i c k v r)

/-- A heap renders a zipper context around a hole currently occupied by
the link `cid`. -/
inductive RendersCtx {V : Type} (h : Heap V) : Ctx V → Option Nat → Prop
  | nil (cid : Option Nat) : RendersCtx h [] cid
  | cons {f : CtxF V} {rest : Ctx V} {cid : Option Nat} :
      hget h f.i = some ⟨pidCtx rest,
        (match f.side with | .left => cid | .right => f.other.rootId),
        (match f.side with | .left => f.other.rootId | .right => cid),
        f.c, f.k, f.v⟩ →
      Renders h (some f.i) f.other →
      RendersCtx h rest (some f.i) →
      RendersCtx h (f :: rest) cid

theorem BT.ids_nd {V : Type} (l : BT V) (i : Nat) (c : Color) (k : Int)
    (v : V) (r : BT V) :
    (BT.nd l i c k v r).ids = l.ids ++ i :: r.ids := by
  simp [BT.ids, BT.flat]

theorem BT.keys_nd {V : Type} (l : BT V) (i : Nat) (c : Color) (k : Int)
    (v : V) (r : BT V) :
    (BT.nd l i c k v r).keys = l.keys ++ k :: r.keys := by
  simp [BT.keys, BT.flat]

theorem BT.entries_nd {V : Type} (l : BT V) (i : Nat) (c : Color)
    (k : Int) (v : V) (r : BT V) :
    (BT.nd l i c k v r).entries = l.entries ++ (k, v) :: r.entries := by
  simp [BT.entries, BT.flat]

theorem fill_ids {V : Type} (f : CtxF V) (sub : BT V) :
    (f.fill sub).ids =
      match f.side with
      | .left => sub.ids ++ f.i :: f.other.ids
      | .right => f.other.ids ++ f.i :: sub.ids := by
  cases hs : f.side <;> simp [CtxF.fill, hs, BT.ids_nd]

theorem rootId_mem_ids {V : Type} {bt : BT V} {i : Nat}
    (hr : bt.rootId = some i) : i ∈ bt.ids := by
  cases bt with
  | nil => cases hr
  | nd l j c k v r =>
    cases hr
    simp [BT.ids_nd]

/-- Agreeing heaps render the same trees. -/
theorem renders_congr {V : Type} {h h' : Heap V} :
    ∀ {bt : BT V} {pid : Option Nat},
      (∀ j ∈ bt.ids, hget h' j = hget h j) →
      Renders h pid bt → Renders h' pid bt := by
  intro bt
  induction bt with
  | nil => intro pid _ _; exact .nil pid
  | nd l i c k v r ihl ihr =>
    intro pid hagree hr
    cases hr with
    | nd hg hl hrr =>
      refine .nd ?_ ?_ ?_
      · rw [hagree i (by simp [BT.ids_nd])]
        exact hg
      · exact ihl (fun j hj => hagree j (by simp [BT.ids_nd]; tauto)) hl
      · exact ihr (fun j hj => hagree j (by simp [BT.ids_nd]; tauto)) hrr

/-- Agreeing heaps render the same contexts. -/
theorem rendersCtx_congr {V : Type} {h h' : Heap V} :
    ∀ {ctx : Ctx V} {cid : Option Nat},
      (∀ j ∈ ctxIds ctx, hget h' j = hget h j) →
      RendersCtx h ctx cid → RendersCtx h' ctx cid := by
  intro ctx
  induction ctx with
  | nil => intro cid _ _; exact .nil cid
  | cons f rest ih =>
    intro cid hagree hr
    cases hr with
    | cons hg ho hrest =>
      refine .cons ?_ ?_ ?_
      · rw [hagree f.i (by simp [ctxIds])]
        exact hg
      · exact renders_congr
          (fun j hj => hagree j (by simp [ctxIds]; tauto)) ho
      · exact ih (fun j hj => hagree j (by simp [ctxIds]; tauto)) hrest

/-- Root of a plugged tree. -/
def plugRoot {V : Type} : Ctx V → Option Nat → Option Nat
  | [], r => r
  | f :: rest, _ => plugRoot rest (some f.i)

theorem plug_rootId {V : Type} :
    ∀ (ctx : Ctx V) (sub : BT V),
      (plug ctx sub).rootId = plugRoot ctx sub.rootId := by
  intro ctx
  induction ctx with
  | nil => intro sub; rfl
  | cons f rest ih =>
    intro sub
    show (plug rest (f.fill sub)).rootId = plugRoot rest (some f.i)
    rw [ih (f.fill sub)]
    cases hs : f.side <;> simp [CtxF.fill, hs, BT.rootId]

/-- Composing a rendered context with a rendered subtree renders the
plugged tree. -/
theorem renders_plug {V : Type} {h : Heap V} :
    ∀ {ctx : Ctx V} {sub : BT V},
      RendersCtx h ctx sub.rootId → Renders h (pidCtx ctx) sub →
      Renders h none (plug ctx sub) := by
  intro ctx
  induction ctx with
  | nil => intro sub _ hs; exact hs
  | cons f rest ih =>
    intro sub hc hs
    cases hc with
    | cons hg ho hrest =>
      have hfill : Renders h (pidCtx rest) (f.fill sub) := by
        cases hside : f.side
        · rw [show f.fill sub = .nd sub f.i f.c f.k f.v f.other from by
            simp [CtxF.fill, hside]]
          refine .nd ?_ hs ho
          rw [hg]
          simp [hside]
        · rw [show f.fill sub = .nd f.other f.i f.c f.k f.v sub from by
            simp [CtxF.fill, hside]]
          refine .nd ?_ ho hs
          rw [hg]
          simp [hside]
      have hroot : (f.fill sub).rootId = some f.i := by
        cases hside : f.side <;> simp [CtxF.fill, hside, BT.rootId]
      exact ih (hroot ▸ hrest) hfill

end RBImpl

namespace RBImpl

/-- Reference insertion into an entry list: insert before the first
larger key, replace an equal key (the specification of what `insert`
must do to the ordered entry list). -/
def insertE {V : Type} : List (Int × V) → Int → V → List (Int × V)
  | [], k, v => [(k, v)]
  | (k0, v0) :: rest, k, v =>
    if k < k0 then (k, v) :: (k0, v0) :: rest
    else if k = k0 then (k, v) :: rest
    else (k0, v0) :: insertE rest k v

/-- Reference lookup in an entry list. -/
def lookupE {V : Type} : List (Int × V) → Int → Option V
  | [], _ => none
  | (k0, v0) :: rest, k => if k = k0 then some v0 else lookupE rest k

theorem BT.size_nd {V : Type} (l : BT V) (i : Nat) (c : Color) (k : Int)
    (v : V) (r : BT V) :
    (BT.nd l i c k v r).size = l.size + r.size + 1 := by
  simp [BT.size, BT.flat]
  omega

/-- A context behaves on entries like a list context: there are fixed
prefix and suffix lists. -/
theorem plug_entries {V : Type} :
    ∀ (ctx : Ctx V), ∃ A B : List (Int × V),
      ∀ sub : BT V, (plug ctx sub).entries = A ++ sub.entries ++ B := by
  intro ctx
  induction ctx with
  | nil => exact ⟨[], [], fun sub => by simp [plug]⟩
  | cons f rest ih =>
    obtain ⟨A, B, hAB⟩ := ih
    cases hs : f.side
    · exact ⟨A, ((f.k, f.v) :: f.other.entries) ++ B, fun sub => by
        show (plug rest (f.fill sub)).entries = _
        rw [hAB (f.fill sub)]
        simp [CtxF.fill, hs, BT.entries_nd]⟩
    · exact ⟨A ++ f.other.entries ++ [(f.k, f.v)], B, fun sub => by
        show (plug rest (f.fill sub)).entries = _
        rw [hAB (f.fill sub)]
        simp [CtxF.fill, hs, BT.entries_nd]⟩

/-- Keys of an entry list. -/
def keysE {V : Type} (l : List (Int × V)) : List Int := l.map Prod.fst

theorem keys_eq_keysE_entries {V : Type} (bt : BT V) :
    bt.keys = keysE bt.entries := by
  simp [BT.keys, BT.entries, keysE]

/-- A tree is a BST iff its in-order key list is strictly sorted. -/
theorem ordered_iff_pairwise {V : Type} :
    ∀ bt : BT V, Ordered bt ↔ List.Pairwise (· < ·) bt.keys := by
  intro bt
  induction bt with
  | nil =>
    have : (BT.nil : BT V).keys = [] := by simp [BT.keys, BT.flat]
    rw [this]
    exact iff_of_true .nil .nil
  | nd l i c k v r ihl ihr =>
    rw [BT.keys_nd]
    constructor
    · intro ho
      cases ho with
      | nd hlk hrk hol hor =>
        rw [List.pairwise_append]
        refine ⟨ihl.mp hol, ?_, ?_⟩
        · rw [List.pairwise_cons]
          exact ⟨hrk, ihr.mp hor⟩
        · intro a ha b hb
          rcases List.mem_cons.mp hb with hb | hb
          · subst hb; exact hlk a ha
          · exact lt_trans (hlk a ha) (hrk b hb)
    · intro hp
      rw [List.pairwise_append, List.pairwise_cons] at hp
      obtain ⟨hA, ⟨hkr, hB⟩, hcross⟩ := hp
      exact .nd (fun k' hk' => hcross k' hk' k (by simp))
        hkr (ihl.mpr hA) (ihr.mpr hB)

theorem keysE_cons_append {V : Type} (ka : Int) (va : V)
    (rest tail : List (Int × V)) :
    keysE (((ka, va) :: rest) ++ tail) = ka :: keysE (rest ++ tail) := by
  simp [keysE]

/-- `insertE` inserts at the (sorted) hole position. -/
theorem insertE_insert {V : Type} (k : Int) (v : V) :
    ∀ (A B : List (Int × V)),
      List.Pairwise (· < ·) (keysE (A ++ (k, v) :: B)) →
      insertE (A ++ B) k v = A ++ (k, v) :: B := by
  intro A
  induction A with
  | nil =>
    intro B hp
    cases B with
    | nil => rfl
    | cons b rest =>
      obtain ⟨kb, vb⟩ := b
      have hp' : List.Pairwise (· < ·) (k :: kb :: keysE rest) := by
        simpa [keysE] using hp
      have hkb : k < kb := (List.pairwise_cons.mp hp').1 kb (by simp)
      simp [insertE, hkb]
  | cons a rest ih =>
    intro B hp
    obtain ⟨ka, va⟩ := a
    rw [keysE_cons_append, List.pairwise_cons] at hp
    have hka : ka < k := hp.1 k (by simp [keysE])
    have h1 : ¬ (k < ka) := by omega
    have h2 : ¬ (k = ka) := by omega
    rw [List.cons_append, List.cons_append]
    show insertE ((ka, va) :: (rest ++ B)) k v = (ka, va) :: (rest ++ (k, v) :: B)
    rw [insertE, if_neg h1, if_neg h2, ih B hp.2]

/-- `insertE` replaces the value at an existing (sorted) key. -/
theorem insertE_replace {V : Type} (k : Int) (v v1 : V) :
    ∀ (A B : List (Int × V)),
      List.Pairwise (· < ·) (keysE (A ++ (k, v1) :: B)) →
      insertE (A ++ (k, v1) :: B) k v = A ++ (k, v) :: B := by
  intro A
  induction A with
  | nil =>
    intro B _
    simp [insertE]
  | cons a rest ih =>
    intro B hp
    obtain ⟨ka, va⟩ := a
    rw [keysE_cons_append, List.pairwise_cons] at hp
    have hka : ka < k := hp.1 k (by simp [keysE])
    have h1 : ¬ (k < ka) := by omega
    have h2 : ¬ (k = ka) := by omega
    rw [List.cons_append, List.cons_append]
    show insertE ((ka, va) :: (rest ++ (k, v1) :: B)) k v =
      (ka, va) :: (rest ++ (k, v) :: B)
    rw [insertE, if_neg h1, if_neg h2, ih B hp.2]

/-- `lookupE` finds the value at an existing (sorted) key. -/
theorem lookupE_found {V : Type} (k : Int) (v1 : V) :
    ∀ (A B : List (Int × V)),
      List.Pairwise (· < ·) (keysE (A ++ (k, v1) :: B)) →
      lookupE (A ++ (k, v1) :: B) k = some v1 := by
  intro A
  induction A with
  | nil => intro B _; simp [lookupE]
  | cons a rest ih =>
    intro B hp
    obtain ⟨ka, va⟩ := a
    rw [keysE_cons_append, List.pairwise_cons] at hp
    have hka : ka < k := hp.1 k (by simp [keysE])
    have h2 : ¬ (k = ka) := by omega
    rw [List.cons_append]
    show lookupE ((ka, va) :: (rest ++ (k, v1) :: B)) k = some v1
    rw [lookupE, if_neg h2, ih B hp.2]

/-- `lookupE` returns `none` when no key matches. -/
theorem lookupE_none_of_ne {V : Type} (k : Int) :
    ∀ L : List (Int × V), (∀ k' ∈ keysE L, k ≠ k') → lookupE L k = none := by
  intro L
  induction L with
  | nil => intro _; rfl
  | cons a rest ih =>
    intro hne
    obtain ⟨ka, va⟩ := a
    rw [lookupE, if_neg (hne ka (by simp [keysE]))]
    exact ih (fun k' hk' => hne k' (by simp [keysE] at hk' ⊢; tauto))

/-- `lookupE` misses a key absent from a (sorted) list with a hole for
that key. -/
theorem lookupE_missing {V : Type} (k : Int) (v : V)
    (A B : List (Int × V))
    (hp : List.Pairwise (· < ·) (keysE (A ++ (k, v) :: B))) :
    lookupE (A ++ B) k = none := by
  have hk : keysE (A ++ (k, v) :: B) = keysE A ++ k :: keysE B := by
    simp [keysE]
  rw [hk, List.pairwise_append] at hp
  apply lookupE_none_of_ne
  intro k' hk'
  have : k' ∈ keysE A ∨ k' ∈ keysE B := by
    simp [keysE] at hk' ⊢
    tauto
  rcases this with h | h
  · have := hp.2.2 k' h k (by simp)
    omega
  · have := (List.pairwise_cons.mp hp.2.1).1 k' h
    omega

end RBImpl

namespace RBImpl

/-- Decomposing order at a hole: a subtree of an ordered tree is
ordered and all its keys are admissible at its hole. -/
theorem ordered_plug_decomp {V : Type} :
    ∀ (ctx : Ctx V) (sub : BT V), Ordered (plug ctx sub) →
      Ordered sub ∧ ∀ k ∈ sub.keys, InHole ctx k := by
  intro ctx
  induction ctx with
  | nil => intro sub ho; exact ⟨ho, fun _ _ => trivial⟩
  | cons f rest ih =>
    intro sub ho
    obtain ⟨hfill, hkeys⟩ := ih (f.fill sub) ho
    cases hs : f.side
    · rw [show f.fill sub = .nd sub f.i f.c f.k f.v f.other from by
        simp [CtxF.fill, hs]] at hfill hkeys
      cases hfill with
      | nd hlk hrk hol hor =>
        refine ⟨hol, fun k hk => ⟨hkeys k ?_, fun _ => hlk k hk,
          fun hcon => ?_⟩⟩
        · rw [BT.keys_nd]; exact List.mem_append_left _ hk
        · rw [hs] at hcon; cases hcon
    · rw [show f.fill sub = .nd f.other f.i f.c f.k f.v sub from by
        simp [CtxF.fill, hs]] at hfill hkeys
      cases hfill with
      | nd hlk hrk hol hor =>
        refine ⟨hor, fun k hk => ⟨hkeys k ?_, fun hcon => ?_,
          fun _ => hrk k hk⟩⟩
        · rw [BT.keys_nd]
          exact List.mem_append_right _ (List.mem_cons_of_mem _ hk)
        · rw [hs] at hcon; cases hcon

/-- Replacing the subtree at a hole with another ordered subtree whose
keys are admissible there keeps the whole tree ordered. -/
theorem ordered_plug_replace {V : Type} :
    ∀ (ctx : Ctx V) (sub sub' : BT V), Ordered (plug ctx sub) →
      Ordered sub' → (∀ k ∈ sub'.keys, InHole ctx k) →
      Ordered (plug ctx sub') := by
  intro ctx
  induction ctx with
  | nil => intro _ _ _ ho' _; exact ho'
  | cons f rest ih =>
    intro sub sub' ho ho' hk'
    obtain ⟨hfill, hkeys⟩ := ordered_plug_decomp rest (f.fill sub) ho
    refine ih (f.fill sub) (f.fill sub') ho ?_ ?_
    · cases hs : f.side
      · rw [show f.fill sub' = .nd sub' f.i f.c f.k f.v f.other from by
          simp [CtxF.fill, hs]]
        rw [show f.fill sub = .nd sub f.i f.c f.k f.v f.other from by
          simp [CtxF.fill, hs]] at hfill
        cases hfill with
        | nd hlk hrk hol hor =>
          exact .nd (fun k hk => ((hk' k hk).2.1 hs)) hrk ho' hor
      · rw [show f.fill sub' = .nd f.other f.i f.c f.k f.v sub' from by
          simp [CtxF.fill, hs]]
        rw [show f.fill sub = .nd f.other f.i f.c f.k f.v sub from by
          simp [CtxF.fill, hs]] at hfill
        cases hfill with
        | nd hlk hrk hol hor =>
          exact .nd hlk (fun k hk => ((hk' k hk).2.2 hs)) hol ho'
    · intro k hk
      cases hs : f.side
      · rw [show f.fill sub' = .nd sub' f.i f.c f.k f.v f.other from by
          simp [CtxF.fill, hs], BT.keys_nd] at hk
        rcases List.mem_append.mp hk with hk | hk
        · exact (hk' k hk).1
        · refine hkeys k ?_
          rw [show f.fill sub = .nd sub f.i f.c f.k f.v f.other from by
            simp [CtxF.fill, hs], BT.keys_nd]
          exact List.mem_append_right _ hk
      · rw [show f.fill sub' = .nd f.other f.i f.c f.k f.v sub' from by
          simp [CtxF.fill, hs], BT.keys_nd] at hk
        rcases List.mem_append.mp hk with hk | hk
        · refine hkeys k ?_
          rw [show f.fill sub = .nd f.other f.i f.c f.k f.v sub from by
            simp [CtxF.fill, hs], BT.keys_nd]
          exact List.mem_append_left _ hk
        · rcases List.mem_cons.mp hk with hk | hk
          · rw [hk]
            refine hkeys f.k ?_
            rw [show f.fill sub = .nd f.other f.i f.c f.k f.v sub from by
              simp [CtxF.fill, hs], BT.keys_nd]
            exact List.mem_append_right _ (List.mem_cons_self _ _)
          · exact (hk' k hk).1

end RBImpl

namespace RBImpl

/-- Specification of `NodeRef::search`, stated on the zipper it
implicitly descends: with enough fuel the search either finds the node
carrying the probe key, or stops at the empty slot where the key
belongs; in both cases the path context is rendered and admits the
probe key. -/
theorem searchFrom_spec {V : Type} :
    ∀ (fuel : Nat) (sub : BT V) (ctx : Ctx V) (h : Heap V) (k : Int)
      (i2 : Nat),
      sub.size < fuel →
      sub.rootId = some i2 →
      RendersCtx h ctx (some i2) →
      Renders h (pidCtx ctx) sub →
      InHole ctx k →
      (∃ (ctx2 : Ctx V) (l : BT V) (i : Nat) (c : Color) (v1 : V)
          (r : BT V),
          searchFrom h fuel i2 k = .ok (.found i) ∧
          plug ctx sub = plug ctx2 (.nd l i c k v1 r) ∧
          RendersCtx h ctx2 (some i) ∧
          Renders h (pidCtx ctx2) (.nd l i c k v1 r) ∧
          InHole ctx2 k) ∨
      (∃ (f : CtxF V) (ctx2 : Ctx V),
          searchFrom h fuel i2 k = .ok (.vacant f.i f.side) ∧
          plug ctx sub = plug (f :: ctx2) .nil ∧
          RendersCtx h (f :: ctx2) none ∧
          InHole (f :: ctx2) k) := by
  intro fuel
  induction fuel with
  | zero =>
    intro sub ctx h k i2 hsz
    omega
  | succ n ih =>
    intro sub ctx h k i2 hsz hroot hctx hsub hin
    cases sub with
    | nil => cases hroot
    | nd l i c k0 v0 r =>
      have hii : i2 = i := by
        simp [BT.rootId] at hroot
        omega
      subst hii
      cases hsub with
      | nd hg hl hr =>
        rcases lt_trichotomy k k0 with hcmp | hcmp | hcmp
        · -- descend left
          cases l with
          | nil =>
            right
            refine ⟨⟨.left, i2, c, k0, v0, r⟩, ctx, ?_, rfl, ?_, ?_⟩
            · simp [searchFrom, nread, hg, bind, Except.bind, icmp,
                hcmp, BT.rootId]
            · refine .cons ?_ hr hctx
              rw [hg]
              rfl
            · refine ⟨hin, fun _ => hcmp, ?_⟩
              intro hcon
              simp at hcon
          | nd ll li lc lk lv lr =>
            have heq : searchFrom h (n + 1) i2 k = searchFrom h n li k := by
              simp [searchFrom, nread, hg, bind, Except.bind, icmp, hcmp,
                BT.rootId]
            have hih := ih (BT.nd ll li lc lk lv lr)
              (⟨.left, i2, c, k0, v0, r⟩ :: ctx) h k li
              (by simp only [BT.size_nd] at hsz ⊢; omega)
              rfl
              (by
                refine .cons ?_ hr hctx
                rw [hg]
                rfl)
              hl
              (by
                refine ⟨hin, fun _ => hcmp, ?_⟩
                intro hcon
                simp at hcon)
            rcases hih with ⟨ctx2, l2, i3, c2, v2, r2, hse, hpl, h1, h2, h3⟩ |
              ⟨f2, ctx2, hse, hpl, h1, h2⟩
            · left
              exact ⟨ctx2, l2, i3, c2, v2, r2, heq.trans hse, hpl, h1, h2, h3⟩
            · right
              exact ⟨f2, ctx2, heq.trans hse, hpl, h1, h2⟩
        · -- found here
          subst hcmp
          left
          refine ⟨ctx, l, i2, c, v0, r, ?_, rfl, hctx, .nd hg hl hr, hin⟩
          simp [searchFrom, nread, hg, bind, Except.bind, icmp]
        · -- descend right
          have h1cmp : ¬ (k < k0) := by omega
          have h2cmp : ¬ (k = k0) := by omega
          cases r with
          | nil =>
            right
            refine ⟨⟨.right, i2, c, k0, v0, l⟩, ctx, ?_, rfl, ?_, ?_⟩
            · simp [searchFrom, nread, hg, bind, Except.bind, icmp,
                h1cmp, h2cmp, BT.rootId]
            · refine .cons ?_ hl hctx
              rw [hg]
              rfl
            · refine ⟨hin, ?_, fun _ => hcmp⟩
              intro hcon
              simp at hcon
          | nd rl ri rc rk rv rr =>
            have heq : searchFrom h (n + 1) i2 k = searchFrom h n ri k := by
              simp [searchFrom, nread, hg, bind, Except.bind, icmp,
                h1cmp, h2cmp, BT.rootId]
            have hih := ih (BT.nd rl ri rc rk rv rr)
              (⟨.right, i2, c, k0, v0, l⟩ :: ctx) h k ri
              (by simp only [BT.size_nd] at hsz ⊢; omega)
              rfl
              (by
                refine .cons ?_ hl hctx
                rw [hg]
                rfl)
              hr
              (by
                refine ⟨hin, ?_, fun _ => hcmp⟩
                intro hcon
                simp at hcon)
            rcases hih with ⟨ctx2, l2, i3, c2, v2, r2, hse, hpl, h1, h2, h3⟩ |
              ⟨f2, ctx2, hse, hpl, h1, h2⟩
            · left
              exact ⟨ctx2, l2, i3, c2, v2, r2, heq.trans hse, hpl, h1, h2, h3⟩
            · right
              exact ⟨f2, ctx2, heq.trans hse, hpl, h1, h2⟩

end RBImpl

namespace RBImpl

/-- A context acts on the in-order node listing as a fixed prefix and
suffix. -/
theorem plug_flat {V : Type} :
    ∀ (ctx : Ctx V), ∃ FA FB : List (Nat × Int × V),
      ∀ sub : BT V, (plug ctx sub).flat = FA ++ sub.flat ++ FB := by
  intro ctx
  induction ctx with
  | nil => exact ⟨[], [], fun sub => by simp [plug]⟩
  | cons f rest ih =>
    obtain ⟨FA, FB, hAB⟩ := ih
    cases hs : f.side
    · exact ⟨FA, ((f.i, f.k, f.v) :: f.other.flat) ++ FB, fun sub => by
        show (plug rest (f.fill sub)).flat = _
        rw [hAB (f.fill sub)]
        simp [CtxF.fill, hs, BT.flat]⟩
    · exact ⟨FA ++ f.other.flat ++ [(f.i, f.k, f.v)], FB, fun sub => by
        show (plug rest (f.fill sub)).flat = _
        rw [hAB (f.fill sub)]
        simp [CtxF.fill, hs, BT.flat]⟩

/-- The ids of a plugged tree are a permutation of the subtree's ids
and the context's ids. -/
theorem plug_ids_perm {V : Type} :
    ∀ (ctx : Ctx V) (sub : BT V),
      (plug ctx sub).ids.Perm (sub.ids ++ ctxIds ctx) := by
  intro ctx
  induction ctx with
  | nil => intro sub; simp [plug, ctxIds]
  | cons f rest ih =>
    intro sub
    have h1 : (plug (f :: rest) sub).ids = (plug rest (f.fill sub)).ids := rfl
    rw [h1]
    refine (ih (f.fill sub)).trans ?_
    rw [List.perm_iff_count]
    intro a
    cases hs : f.side <;>
      simp [fill_ids, hs, ctxIds, List.count_append, List.count_cons] <;>
      ring

/-- Extracting disjointness from a no-duplicate plugged tree. -/
theorem plug_nodup_parts {V : Type} (ctx : Ctx V) (sub : BT V)
    (hnd : (plug ctx sub).ids.Nodup) :
    sub.ids.Nodup ∧ (ctxIds ctx).Nodup ∧
      ∀ j ∈ ctxIds ctx, j ∉ sub.ids := by
  have hperm := plug_ids_perm ctx sub
  have h2 : (sub.ids ++ ctxIds ctx).Nodup := hperm.nodup_iff.mp hnd
  rw [List.nodup_append] at h2
  exact ⟨h2.1, h2.2.1, fun j hj hmem => h2.2.2 hmem hj⟩

/-- A live id is one of the heap's keys. -/
theorem hget_isSome_mem {V : Type} :
    ∀ (h : Heap V) (i : Nat), (hget h i).isSome = true →
      i ∈ h.map Prod.fst := by
  intro h
  induction h with
  | nil => intro i hi; simp [hget] at hi
  | cons p rest ih =>
    intro i hi
    obtain ⟨a, b⟩ := p
    by_cases hai : a = i
    · subst hai; simp
    · rw [hget, if_neg hai] at hi
      simp [ih i hi]

/-- There are at least as many heap cells as distinct live ids. -/
theorem ids_length_le {V : Type} (h : Heap V) (l : List Nat)
    (hnd : l.Nodup) (hdom : ∀ i ∈ l, (hget h i).isSome = true) :
    l.length ≤ h.length := by
  have hsub : l ⊆ h.map Prod.fst := fun i hi =>
    hget_isSome_mem h i (hdom i hi)
  have := (hnd.subperm hsub).length_le
  simpa using this

/-- Size is the length of the id list. -/
theorem size_eq_ids_length {V : Type} (bt : BT V) :
    bt.size = bt.ids.length := by
  simp [BT.size, BT.ids]

/-- The well-formedness relation between an implementation tree state
and the spec tree it renders. -/
structure WF {V : Type} (t : Tree V) (bt : BT V) : Prop where
  renders : Renders t.heap none bt
  rootEq : t.root = bt.rootId
  nodup : bt.ids.Nodup
  dom : ∀ i, (hget t.heap i).isSome = true ↔ i ∈ bt.ids
  fresh : ∀ i ∈ bt.ids, i < t.nextId
  lenEq : t.len = bt.size
  ord : Ordered bt

end RBImpl

namespace RBImpl

/-- Rebuilding a rendering when only the root's parent field changed. -/
theorem renders_reparent {V : Type} {h h' : Heap V} :
    ∀ {bt : BT V} {p p' : Option Nat} {rid : Nat},
      bt.rootId = some rid → bt.ids.Nodup →
      Renders h p bt →
      (∀ j ∈ bt.ids, j ≠ rid → hget h' j = hget h j) →
      (∀ d : NodeData V, hget h rid = some d →
        hget h' rid = some { d with parent := p' }) →
      Renders h' p' bt := by
  intro bt p p' rid hroot hnd hr hagree hrid
  cases bt with
  | nil => cases hroot
  | nd l i c k v r =>
    have hii : i = rid := by
      simp [BT.rootId] at hroot
      omega
    subst hii
    cases hr with
    | nd hg hl hrr =>
      rw [BT.ids_nd] at hnd hagree
      have hil : i ∉ l.ids := by
        intro hmem
        have := (List.nodup_append.mp hnd).2.2
        exact this hmem (List.mem_cons_self _ _)
      have hir : i ∉ r.ids := by
        have := (List.nodup_append.mp hnd).2.1
        exact (List.nodup_cons.mp this).1
      refine .nd (hrid _ hg) ?_ ?_
      · refine renders_congr (fun j hj => ?_) hl
        refine hagree j (List.mem_append_left _ hj) ?_
        intro hji
        subst hji
        exact hil hj
      · refine renders_congr (fun j hj => ?_) hrr
        refine hagree j
          (List.mem_append_right _ (List.mem_cons_of_mem _ hj)) ?_
        intro hji
        subst hji
        exact hir hj

/-- Membership of sub-ids and frame ids in each other, extracted from a
no-duplicate zipper. -/
theorem zip_nodup_head {V : Type} (f : CtxF V) (ctx : Ctx V)
    (sub : BT V) (hnd : (plug (f :: ctx) sub).ids.Nodup) :
    f.i ∉ sub.ids ∧ f.i ∉ f.other.ids ∧ f.i ∉ ctxIds ctx ∧
      (∀ j ∈ sub.ids, j ∉ f.other.ids ∧ j ∉ ctxIds ctx) := by
  obtain ⟨hsub, hctx, hdis⟩ := plug_nodup_parts (f :: ctx) sub hnd
  have hfi : f.i ∈ ctxIds (f :: ctx) := by simp [ctxIds]
  have hctx' := hctx
  rw [show ctxIds (f :: ctx) = f.i :: (f.other.ids ++ ctxIds ctx) from rfl,
    List.nodup_cons] at hctx'
  refine ⟨hdis f.i hfi, fun hmem => hctx'.1 (List.mem_append_left _ hmem),
    fun hmem => hctx'.1 (List.mem_append_right _ hmem), ?_⟩
  intro j hj
  constructor
  · intro hmem
    exact hdis j (by
      rw [show ctxIds (f :: ctx) = f.i :: (f.other.ids ++ ctxIds ctx)
        from rfl]
      exact List.mem_cons_of_mem _ (List.mem_append_left _ hmem)) hj
  · intro hmem
    exact hdis j (by
      rw [show ctxIds (f :: ctx) = f.i :: (f.other.ids ++ ctxIds ctx)
        from rfl]
      exact List.mem_cons_of_mem _ (List.mem_append_right _ hmem)) hj

end RBImpl

namespace RBImpl

/-- Ids, keys and size of a plugged tree do not depend on the value
stored at the hole node. -/
theorem plug_hole_value_inv {V : Type} (ctx : Ctx V) (l : BT V) (i : Nat)
    (c : Color) (k : Int) (v v1 : V) (r : BT V) :
    (plug ctx (BT.nd l i c k v r)).ids =
      (plug ctx (BT.nd l i c k v1 r)).ids ∧
    (plug ctx (BT.nd l i c k v r)).keys =
      (plug ctx (BT.nd l i c k v1 r)).keys ∧
    (plug ctx (BT.nd l i c k v r)).size =
      (plug ctx (BT.nd l i c k v1 r)).size := by
  obtain ⟨FA, FB, hAB⟩ := plug_flat ctx
  refine ⟨?_, ?_, ?_⟩ <;>
    simp [BT.ids, BT.keys, BT.size, hAB, BT.flat]

/-- The node id of a rendered nonempty subtree is not inside its own
children (from no-duplication). -/
theorem node_not_in_children {V : Type} (l : BT V) (i : Nat) (c : Color)
    (k : Int) (v : V) (r : BT V)
    (hnd : (BT.nd l i c k v r).ids.Nodup) :
    i ∉ l.ids ∧ i ∉ r.ids := by
  rw [BT.ids_nd] at hnd
  constructor
  · intro hmem
    exact (List.nodup_append.mp hnd).2.2 hmem (List.mem_cons_self _ _)
  · exact (List.nodup_cons.mp (List.nodup_append.mp hnd).2.1).1

/-- The value-replacement branch of `insert`: writing the new value
into the found node's record yields a well-formed tree whose entries
are the `insertE` update, and the displaced value is the `lookupE`
value. -/
theorem insert_found_spec {V : Type} (t : Tree V) (bt : BT V)
    (hwf : WF t bt) (k : Int) (v : V)
    (ctx2 : Ctx V) (l : BT V) (i : Nat) (c : Color) (v1 : V) (r : BT V)
    (hdec : bt = plug ctx2 (.nd l i c k v1 r))
    (hctx : RendersCtx t.heap ctx2 (some i))
    (hnode : Renders t.heap (pidCtx ctx2) (.nd l i c k v1 r)) :
    lookupE bt.entries k = some v1 ∧
    ∃ bt' : BT V,
      WF { t with
             heap := hset t.heap i
               ⟨pidCtx ctx2, l.rootId, r.rootId, c, k, v⟩ } bt' ∧
      bt'.entries = insertE bt.entries k v ∧
      bt'.size = bt.size := by
  obtain ⟨A, B, hAB⟩ := plug_entries ctx2
  have hbt : bt.entries = (A ++ l.entries) ++ (k, v1) :: (r.entries ++ B) := by
    rw [hdec, hAB, BT.entries_nd]
    simp
  have hpair : List.Pairwise (· < ·)
      (keysE ((A ++ l.entries) ++ (k, v1) :: (r.entries ++ B))) := by
    rw [← hbt, ← keys_eq_keysE_entries]
    exact (ordered_iff_pairwise bt).mp hwf.ord
  have hget0 : hget t.heap i =
      some ⟨pidCtx ctx2, l.rootId, r.rootId, c, k, v1⟩ := by
    cases hnode with
    | nd hg _ _ => exact hg
  -- disjointness facts
  have hndbt := hwf.nodup
  rw [hdec] at hndbt
  obtain ⟨hsubnd, hctxnd, hdis⟩ := plug_nodup_parts ctx2 _ hndbt
  have hiroot : i ∈ (BT.nd l i c k v1 r).ids := by simp [BT.ids_nd]
  have hictx : i ∉ ctxIds ctx2 := fun hmem => hdis i hmem hiroot
  obtain ⟨hil, hir⟩ := node_not_in_children l i c k v1 r hsubnd
  refine ⟨?_, ?_⟩
  · rw [hbt]
    exact lookupE_found k v1 _ _ hpair
  · refine ⟨plug ctx2 (.nd l i c k v r), ?_, ?_, ?_⟩
    · set h' := hset t.heap i ⟨pidCtx ctx2, l.rootId, r.rootId, c, k, v⟩
        with hh'
      have hagree : ∀ j, j ≠ i → hget h' j = hget t.heap j := by
        intro j hj
        exact hget_hset_ne _ _ _ _ hj
      have hctx' : RendersCtx h' ctx2 (some i) :=
        rendersCtx_congr
          (fun j hj => hagree j (fun hji => hictx (hji ▸ hj))) hctx
      have hnode' : Renders h' (pidCtx ctx2) (.nd l i c k v r) := by
        refine .nd ?_ ?_ ?_
        · exact hget_hset_self _ _ _ _ hget0
        · refine renders_congr (fun j hj => hagree j ?_) ?_
          · intro hji; exact hil (hji ▸ hj)
          · cases hnode with
            | nd _ hl _ => exact hl
        · refine renders_congr (fun j hj => hagree j ?_) ?_
          · intro hji; exact hir (hji ▸ hj)
          · cases hnode with
            | nd _ _ hr => exact hr
      obtain ⟨hids, hkeys, hsize⟩ :=
        plug_hole_value_inv ctx2 l i c k v v1 r
      refine ⟨renders_plug hctx' hnode', ?_, ?_, ?_, ?_, ?_, ?_⟩
      · show t.root = _
        rw [hwf.rootEq, hdec, plug_rootId, plug_rootId]
        rfl
      · rw [hids, ← hdec]
        exact hwf.nodup
      · intro j
        show (hget h' j).isSome = true ↔ _
        rw [hh', hset_isSome, hids, ← hdec]
        exact hwf.dom j
      · intro j hj
        rw [hids, ← hdec] at hj
        exact hwf.fresh j hj
      · show t.len = _
        rw [hsize, ← hdec]
        exact hwf.lenEq
      · rw [ordered_iff_pairwise, hkeys, ← hdec,
          ← ordered_iff_pairwise]
        exact hwf.ord
    · rw [hbt, insertE_replace k v v1 _ _ hpair, hAB, BT.entries_nd]
      simp
    · obtain ⟨_, _, hsize⟩ := plug_hole_value_inv ctx2 l i c k v v1 r
      rw [hsize, ← hdec]

end RBImpl

namespace RBImpl

/-! ## Step equations for the node primitives, under known records -/

theorem nread_ok {V : Type} {h : Heap V} {i : Nat} {d : NodeData V}
    (hg : hget h i = some d) : nread h i = .ok d := by
  simp [nread, hg]

theorem parentOf_ok {V : Type} {h : Heap V} {i : Nat} {d : NodeData V}
    (hg : hget h i = some d) : parentOf h i = .ok d.parent := by
  simp [parentOf, nread, hg, bind, Except.bind]

theorem childOf_ok {V : Type} {h : Heap V} {i : Nat} {d : NodeData V}
    (hg : hget h i = some d) (s : Side) :
    childOf h i s = .ok (d.child s) := by
  cases s <;> simp [childOf, nread, hg, bind, Except.bind, NodeData.child]

theorem isRedB_ok {V : Type} {h : Heap V} {i : Nat} {d : NodeData V}
    (hg : hget h i = some d) :
    isRedB h i = .ok (decide (d.color = Color.red)) := by
  simp [isRedB, colorOf, nread, hg, bind, Except.bind, pure, Except.pure]

theorem setColor_ok {V : Type} {h : Heap V} {i : Nat} {d : NodeData V}
    (hg : hget h i = some d) (c : Color) :
    setColor h i c = .ok (hset h i { d with color := c }) := by
  simp [setColor, nread, hg, bind, Except.bind]

theorem unwrapO_ok {α : Type} (a : α) : unwrapO (some a) = .ok a := rfl

theorem setChild_none_ok {V : Type} {h : Heap V} {i : Nat} {d : NodeData V}
    (hg : hget h i = some d) (s : Side) :
    setChild h i s none = .ok (hset h i (d.withChild s none)) := by
  simp [setChild, nread, hg, bind, Except.bind, pure, Except.pure]

theorem setChild_some_ok {V : Type} {h : Heap V} {i ci : Nat}
    {d cd : NodeData V} (hg : hget h i = some d) (hgc : hget h ci = some cd)
    (hne : ci ≠ i) (s : Side) :
    setChild h i s (some ci) =
      .ok (hset (hset h ci { cd with parent := some i }) i
        (d.withChild s (some ci))) := by
  have h2 : hget (hset h ci { cd with parent := some i }) i = some d := by
    rw [hget_hset_ne _ _ _ _ (Ne.symm hne)]
    exact hg
  simp [setChild, nread, hg, hgc, h2, bind, Except.bind, pure, Except.pure]

theorem clearChild_ok {V : Type} {h : Heap V} {i ci : Nat}
    {d cd : NodeData V} (hg : hget h i = some d) (s : Side)
    (hch : d.child s = some ci) (hgc : hget h ci = some cd) (hne : ci ≠ i) :
    clearChild h i s =
      .ok (hset (hset h ci { cd with parent := none }) i
        (d.withChild s none), ci) := by
  have h2 : hget (hset h ci { cd with parent := none }) i = some d := by
    rw [hget_hset_ne _ _ _ _ (Ne.symm hne)]
    exact hg
  simp [clearChild, nread, hg, hch, hgc, h2, bind, Except.bind, pure,
    Except.pure]

theorem indexOnParent_root_ok {V : Type} {h : Heap V} {i : Nat}
    {d : NodeData V} (hg : hget h i = some d) (hp : d.parent = none) :
    indexOnParent h i = .ok none := by
  simp [indexOnParent, nread, hg, hp, bind, Except.bind]

theorem indexOnParent_ok {V : Type} {h : Heap V} {i p : Nat}
    {d pd : NodeData V} (hg : hget h i = some d) (hp : d.parent = some p)
    (hgp : hget h p = some pd) :
    indexOnParent h i =
      .ok (some (if pd.left = some i then Side.left else Side.right)) := by
  simp [indexOnParent, nread, hg, hp, hgp, bind, Except.bind]

theorem indexAndParent_root_ok {V : Type} {h : Heap V} {i : Nat}
    {d : NodeData V} (hg : hget h i = some d) (hp : d.parent = none) :
    indexAndParent h i = .ok none := by
  simp [indexAndParent, indexOnParent_root_ok hg hp, nread, hg, hp, bind,
    Except.bind]

theorem indexAndParent_ok {V : Type} {h : Heap V} {i p : Nat}
    {d pd : NodeData V} (hg : hget h i = some d) (hp : d.parent = some p)
    (hgp : hget h p = some pd) :
    indexAndParent h i =
      .ok (some ((if pd.left = some i then Side.left else Side.right),
        p)) := by
  simp [indexAndParent, indexOnParent_ok hg hp hgp, nread, hg, hp, bind,
    Except.bind]

end RBImpl

namespace RBImpl

/-! ## Frame records and flat-listing congruences -/

/-- The node record a heap stores for a zipper frame whose hole holds
the link `cid` (this is the record `RendersCtx` demands). -/
def CtxF.node {V : Type} (f : CtxF V) (pid : Option Nat)
    (cid : Option Nat) : NodeData V :=
  ⟨pid,
    (match f.side with | Side.left => cid | Side.right => f.other.rootId),
    (match f.side with | Side.left => f.other.rootId | Side.right => cid),
    f.c, f.k, f.v⟩

theorem rendersCtx_cons_inv {V : Type} {h : Heap V} {f : CtxF V}
    {rest : Ctx V} {cid : Option Nat}
    (hc : RendersCtx h (f :: rest) cid) :
    hget h f.i = some (f.node (pidCtx rest) cid) ∧
      Renders h (some f.i) f.other ∧ RendersCtx h rest (some f.i) := by
  cases hc with
  | cons hg ho hr => exact ⟨hg, ho, hr⟩

theorem rendersCtx_cons_mk {V : Type} {h : Heap V} {f : CtxF V}
    {rest : Ctx V} {cid : Option Nat}
    (hg : hget h f.i = some (f.node (pidCtx rest) cid))
    (ho : Renders h (some f.i) f.other)
    (hr : RendersCtx h rest (some f.i)) :
    RendersCtx h (f :: rest) cid :=
  .cons hg ho hr

theorem renders_nd_inv {V : Type} {h : Heap V} {pid : Option Nat}
    {l : BT V} {i : Nat} {c : Color} {k : Int} {v : V} {r : BT V}
    (hr : Renders h pid (.nd l i c k v r)) :
    hget h i = some ⟨pid, l.rootId, r.rootId, c, k, v⟩ ∧
      Renders h (some i) l ∧ Renders h (some i) r := by
  cases hr with
  | nd hg hl hrr => exact ⟨hg, hl, hrr⟩

theorem node_parent {V : Type} (f : CtxF V) (pid cid : Option Nat) :
    (f.node (V := V) pid cid).parent = pid := rfl

theorem node_child_hole {V : Type} (f : CtxF V) (pid cid : Option Nat) :
    (f.node (V := V) pid cid).child f.side = cid := by
  cases hs : f.side <;> simp [CtxF.node, NodeData.child, hs]

theorem node_child_opp {V : Type} (f : CtxF V) (pid cid : Option Nat) :
    (f.node (V := V) pid cid).child f.side.opp = f.other.rootId := by
  cases hs : f.side <;> simp [CtxF.node, NodeData.child, Side.opp, hs]

theorem node_withChild_hole {V : Type} (f : CtxF V)
    (pid cid cid' : Option Nat) :
    (f.node (V := V) pid cid).withChild f.side cid' = f.node pid cid' := by
  cases hs : f.side <;> simp [CtxF.node, NodeData.withChild, hs]

theorem node_recolor {V : Type} (f : CtxF V) (pid cid : Option Nat)
    (c : Color) :
    { f.node (V := V) pid cid with color := c } =
      CtxF.node { f with c := c } pid cid := by
  cases hs : f.side <;> simp [CtxF.node, hs]

theorem node_left_detect {V : Type} (f : CtxF V) (pid : Option Nat)
    (x : Nat) (hno : x ∉ f.other.ids) :
    (if (f.node (V := V) pid (some x)).left = some x
      then Side.left else Side.right) = f.side := by
  cases hs : f.side
  · simp [CtxF.node, hs]
  · rw [if_neg]
    intro hcon
    simp [CtxF.node, hs] at hcon
    exact hno (rootId_mem_ids hcon)

theorem fill_flat {V : Type} (f : CtxF V) (sub : BT V) :
    (f.fill sub).flat =
      match f.side with
      | Side.left => sub.flat ++ (f.i, f.k, f.v) :: f.other.flat
      | Side.right => f.other.flat ++ (f.i, f.k, f.v) :: sub.flat := by
  cases hs : f.side <;> simp [CtxF.fill, hs, BT.flat]

theorem plug_flat_congr {V : Type} (ctx : Ctx V) {sub sub' : BT V}
    (hf : sub.flat = sub'.flat) :
    (plug ctx sub).flat = (plug ctx sub').flat := by
  obtain ⟨FA, FB, hAB⟩ := plug_flat ctx
  rw [hAB, hAB, hf]

theorem plug_ids_congr {V : Type} (ctx : Ctx V) {sub sub' : BT V}
    (hf : sub.flat = sub'.flat) :
    (plug ctx sub).ids = (plug ctx sub').ids := by
  simp [BT.ids, plug_flat_congr ctx hf]

theorem fill_flat_congr {V : Type} (f f' : CtxF V) {sub sub' : BT V}
    (hside : f'.side = f.side) (hi : f'.i = f.i) (hk : f'.k = f.k)
    (hv : f'.v = f.v) (hother : f'.other.flat = f.other.flat)
    (hsub : sub'.flat = sub.flat) :
    (f'.fill sub').flat = (f.fill sub).flat := by
  rw [fill_flat, fill_flat, hside, hi, hk, hv, hother, hsub]

theorem flat_recolor {V : Type} (l : BT V) (i : Nat) (c c' : Color)
    (k : Int) (v : V) (r : BT V) :
    (BT.nd l i c k v r).flat = (BT.nd l i c' k v r).flat := rfl

theorem ctx_length_le_ids {V : Type} :
    ∀ ctx : Ctx V, ctx.length ≤ (ctxIds ctx).length := by
  intro ctx
  induction ctx with
  | nil => simp [ctxIds]
  | cons f rest ih =>
    simp only [ctxIds, List.length_cons, List.length_append]
    omega

theorem mem_plug_of_mem_ctxIds {V : Type} (ctx : Ctx V) (sub : BT V)
    (j : Nat) (hj : j ∈ ctxIds ctx) : j ∈ (plug ctx sub).ids :=
  (plug_ids_perm ctx sub).mem_iff.mpr (List.mem_append_right _ hj)

theorem mem_plug_of_mem_sub {V : Type} (ctx : Ctx V) (sub : BT V)
    (j : Nat) (hj : j ∈ sub.ids) : j ∈ (plug ctx sub).ids :=
  (plug_ids_perm ctx sub).mem_iff.mpr (List.mem_append_left _ hj)

/-- `renders_reparent` for a possibly-empty subtree. -/
theorem renders_reparent_opt {V : Type} {h h' : Heap V} {bt : BT V}
    {p p' : Option Nat} (hnd : bt.ids.Nodup) (hr : Renders h p bt)
    (hagree : ∀ j ∈ bt.ids, bt.rootId ≠ some j → hget h' j = hget h j)
    (hroot : ∀ (m : Nat) (d : NodeData V), bt.rootId = some m →
      hget h m = some d → hget h' m = some { d with parent := p' }) :
    Renders h' p' bt := by
  cases hbt : bt with
  | nil => exact .nil p'
  | nd l i c k v r =>
    subst hbt
    refine renders_reparent rfl hnd hr ?_ ?_
    · intro j hj hne
      refine hagree j hj ?_
      intro hcon
      simp only [BT.rootId, Option.some_inj] at hcon
      exact hne hcon.symm
    · intro d hd
      exact hroot i d rfl hd

end RBImpl

namespace RBImpl

/-! ## The rebalancer's loop state and exit contract -/

/-- Loop state of the insert rebalancer: the heap renders a zipper and
the tree's root slot tracks the plugged root. -/
structure ZipSt {V : Type} (t : Tree V) (ctx : Ctx V) (sub : BT V) :
    Prop where
  ctxr : RendersCtx t.heap ctx sub.rootId
  subr : Renders t.heap (pidCtx ctx) sub
  rootEq : t.root = (plug ctx sub).rootId
  nodup : (plug ctx sub).ids.Nodup

/-- The rebalancer's exit contract: it returns a tree rendering some
spec tree with the same in-order listing, touching no allocation. -/
def BalExit {V : Type} (t0 : Tree V) (bt0 : BT V)
    (r : Except RErr (Tree V)) : Prop :=
  ∃ (t' : Tree V) (bt' : BT V), r = .ok t' ∧
    Renders t'.heap none bt' ∧
    t'.root = bt'.rootId ∧
    bt'.flat = bt0.flat ∧
    (∀ j, (hget t'.heap j).isSome = (hget t0.heap j).isSome) ∧
    t'.len = t0.len ∧ t'.nextId = t0.nextId

theorem balExit_congr {V : Type} {t t' : Tree V} {bt bt' : BT V}
    {r : Except RErr (Tree V)} (hb : BalExit t' bt' r)
    (hflat : bt'.flat = bt.flat)
    (hsome : ∀ j, (hget t'.heap j).isSome = (hget t.heap j).isSome)
    (hlen : t'.len = t.len) (hnext : t'.nextId = t.nextId) :
    BalExit t bt r := by
  obtain ⟨t2, bt2, hr, hren, hroot, hf, hs, hl, hn⟩ := hb
  exact ⟨t2, bt2, hr, hren, hroot, hf.trans hflat,
    fun j => (hs j).trans (hsome j), hl.trans hlen, hn.trans hnext⟩

/-- A `ZipSt` whose context is fully unwound is an exit state. -/
theorem balExit_of_zipSt {V : Type} {t t' : Tree V} {ctx : Ctx V}
    {sub : BT V} (hz : ZipSt t' ctx sub)
    (hsome : ∀ j, (hget t'.heap j).isSome = (hget t.heap j).isSome)
    (hlen : t'.len = t.len) (hnext : t'.nextId = t.nextId) :
    BalExit t (plug ctx sub) (.ok t') :=
  ⟨t', plug ctx sub, rfl, renders_plug hz.ctxr hz.subr, hz.rootEq, rfl,
    hsome, hlen, hnext⟩

/-- Descending the zipper into the right child. -/
theorem zipSt_down_right {V : Type} {t : Tree V} {ctx : Ctx V}
    {sl : BT V} {i : Nat} {c : Color} {k : Int} {v : V} {r : BT V}
    (hz : ZipSt t ctx (BT.nd sl i c k v r)) :
    ZipSt t (⟨Side.right, i, c, k, v, sl⟩ :: ctx) r := by
  obtain ⟨hg, hl, hr⟩ := renders_nd_inv hz.subr
  have hfill : (CtxF.fill ⟨Side.right, i, c, k, v, sl⟩ r : BT V) =
      BT.nd sl i c k v r := rfl
  refine ⟨?_, ?_, ?_, ?_⟩
  · refine rendersCtx_cons_mk ?_ hl hz.ctxr
    rw [hg]
    rfl
  · exact hr
  · show t.root = (plug ctx _).rootId
    rw [hfill]
    exact hz.rootEq
  · show (plug ctx _).ids.Nodup
    rw [hfill]
    exact hz.nodup

/-- Descending the zipper into the left child. -/
theorem zipSt_down_left {V : Type} {t : Tree V} {ctx : Ctx V}
    {sl : BT V} {i : Nat} {c : Color} {k : Int} {v : V} {r : BT V}
    (hz : ZipSt t ctx (BT.nd sl i c k v r)) :
    ZipSt t (⟨Side.left, i, c, k, v, r⟩ :: ctx) sl := by
  obtain ⟨hg, hl, hr⟩ := renders_nd_inv hz.subr
  have hfill : (CtxF.fill ⟨Side.left, i, c, k, v, r⟩ sl : BT V) =
      BT.nd sl i c k v r := rfl
  refine ⟨?_, ?_, ?_, ?_⟩
  · refine rendersCtx_cons_mk ?_ hr hz.ctxr
    rw [hg]
    rfl
  · exact hl
  · show t.root = (plug ctx _).rootId
    rw [hfill]
    exact hz.rootEq
  · show (plug ctx _).ids.Nodup
    rw [hfill]
    exact hz.nodup

end RBImpl

namespace RBImpl

/-! ## Rotation on the rendered zipper -/

/-- The subtree one rotation step produces: the hole's root promoted
over the parent frame's node. -/
def rotSub {V : Type} (fp : CtxF V) (sl : BT V) (tg : Nat) (sc : Color)
    (sk : Int) (sv : V) (sr : BT V) : BT V :=
  match fp.side with
  | Side.left =>
      BT.nd sl tg sc sk sv (BT.nd sr fp.i fp.c fp.k fp.v fp.other)
  | Side.right =>
      BT.nd (BT.nd fp.other fp.i fp.c fp.k fp.v sl) tg sc sk sv sr

/-- The re-linking tail of `rotate`, rotating a left child up: the
pivot `tg` takes the demoted node `fi`'s place, `fi` becomes its right
child and the pivot's old right subtree moves under `fi`. -/
theorem rotFinish_left_spec {V : Type} (t1 : Tree V) (rest : Ctx V)
    (fi : Nat) (fc : Color) (fk : Int) (fv : V) (fother : BT V)
    (sl : BT V) (tg : Nat) (sc : Color) (sk : Int) (sv : V) (sr : BT V)
    (hgt1 : hget t1.heap tg =
      some ⟨pidCtx rest, sl.rootId, sr.rootId, sc, sk, sv⟩)
    (hgf1 : hget t1.heap fi =
      some ⟨none, some tg, fother.rootId, fc, fk, fv⟩)
    (hctx1 : RendersCtx t1.heap rest (some tg))
    (hsl1 : Renders t1.heap (some tg) sl)
    (hsr1 : Renders t1.heap (some tg) sr)
    (hof1 : Renders t1.heap (some fi) fother)
    (hroot1 : t1.root = plugRoot rest (some tg))
    (hfi_tg : fi ≠ tg)
    (hfi_sl : fi ∉ sl.ids) (hfi_sr : fi ∉ sr.ids)
    (hfi_oth : fi ∉ fother.ids) (hfi_rest : fi ∉ ctxIds rest)
    (htg_sl : tg ∉ sl.ids) (htg_sr : tg ∉ sr.ids)
    (htg_oth : tg ∉ fother.ids) (htg_rest : tg ∉ ctxIds rest)
    (hsrnd : sr.ids.Nodup)
    (hsr_disj : ∀ j ∈ sr.ids, j ∉ sl.ids ∧ j ∉ fother.ids ∧
      j ∉ ctxIds rest)
    (hnd2 : (plug rest (BT.nd sl tg sc sk sv
      (BT.nd sr fi fc fk fv fother))).ids.Nodup) :
    ∃ t2 : Tree V,
      rotFinish t1 fi tg Side.left sr.rootId = .ok (t2, tg) ∧
      ZipSt t2 rest
        (BT.nd sl tg sc sk sv (BT.nd sr fi fc fk fv fother)) ∧
      (∀ j, (hget t2.heap j).isSome = (hget t1.heap j).isSome) ∧
      t2.len = t1.len ∧ t2.nextId = t1.nextId := by
  have hs1 := setChild_some_ok hgt1 hgf1 hfi_tg Side.right
  set w5 : Heap V :=
    hset t1.heap fi { (⟨none, some tg, fother.rootId, fc, fk, fv⟩ :
      NodeData V) with parent := some tg } with hw5
  set w6 : Heap V := hset w5 tg
    ((⟨pidCtx rest, sl.rootId, sr.rootId, sc, sk, sv⟩ :
      NodeData V).withChild Side.right (some fi)) with hw6
  have hg5t : hget w5 tg =
      some ⟨pidCtx rest, sl.rootId, sr.rootId, sc, sk, sv⟩ := by
    rw [hw5, hget_hset_ne _ _ _ _ (Ne.symm hfi_tg)]
    exact hgt1
  have hg6t : hget w6 tg =
      some ⟨pidCtx rest, sl.rootId, some fi, sc, sk, sv⟩ := by
    rw [hw6, hget_hset_self _ _ _ _ hg5t]
    rfl
  have hg6f : hget w6 fi =
      some ⟨some tg, some tg, fother.rootId, fc, fk, fv⟩ := by
    rw [hw6, hget_hset_ne _ _ _ _ hfi_tg, hw5,
      hget_hset_self _ _ _ _ hgf1]
  have hg6other : ∀ j, j ≠ tg → j ≠ fi → hget w6 j = hget t1.heap j := by
    intro j hj1 hj2
    rw [hw6, hget_hset_ne _ _ _ _ hj1, hw5, hget_hset_ne _ _ _ _ hj2]
  cases sr with
  | nil =>
    set w8 : Heap V :=
      hset w6 fi ((⟨some tg, some tg, fother.rootId, fc, fk, fv⟩ :
        NodeData V).withChild Side.left none) with hw8
    have hrun : rotFinish t1 fi tg Side.left (BT.nil (V := V)).rootId =
        .ok ({ t1 with heap := w8 }, tg) := by
      show rotFinish t1 fi tg Side.left none = _
      simp only [rotFinish, Side.opp]
      rw [hs1]
      simp only [bind, Except.bind]
      rw [setChild_none_ok hg6f Side.left]
    have hg8f : hget w8 fi =
        some ⟨some tg, none, fother.rootId, fc, fk, fv⟩ := by
      rw [hw8, hget_hset_self _ _ _ _ hg6f]
      rfl
    have hg8t : hget w8 tg =
        some ⟨pidCtx rest, sl.rootId, some fi, sc, sk, sv⟩ := by
      rw [hw8, hget_hset_ne _ _ _ _ hfi_tg.symm]
      exact hg6t
    have hg8other : ∀ j, j ≠ tg → j ≠ fi →
        hget w8 j = hget t1.heap j := by
      intro j hj1 hj2
      rw [hw8, hget_hset_ne _ _ _ _ hj2]
      exact hg6other j hj1 hj2
    refine ⟨_, hrun, ⟨?_, ?_, ?_, hnd2⟩, ?_, rfl, rfl⟩
    · refine rendersCtx_congr (h := t1.heap) ?_ hctx1
      intro j hj
      exact hg8other j (fun hc => htg_rest (hc ▸ hj))
        (fun hc => hfi_rest (hc ▸ hj))
    · refine Renders.nd ?_ ?_ ?_
      · exact hg8t
      · refine renders_congr (h := t1.heap) ?_ hsl1
        intro j hj
        exact hg8other j (fun hc => htg_sl (hc ▸ hj))
          (fun hc => hfi_sl (hc ▸ hj))
      · refine Renders.nd ?_ (.nil _) ?_
        · exact hg8f
        · refine renders_congr (h := t1.heap) ?_ hof1
          intro j hj
          exact hg8other j (fun hc => htg_oth (hc ▸ hj))
            (fun hc => hfi_oth (hc ▸ hj))
    · show t1.root = _
      rw [plug_rootId, hroot1]
      rfl
    · intro j
      show (hget w8 j).isSome = _
      rw [hw8, hset_isSome, hw6, hset_isSome, hw5, hset_isSome]
  | nd srl m src srk srv srr =>
    have hmid : (BT.nd srl m src srk srv srr).rootId = some m := rfl
    have hm_tg : m ≠ tg := by
      intro hc
      exact htg_sr (hc ▸ rootId_mem_ids hmid)
    have hm_fi : m ≠ fi := by
      intro hc
      exact hfi_sr (hc ▸ rootId_mem_ids hmid)
    obtain ⟨hgm1, hml, hmr⟩ := renders_nd_inv hsr1
    have hg6m : hget w6 m =
        some ⟨some tg, srl.rootId, srr.rootId, src, srk, srv⟩ :=
      (hg6other m hm_tg hm_fi).trans hgm1
    set w7 : Heap V := hset w6 m { (⟨some tg, srl.rootId, srr.rootId,
      src, srk, srv⟩ : NodeData V) with parent := some fi } with hw7
    set w8 : Heap V := hset w7 fi
      ((⟨some tg, some tg, fother.rootId, fc, fk, fv⟩ :
        NodeData V).withChild Side.left (some m)) with hw8
    have hrun : rotFinish t1 fi tg Side.left
        (BT.nd srl m src srk srv srr).rootId =
        .ok ({ t1 with heap := w8 }, tg) := by
      show rotFinish t1 fi tg Side.left (some m) = _
      simp only [rotFinish, Side.opp]
      rw [hs1]
      simp only [bind, Except.bind]
      rw [setChild_some_ok hg6f hg6m hm_fi Side.left]
    have hg8f : hget w8 fi =
        some ⟨some tg, some m, fother.rootId, fc, fk, fv⟩ := by
      have h7 : hget w7 fi =
          some ⟨some tg, some tg, fother.rootId, fc, fk, fv⟩ := by
        rw [hw7, hget_hset_ne _ _ _ _ hm_fi.symm]
        exact hg6f
      rw [hw8, hget_hset_self _ _ _ _ h7]
      rfl
    have hg8t : hget w8 tg =
        some ⟨pidCtx rest, sl.rootId, some fi, sc, sk, sv⟩ := by
      rw [hw8, hget_hset_ne _ _ _ _ hfi_tg.symm, hw7,
        hget_hset_ne _ _ _ _ hm_tg.symm]
      exact hg6t
    have hg8m : hget w8 m =
        some ⟨some fi, srl.rootId, srr.rootId, src, srk, srv⟩ := by
      rw [hw8, hget_hset_ne _ _ _ _ hm_fi, hw7,
        hget_hset_self _ _ _ _ hg6m]
    have hg8other : ∀ j, j ≠ tg → j ≠ fi → j ≠ m →
        hget w8 j = hget t1.heap j := by
      intro j hj1 hj2 hj3
      rw [hw8, hget_hset_ne _ _ _ _ hj2, hw7, hget_hset_ne _ _ _ _ hj3]
      exact hg6other j hj1 hj2
    have hsr_sub : ∀ j, j ∈ srl.ids ∨ j ∈ srr.ids →
        j ∈ (BT.nd srl m src srk srv srr).ids := by
      intro j hj
      rw [BT.ids_nd]
      rcases hj with hj | hj
      · exact List.mem_append_left _ hj
      · exact List.mem_append_right _ (List.mem_cons_of_mem _ hj)
    obtain ⟨hm_srl, hm_srr⟩ :=
      node_not_in_children srl m src srk srv srr hsrnd
    refine ⟨_, hrun, ⟨?_, ?_, ?_, hnd2⟩, ?_, rfl, rfl⟩
    · refine rendersCtx_congr (h := t1.heap) ?_ hctx1
      intro j hj
      refine hg8other j (fun hc => htg_rest (hc ▸ hj))
        (fun hc => hfi_rest (hc ▸ hj)) ?_
      intro hc
      exact ((hsr_disj m (rootId_mem_ids hmid)).2.2) (hc ▸ hj)
    · refine Renders.nd ?_ ?_ ?_
      · exact hg8t
      · refine renders_congr (h := t1.heap) ?_ hsl1
        intro j hj
        refine hg8other j (fun hc => htg_sl (hc ▸ hj))
          (fun hc => hfi_sl (hc ▸ hj)) ?_
        intro hc
        exact ((hsr_disj m (rootId_mem_ids hmid)).1) (hc ▸ hj)
      · refine Renders.nd ?_ ?_ ?_
        · exact hg8f
        · refine Renders.nd ?_ ?_ ?_
          · exact hg8m
          · refine renders_congr (h := t1.heap) ?_ hml
            intro j hj
            refine hg8other j ?_ ?_ ?_
            · intro hc
              exact htg_sr (hc ▸ hsr_sub j (Or.inl hj))
            · intro hc
              exact hfi_sr (hc ▸ hsr_sub j (Or.inl hj))
            · intro hc
              exact hm_srl (hc ▸ hj)
          · refine renders_congr (h := t1.heap) ?_ hmr
            intro j hj
            refine hg8other j ?_ ?_ ?_
            · intro hc
              exact htg_sr (hc ▸ hsr_sub j (Or.inr hj))
            · intro hc
              exact hfi_sr (hc ▸ hsr_sub j (Or.inr hj))
            · intro hc
              exact hm_srr (hc ▸ hj)
        · refine renders_congr (h := t1.heap) ?_ hof1
          intro j hj
          refine hg8other j (fun hc => htg_oth (hc ▸ hj))
            (fun hc => hfi_oth (hc ▸ hj)) ?_
          intro hc
          exact ((hsr_disj m (rootId_mem_ids hmid)).2.1) (hc ▸ hj)
    · show t1.root = _
      rw [plug_rootId, hroot1]
      rfl
    · intro j
      show (hget w8 j).isSome = _
      rw [hw8, hset_isSome, hw7, hset_isSome, hw6, hset_isSome, hw5,
        hset_isSome]

end RBImpl

namespace RBImpl

/-- The re-linking tail of `rotate`, rotating a right child up (mirror
of `rotFinish_left_spec`). -/
theorem rotFinish_right_spec {V : Type} (t1 : Tree V) (rest : Ctx V)
    (fi : Nat) (fc : Color) (fk : Int) (fv : V) (fother : BT V)
    (sl : BT V) (tg : Nat) (sc : Color) (sk : Int) (sv : V) (sr : BT V)
    (hgt1 : hget t1.heap tg =
      some ⟨pidCtx rest, sl.rootId, sr.rootId, sc, sk, sv⟩)
    (hgf1 : hget t1.heap fi =
      some ⟨none, fother.rootId, some tg, fc, fk, fv⟩)
    (hctx1 : RendersCtx t1.heap rest (some tg))
    (hsl1 : Renders t1.heap (some tg) sl)
    (hsr1 : Renders t1.heap (some tg) sr)
    (hof1 : Renders t1.heap (some fi) fother)
    (hroot1 : t1.root = plugRoot rest (some tg))
    (hfi_tg : fi ≠ tg)
    (hfi_sl : fi ∉ sl.ids) (hfi_sr : fi ∉ sr.ids)
    (hfi_oth : fi ∉ fother.ids) (hfi_rest : fi ∉ ctxIds rest)
    (htg_sl : tg ∉ sl.ids) (htg_sr : tg ∉ sr.ids)
    (htg_oth : tg ∉ fother.ids) (htg_rest : tg ∉ ctxIds rest)
    (hslnd : sl.ids.Nodup)
    (hsl_disj : ∀ j ∈ sl.ids, j ∉ sr.ids ∧ j ∉ fother.ids ∧
      j ∉ ctxIds rest)
    (hnd2 : (plug rest (BT.nd (BT.nd fother fi fc fk fv sl) tg sc sk sv
      sr)).ids.Nodup) :
    ∃ t2 : Tree V,
      rotFinish t1 fi tg Side.right sl.rootId = .ok (t2, tg) ∧
      ZipSt t2 rest
        (BT.nd (BT.nd fother fi fc fk fv sl) tg sc sk sv sr) ∧
      (∀ j, (hget t2.heap j).isSome = (hget t1.heap j).isSome) ∧
      t2.len = t1.len ∧ t2.nextId = t1.nextId := by
  have hs1 := setChild_some_ok hgt1 hgf1 hfi_tg Side.left
  set w5 : Heap V :=
    hset t1.heap fi { (⟨none, fother.rootId, some tg, fc, fk, fv⟩ :
      NodeData V) with parent := some tg } with hw5
  set w6 : Heap V := hset w5 tg
    ((⟨pidCtx rest, sl.rootId, sr.rootId, sc, sk, sv⟩ :
      NodeData V).withChild Side.left (some fi)) with hw6
  have hg5t : hget w5 tg =
      some ⟨pidCtx rest, sl.rootId, sr.rootId, sc, sk, sv⟩ := by
    rw [hw5, hget_hset_ne _ _ _ _ (Ne.symm hfi_tg)]
    exact hgt1
  have hg6t : hget w6 tg =
      some ⟨pidCtx rest, some fi, sr.rootId, sc, sk, sv⟩ := by
    rw [hw6, hget_hset_self _ _ _ _ hg5t]
    rfl
  have hg6f : hget w6 fi =
      some ⟨some tg, fother.rootId, some tg, fc, fk, fv⟩ := by
    rw [hw6, hget_hset_ne _ _ _ _ hfi_tg, hw5,
      hget_hset_self _ _ _ _ hgf1]
  have hg6other : ∀ j, j ≠ tg → j ≠ fi → hget w6 j = hget t1.heap j := by
    intro j hj1 hj2
    rw [hw6, hget_hset_ne _ _ _ _ hj1, hw5, hget_hset_ne _ _ _ _ hj2]
  cases sl with
  | nil =>
    set w8 : Heap V :=
      hset w6 fi ((⟨some tg, fother.rootId, some tg, fc, fk, fv⟩ :
        NodeData V).withChild Side.right none) with hw8
    have hrun : rotFinish t1 fi tg Side.right (BT.nil (V := V)).rootId =
        .ok ({ t1 with heap := w8 }, tg) := by
      show rotFinish t1 fi tg Side.right none = _
      simp only [rotFinish, Side.opp]
      rw [hs1]
      simp only [bind, Except.bind]
      rw [setChild_none_ok hg6f Side.right]
    have hg8f : hget w8 fi =
        some ⟨some tg, fother.rootId, none, fc, fk, fv⟩ := by
      rw [hw8, hget_hset_self _ _ _ _ hg6f]
      rfl
    have hg8t : hget w8 tg =
        some ⟨pidCtx rest, some fi, sr.rootId, sc, sk, sv⟩ := by
      rw [hw8, hget_hset_ne _ _ _ _ hfi_tg.symm]
      exact hg6t
    have hg8other : ∀ j, j ≠ tg → j ≠ fi →
        hget w8 j = hget t1.heap j := by
      intro j hj1 hj2
      rw [hw8, hget_hset_ne _ _ _ _ hj2]
      exact hg6other j hj1 hj2
    refine ⟨_, hrun, ⟨?_, ?_, ?_, hnd2⟩, ?_, rfl, rfl⟩
    · refine rendersCtx_congr (h := t1.heap) ?_ hctx1
      intro j hj
      exact hg8other j (fun hc => htg_rest (hc ▸ hj))
        (fun hc => hfi_rest (hc ▸ hj))
    · refine Renders.nd ?_ ?_ ?_
      · exact hg8t
      · refine Renders.nd ?_ ?_ (.nil _)
        · exact hg8f
        · refine renders_congr (h := t1.heap) ?_ hof1
          intro j hj
          exact hg8other j (fun hc => htg_oth (hc ▸ hj))
            (fun hc => hfi_oth (hc ▸ hj))
      · refine renders_congr (h := t1.heap) ?_ hsr1
        intro j hj
        exact hg8other j (fun hc => htg_sr (hc ▸ hj))
          (fun hc => hfi_sr (hc ▸ hj))
    · show t1.root = _
      rw [plug_rootId, hroot1]
      rfl
    · intro j
      show (hget w8 j).isSome = _
      rw [hw8, hset_isSome, hw6, hset_isSome, hw5, hset_isSome]
  | nd sll m slc slk slv slr =>
    have hmid : (BT.nd sll m slc slk slv slr).rootId = some m := rfl
    have hm_tg : m ≠ tg := by
      intro hc
      exact htg_sl (hc ▸ rootId_mem_ids hmid)
    have hm_fi : m ≠ fi := by
      intro hc
      exact hfi_sl (hc ▸ rootId_mem_ids hmid)
    obtain ⟨hgm1, hml, hmr⟩ := renders_nd_inv hsl1
    have hg6m : hget w6 m =
        some ⟨some tg, sll.rootId, slr.rootId, slc, slk, slv⟩ :=
      (hg6other m hm_tg hm_fi).trans hgm1
    set w7 : Heap V := hset w6 m { (⟨some tg, sll.rootId, slr.rootId,
      slc, slk, slv⟩ : NodeData V) with parent := some fi } with hw7
    set w8 : Heap V := hset w7 fi
      ((⟨some tg, fother.rootId, some tg, fc, fk, fv⟩ :
        NodeData V).withChild Side.right (some m)) with hw8
    have hrun : rotFinish t1 fi tg Side.right
        (BT.nd sll m slc slk slv slr).rootId =
        .ok ({ t1 with heap := w8 }, tg) := by
      show rotFinish t1 fi tg Side.right (some m) = _
      simp only [rotFinish, Side.opp]
      rw [hs1]
      simp only [bind, Except.bind]
      rw [setChild_some_ok hg6f hg6m hm_fi Side.right]
    have hg8f : hget w8 fi =
        some ⟨some tg, fother.rootId, some m, fc, fk, fv⟩ := by
      have h7 : hget w7 fi =
          some ⟨some tg, fother.rootId, some tg, fc, fk, fv⟩ := by
        rw [hw7, hget_hset_ne _ _ _ _ hm_fi.symm]
        exact hg6f
      rw [hw8, hget_hset_self _ _ _ _ h7]
      rfl
    have hg8t : hget w8 tg =
        some ⟨pidCtx rest, some fi, sr.rootId, sc, sk, sv⟩ := by
      rw [hw8, hget_hset_ne _ _ _ _ hfi_tg.symm, hw7,
        hget_hset_ne _ _ _ _ hm_tg.symm]
      exact hg6t
    have hg8m : hget w8 m =
        some ⟨some fi, sll.rootId, slr.rootId, slc, slk, slv⟩ := by
      rw [hw8, hget_hset_ne _ _ _ _ hm_fi, hw7,
        hget_hset_self _ _ _ _ hg6m]
    have hg8other : ∀ j, j ≠ tg → j ≠ fi → j ≠ m →
        hget w8 j = hget t1.heap j := by
      intro j hj1 hj2 hj3
      rw [hw8, hget_hset_ne _ _ _ _ hj2, hw7, hget_hset_ne _ _ _ _ hj3]
      exact hg6other j hj1 hj2
    have hsl_sub : ∀ j, j ∈ sll.ids ∨ j ∈ slr.ids →
        j ∈ (BT.nd sll m slc slk slv slr).ids := by
      intro j hj
      rw [BT.ids_nd]
      rcases hj with hj | hj
      · exact List.mem_append_left _ hj
      · exact List.mem_append_right _ (List.mem_cons_of_mem _ hj)
    obtain ⟨hm_sll, hm_slr⟩ :=
      node_not_in_children sll m slc slk slv slr hslnd
    refine ⟨_, hrun, ⟨?_, ?_, ?_, hnd2⟩, ?_, rfl, rfl⟩
    · refine rendersCtx_congr (h := t1.heap) ?_ hctx1
      intro j hj
      refine hg8other j (fun hc => htg_rest (hc ▸ hj))
        (fun hc => hfi_rest (hc ▸ hj)) ?_
      intro hc
      exact ((hsl_disj m (rootId_mem_ids hmid)).2.2) (hc ▸ hj)
    · refine Renders.nd ?_ ?_ ?_
      · exact hg8t
      · refine Renders.nd ?_ ?_ ?_
        · exact hg8f
        · refine renders_congr (h := t1.heap) ?_ hof1
          intro j hj
          refine hg8other j (fun hc => htg_oth (hc ▸ hj))
            (fun hc => hfi_oth (hc ▸ hj)) ?_
          intro hc
          exact ((hsl_disj m (rootId_mem_ids hmid)).2.1) (hc ▸ hj)
        · refine Renders.nd ?_ ?_ ?_
          · exact hg8m
          · refine renders_congr (h := t1.heap) ?_ hml
            intro j hj
            refine hg8other j ?_ ?_ ?_
            · intro hc
              exact htg_sl (hc ▸ hsl_sub j (Or.inl hj))
            · intro hc
              exact hfi_sl (hc ▸ hsl_sub j (Or.inl hj))
            · intro hc
              exact hm_sll (hc ▸ hj)
          · refine renders_congr (h := t1.heap) ?_ hmr
            intro j hj
            refine hg8other j ?_ ?_ ?_
            · intro hc
              exact htg_sl (hc ▸ hsl_sub j (Or.inr hj))
            · intro hc
              exact hfi_sl (hc ▸ hsl_sub j (Or.inr hj))
            · intro hc
              exact hm_slr (hc ▸ hj)
      · refine renders_congr (h := t1.heap) ?_ hsr1
        intro j hj
        refine hg8other j (fun hc => htg_sr (hc ▸ hj))
          (fun hc => hfi_sr (hc ▸ hj)) ?_
        intro hc
        exact ((hsl_disj m (rootId_mem_ids hmid)).1) (hc ▸ hj)
    · show t1.root = _
      rw [plug_rootId, hroot1]
      rfl
    · intro j
      show (hget w8 j).isSome = _
      rw [hw8, hset_isSome, hw7, hset_isSome, hw6, hset_isSome, hw5,
        hset_isSome]

end RBImpl

namespace RBImpl

/-- `rotate` at a node whose left child is the rendered hole: full
specification including the parent re-link (or root-slot update). -/
theorem rotate_left_spec {V : Type} (t : Tree V) (rest : Ctx V)
    (fi : Nat) (fc : Color) (fk : Int) (fv : V) (fother : BT V)
    (sl : BT V) (tg : Nat) (sc : Color) (sk : Int) (sv : V) (sr : BT V)
    (hgt : hget t.heap tg =
      some ⟨some fi, sl.rootId, sr.rootId, sc, sk, sv⟩)
    (hgf : hget t.heap fi =
      some ⟨pidCtx rest, some tg, fother.rootId, fc, fk, fv⟩)
    (hctx : RendersCtx t.heap rest (some fi))
    (hsl : Renders t.heap (some tg) sl)
    (hsr : Renders t.heap (some tg) sr)
    (hof : Renders t.heap (some fi) fother)
    (hroot : t.root = plugRoot rest (some fi))
    (hfi_tg : fi ≠ tg)
    (hfi_sl : fi ∉ sl.ids) (hfi_sr : fi ∉ sr.ids)
    (hfi_oth : fi ∉ fother.ids) (hfi_rest : fi ∉ ctxIds rest)
    (htg_sl : tg ∉ sl.ids) (htg_sr : tg ∉ sr.ids)
    (htg_oth : tg ∉ fother.ids) (htg_rest : tg ∉ ctxIds rest)
    (hsl_rest : ∀ j ∈ sl.ids, j ∉ ctxIds rest)
    (hoth_rest : ∀ j ∈ fother.ids, j ∉ ctxIds rest)
    (hctxnd : (ctxIds rest).Nodup)
    (hsrnd : sr.ids.Nodup)
    (hsr_disj : ∀ j ∈ sr.ids, j ∉ sl.ids ∧ j ∉ fother.ids ∧
      j ∉ ctxIds rest)
    (hnd2 : (plug rest (BT.nd sl tg sc sk sv
      (BT.nd sr fi fc fk fv fother))).ids.Nodup) :
    ∃ t2 : Tree V,
      rotate t fi Side.left = .ok (t2, tg) ∧
      ZipSt t2 rest
        (BT.nd sl tg sc sk sv (BT.nd sr fi fc fk fv fother)) ∧
      (∀ j, (hget t2.heap j).isSome = (hget t.heap j).isSome) ∧
      t2.len = t.len ∧ t2.nextId = t.nextId := by
  cases rest with
  | nil =>
    set t1 : Tree V := { t with
      heap := hset t.heap tg { (⟨some fi, sl.rootId, sr.rootId, sc, sk,
        sv⟩ : NodeData V) with parent := none },
      root := some tg } with ht1
    have hgt1 : hget t1.heap tg =
        some ⟨pidCtx ([] : Ctx V), sl.rootId, sr.rootId, sc, sk, sv⟩ := by
      show hget (hset t.heap tg _) tg = _
      rw [hget_hset_self _ _ _ _ hgt]
      rfl
    have hgf1 : hget t1.heap fi =
        some ⟨none, some tg, fother.rootId, fc, fk, fv⟩ := by
      show hget (hset t.heap tg _) fi = _
      rw [hget_hset_ne _ _ _ _ hfi_tg]
      exact hgf
    have hother1 : ∀ j, j ≠ tg → hget t1.heap j = hget t.heap j := by
      intro j hj
      show hget (hset t.heap tg _) j = _
      rw [hget_hset_ne _ _ _ _ hj]
    obtain ⟨t2, hrun2, hzip2, hsome2, hlen2, hnext2⟩ :=
      rotFinish_left_spec t1 [] fi fc fk fv fother sl tg sc sk sv sr
        hgt1 hgf1 (.nil _)
        (renders_congr (fun j hj => hother1 j
          (fun hc => htg_sl (hc ▸ hj))) hsl)
        (renders_congr (fun j hj => hother1 j
          (fun hc => htg_sr (hc ▸ hj))) hsr)
        (renders_congr (fun j hj => hother1 j
          (fun hc => htg_oth (hc ▸ hj))) hof)
        rfl hfi_tg hfi_sl hfi_sr hfi_oth hfi_rest htg_sl htg_sr htg_oth
        htg_rest hsrnd hsr_disj hnd2
    refine ⟨t2, ?_, hzip2, ?_, hlen2, hnext2⟩
    · show rotate t fi Side.left = _
      rw [← hrun2]
      simp only [rotate, Side.opp, childOf_ok hgf Side.left,
        childOf_ok hgt Side.right, NodeData.child, bind, Except.bind,
        unwrapO, indexAndParent_root_ok hgf rfl, nread_ok hgt, pure,
        Except.pure]
    · intro j
      rw [hsome2 j]
      show (hget (hset t.heap tg _) j).isSome = _
      rw [hset_isSome]
  | cons f3 rest3 =>
    have hf3_mem : f3.i ∈ ctxIds (f3 :: rest3) := by simp [ctxIds]
    have hfi_f3 : fi ≠ f3.i := fun hc => hfi_rest (hc ▸ hf3_mem)
    have htg_f3 : tg ≠ f3.i := fun hc => htg_rest (hc ▸ hf3_mem)
    obtain ⟨hg3, ho3, hrest3⟩ := rendersCtx_cons_inv hctx
    have hmem_o3 : ∀ j ∈ f3.other.ids, j ∈ ctxIds (f3 :: rest3) := by
      intro j hj
      show j ∈ f3.i :: (f3.other.ids ++ ctxIds rest3)
      exact List.mem_cons_of_mem _ (List.mem_append_left _ hj)
    have hmem_r3 : ∀ j ∈ ctxIds rest3, j ∈ ctxIds (f3 :: rest3) := by
      intro j hj
      show j ∈ f3.i :: (f3.other.ids ++ ctxIds rest3)
      exact List.mem_cons_of_mem _ (List.mem_append_right _ hj)
    have hfi_o3 : fi ∉ f3.other.ids := fun hm => hfi_rest (hmem_o3 _ hm)
    have htg_o3 : tg ∉ f3.other.ids := fun hm => htg_rest (hmem_o3 _ hm)
    have hfi_r3 : fi ∉ ctxIds rest3 := fun hm => hfi_rest (hmem_r3 _ hm)
    have htg_r3 : tg ∉ ctxIds rest3 := fun hm => htg_rest (hmem_r3 _ hm)
    have hctxnd3 : f3.i ∉ f3.other.ids ∧ f3.i ∉ ctxIds rest3 ∧
        (∀ j ∈ f3.other.ids, j ∉ ctxIds rest3) := by
      have h0 : (ctxIds (f3 :: rest3)).Nodup := hctxnd
      rw [show ctxIds (f3 :: rest3) =
        f3.i :: (f3.other.ids ++ ctxIds rest3) from rfl,
        List.nodup_cons, List.nodup_append] at h0
      refine ⟨fun hmem => h0.1 (List.mem_append_left _ hmem),
        fun hmem => h0.1 (List.mem_append_right _ hmem), ?_⟩
      intro j hj hmem
      exact h0.2.2.2 hj hmem
    set a1 : Heap V := hset t.heap fi
      { (⟨pidCtx (f3 :: rest3), some tg, fother.rootId, fc, fk, fv⟩ :
        NodeData V) with parent := none } with ha1
    set a2 : Heap V := hset a1 f3.i
      ((f3.node (pidCtx rest3) (some fi)).withChild f3.side none)
      with ha2
    have hg_a2_f3 : hget a2 f3.i =
        some (f3.node (pidCtx rest3) none) := by
      have h1 : hget a1 f3.i =
          some (f3.node (pidCtx rest3) (some fi)) := by
        rw [ha1, hget_hset_ne _ _ _ _ (Ne.symm hfi_f3)]
        exact hg3
      rw [ha2, hget_hset_self _ _ _ _ h1, node_withChild_hole]
    have hg_a2_tg : hget a2 tg =
        some ⟨some fi, sl.rootId, sr.rootId, sc, sk, sv⟩ := by
      rw [ha2, hget_hset_ne _ _ _ _ htg_f3, ha1,
        hget_hset_ne _ _ _ _ (Ne.symm hfi_tg)]
      exact hgt
    set a3 : Heap V := hset a2 tg
      { (⟨some fi, sl.rootId, sr.rootId, sc, sk, sv⟩ : NodeData V) with
        parent := some f3.i } with ha3
    set a4 : Heap V := hset a3 f3.i
      ((f3.node (pidCtx rest3) none).withChild f3.side (some tg))
      with ha4
    set t1 : Tree V := { t with heap := a4 } with ht1
    have hg_a4_f3 : hget a4 f3.i =
        some (f3.node (pidCtx rest3) (some tg)) := by
      have h1 : hget a3 f3.i = some (f3.node (pidCtx rest3) none) := by
        rw [ha3, hget_hset_ne _ _ _ _ (Ne.symm htg_f3)]
        exact hg_a2_f3
      rw [ha4, hget_hset_self _ _ _ _ h1, node_withChild_hole]
    have hg_a4_tg : hget a4 tg =
        some ⟨some f3.i, sl.rootId, sr.rootId, sc, sk, sv⟩ := by
      rw [ha4, hget_hset_ne _ _ _ _ htg_f3, ha3,
        hget_hset_self _ _ _ _ hg_a2_tg]
    have hg_a4_fi : hget a4 fi =
        some ⟨none, some tg, fother.rootId, fc, fk, fv⟩ := by
      rw [ha4, hget_hset_ne _ _ _ _ hfi_f3, ha3,
        hget_hset_ne _ _ _ _ hfi_tg, ha2,
        hget_hset_ne _ _ _ _ hfi_f3, ha1,
        hget_hset_self _ _ _ _ hgf]
    have hg_a4_other : ∀ j, j ≠ tg → j ≠ fi → j ≠ f3.i →
        hget a4 j = hget t.heap j := by
      intro j h1 h2 h3
      rw [ha4, hget_hset_ne _ _ _ _ h3, ha3, hget_hset_ne _ _ _ _ h1,
        ha2, hget_hset_ne _ _ _ _ h3, ha1, hget_hset_ne _ _ _ _ h2]
    have hctx1 : RendersCtx t1.heap (f3 :: rest3) (some tg) := by
      refine rendersCtx_cons_mk hg_a4_f3 ?_ ?_
      · refine renders_congr (fun j hj => ?_) ho3
        exact hg_a4_other j (fun hc => htg_o3 (hc ▸ hj))
          (fun hc => hfi_o3 (hc ▸ hj))
          (fun hc => hctxnd3.1 (hc ▸ hj))
      · refine rendersCtx_congr (fun j hj => ?_) hrest3
        exact hg_a4_other j (fun hc => htg_r3 (hc ▸ hj))
          (fun hc => hfi_r3 (hc ▸ hj))
          (fun hc => hctxnd3.2.1 (hc ▸ hj))
    have hsl1 : Renders t1.heap (some tg) sl := by
      refine renders_congr (fun j hj => ?_) hsl
      exact hg_a4_other j (fun hc => htg_sl (hc ▸ hj))
        (fun hc => hfi_sl (hc ▸ hj))
        (fun hc => hsl_rest j hj (hc ▸ hf3_mem))
    have hsr1 : Renders t1.heap (some tg) sr := by
      refine renders_congr (fun j hj => ?_) hsr
      exact hg_a4_other j (fun hc => htg_sr (hc ▸ hj))
        (fun hc => hfi_sr (hc ▸ hj))
        (fun hc => (hsr_disj j hj).2.2 (hc ▸ hf3_mem))
    have hof1 : Renders t1.heap (some fi) fother := by
      refine renders_congr (fun j hj => ?_) hof
      exact hg_a4_other j (fun hc => htg_oth (hc ▸ hj))
        (fun hc => hfi_oth (hc ▸ hj))
        (fun hc => hoth_rest j hj (hc ▸ hf3_mem))
    have hroot1 : t1.root = plugRoot (f3 :: rest3) (some tg) := by
      show t.root = _
      rw [hroot]
      rfl
    obtain ⟨t2, hrun2, hzip2, hsome2, hlen2, hnext2⟩ :=
      rotFinish_left_spec t1 (f3 :: rest3) fi fc fk fv fother sl tg sc
        sk sv sr hg_a4_tg hg_a4_fi hctx1 hsl1 hsr1 hof1 hroot1 hfi_tg hfi_sl
        hfi_sr hfi_oth hfi_rest htg_sl htg_sr htg_oth htg_rest hsrnd
        hsr_disj hnd2
    refine ⟨t2, ?_, hzip2, ?_, hlen2, hnext2⟩
    · show rotate t fi Side.left = _
      rw [← hrun2]
      have hsc2 : setChild a2 f3.i f3.side (some tg) = .ok a4 := by
        rw [setChild_some_ok hg_a2_f3 hg_a2_tg htg_f3 f3.side, ha4, ha3]
      rw [ha2, ha1] at hsc2
      simp only [rotate, childOf_ok hgf Side.left,
        childOf_ok hgt Side.right, NodeData.child, bind, Except.bind,
        unwrapO, indexAndParent_ok hgf rfl hg3,
        node_left_detect f3 (pidCtx rest3) fi hfi_o3,
        clearChild_ok hg3 f3.side
          (node_child_hole f3 (pidCtx rest3) (some fi)) hgf hfi_f3,
        node_withChild_hole, pure, Except.pure, Side.opp] at hsc2 ⊢
      rw [hsc2]
    · intro j
      rw [hsome2 j]
      show (hget a4 j).isSome = _
      rw [ha4, hset_isSome, ha3, hset_isSome, ha2, hset_isSome, ha1,
        hset_isSome]

end RBImpl

namespace RBImpl

/-- `rotate` at a node whose right child is the rendered hole (mirror
of `rotate_left_spec`). -/
theorem rotate_right_spec {V : Type} (t : Tree V) (rest : Ctx V)
    (fi : Nat) (fc : Color) (fk : Int) (fv : V) (fother : BT V)
    (sl : BT V) (tg : Nat) (sc : Color) (sk : Int) (sv : V) (sr : BT V)
    (hgt : hget t.heap tg =
      some ⟨some fi, sl.rootId, sr.rootId, sc, sk, sv⟩)
    (hgf : hget t.heap fi =
      some ⟨pidCtx rest, fother.rootId, some tg, fc, fk, fv⟩)
    (hctx : RendersCtx t.heap rest (some fi))
    (hsl : Renders t.heap (some tg) sl)
    (hsr : Renders t.heap (some tg) sr)
    (hof : Renders t.heap (some fi) fother)
    (hroot : t.root = plugRoot rest (some fi))
    (hfi_tg : fi ≠ tg)
    (hfi_sl : fi ∉ sl.ids) (hfi_sr : fi ∉ sr.ids)
    (hfi_oth : fi ∉ fother.ids) (hfi_rest : fi ∉ ctxIds rest)
    (htg_sl : tg ∉ sl.ids) (htg_sr : tg ∉ sr.ids)
    (htg_oth : tg ∉ fother.ids) (htg_rest : tg ∉ ctxIds rest)
    (hsr_rest : ∀ j ∈ sr.ids, j ∉ ctxIds rest)
    (hoth_rest : ∀ j ∈ fother.ids, j ∉ ctxIds rest)
    (hctxnd : (ctxIds rest).Nodup)
    (hslnd : sl.ids.Nodup)
    (hsl_disj : ∀ j ∈ sl.ids, j ∉ sr.ids ∧ j ∉ fother.ids ∧
      j ∉ ctxIds rest)
    (hnd2 : (plug rest (BT.nd (BT.nd fother fi fc fk fv sl) tg sc sk sv
      sr)).ids.Nodup) :
    ∃ t2 : Tree V,
      rotate t fi Side.right = .ok (t2, tg) ∧
      ZipSt t2 rest
        (BT.nd (BT.nd fother fi fc fk fv sl) tg sc sk sv sr) ∧
      (∀ j, (hget t2.heap j).isSome = (hget t.heap j).isSome) ∧
      t2.len = t.len ∧ t2.nextId = t.nextId := by
  cases rest with
  | nil =>
    set t1 : Tree V := { t with
      heap := hset t.heap tg { (⟨some fi, sl.rootId, sr.rootId, sc, sk,
        sv⟩ : NodeData V) with parent := none },
      root := some tg } with ht1
    have hgt1 : hget t1.heap tg =
        some ⟨pidCtx ([] : Ctx V), sl.rootId, sr.rootId, sc, sk, sv⟩ := by
      show hget (hset t.heap tg _) tg = _
      rw [hget_hset_self _ _ _ _ hgt]
      rfl
    have hgf1 : hget t1.heap fi =
        some ⟨none, fother.rootId, some tg, fc, fk, fv⟩ := by
      show hget (hset t.heap tg _) fi = _
      rw [hget_hset_ne _ _ _ _ hfi_tg]
      exact hgf
    have hother1 : ∀ j, j ≠ tg → hget t1.heap j = hget t.heap j := by
      intro j hj
      show hget (hset t.heap tg _) j = _
      rw [hget_hset_ne _ _ _ _ hj]
    obtain ⟨t2, hrun2, hzip2, hsome2, hlen2, hnext2⟩ :=
      rotFinish_right_spec t1 [] fi fc fk fv fother sl tg sc sk sv sr
        hgt1 hgf1 (.nil _)
        (renders_congr (fun j hj => hother1 j
          (fun hc => htg_sl (hc ▸ hj))) hsl)
        (renders_congr (fun j hj => hother1 j
          (fun hc => htg_sr (hc ▸ hj))) hsr)
        (renders_congr (fun j hj => hother1 j
          (fun hc => htg_oth (hc ▸ hj))) hof)
        rfl hfi_tg hfi_sl hfi_sr hfi_oth hfi_rest htg_sl htg_sr htg_oth
        htg_rest hslnd hsl_disj hnd2
    refine ⟨t2, ?_, hzip2, ?_, hlen2, hnext2⟩
    · show rotate t fi Side.right = _
      rw [← hrun2]
      simp only [rotate, Side.opp, childOf_ok hgf Side.right,
        childOf_ok hgt Side.left, NodeData.child, bind, Except.bind,
        unwrapO, indexAndParent_root_ok hgf rfl, nread_ok hgt, pure,
        Except.pure]
    · intro j
      rw [hsome2 j]
      show (hget (hset t.heap tg _) j).isSome = _
      rw [hset_isSome]
  | cons f3 rest3 =>
    have hf3_mem : f3.i ∈ ctxIds (f3 :: rest3) := by simp [ctxIds]
    have hfi_f3 : fi ≠ f3.i := fun hc => hfi_rest (hc ▸ hf3_mem)
    have htg_f3 : tg ≠ f3.i := fun hc => htg_rest (hc ▸ hf3_mem)
    obtain ⟨hg3, ho3, hrest3⟩ := rendersCtx_cons_inv hctx
    have hmem_o3 : ∀ j ∈ f3.other.ids, j ∈ ctxIds (f3 :: rest3) := by
      intro j hj
      show j ∈ f3.i :: (f3.other.ids ++ ctxIds rest3)
      exact List.mem_cons_of_mem _ (List.mem_append_left _ hj)
    have hmem_r3 : ∀ j ∈ ctxIds rest3, j ∈ ctxIds (f3 :: rest3) := by
      intro j hj
      show j ∈ f3.i :: (f3.other.ids ++ ctxIds rest3)
      exact List.mem_cons_of_mem _ (List.mem_append_right _ hj)
    have hfi_o3 : fi ∉ f3.other.ids := fun hm => hfi_rest (hmem_o3 _ hm)
    have htg_o3 : tg ∉ f3.other.ids := fun hm => htg_rest (hmem_o3 _ hm)
    have hfi_r3 : fi ∉ ctxIds rest3 := fun hm => hfi_rest (hmem_r3 _ hm)
    have htg_r3 : tg ∉ ctxIds rest3 := fun hm => htg_rest (hmem_r3 _ hm)
    have hctxnd3 : f3.i ∉ f3.other.ids ∧ f3.i ∉ ctxIds rest3 ∧
        (∀ j ∈ f3.other.ids, j ∉ ctxIds rest3) := by
      have h0 : (ctxIds (f3 :: rest3)).Nodup := hctxnd
      rw [show ctxIds (f3 :: rest3) =
        f3.i :: (f3.other.ids ++ ctxIds rest3) from rfl,
        List.nodup_cons, List.nodup_append] at h0
      refine ⟨fun hmem => h0.1 (List.mem_append_left _ hmem),
        fun hmem => h0.1 (List.mem_append_right _ hmem), ?_⟩
      intro j hj hmem
      exact h0.2.2.2 hj hmem
    set a1 : Heap V := hset t.heap fi
      { (⟨pidCtx (f3 :: rest3), fother.rootId, some tg, fc, fk, fv⟩ :
        NodeData V) with parent := none } with ha1
    set a2 : Heap V := hset a1 f3.i
      ((f3.node (pidCtx rest3) (some fi)).withChild f3.side none)
      with ha2
    have hg_a2_f3 : hget a2 f3.i =
        some (f3.node (pidCtx rest3) none) := by
      have h1 : hget a1 f3.i =
          some (f3.node (pidCtx rest3) (some fi)) := by
        rw [ha1, hget_hset_ne _ _ _ _ (Ne.symm hfi_f3)]
        exact hg3
      rw [ha2, hget_hset_self _ _ _ _ h1, node_withChild_hole]
    have hg_a2_tg : hget a2 tg =
        some ⟨some fi, sl.rootId, sr.rootId, sc, sk, sv⟩ := by
      rw [ha2, hget_hset_ne _ _ _ _ htg_f3, ha1,
        hget_hset_ne _ _ _ _ (Ne.symm hfi_tg)]
      exact hgt
    set a3 : Heap V := hset a2 tg
      { (⟨some fi, sl.rootId, sr.rootId, sc, sk, sv⟩ : NodeData V) with
        parent := some f3.i } with ha3
    set a4 : Heap V := hset a3 f3.i
      ((f3.node (pidCtx rest3) none).withChild f3.side (some tg))
      with ha4
    set t1 : Tree V := { t with heap := a4 } with ht1
    have hg_a4_f3 : hget a4 f3.i =
        some (f3.node (pidCtx rest3) (some tg)) := by
      have h1 : hget a3 f3.i = some (f3.node (pidCtx rest3) none) := by
        rw [ha3, hget_hset_ne _ _ _ _ (Ne.symm htg_f3)]
        exact hg_a2_f3
      rw [ha4, hget_hset_self _ _ _ _ h1, node_withChild_hole]
    have hg_a4_tg : hget a4 tg =
        some ⟨some f3.i, sl.rootId, sr.rootId, sc, sk, sv⟩ := by
      rw [ha4, hget_hset_ne _ _ _ _ htg_f3, ha3,
        hget_hset_self _ _ _ _ hg_a2_tg]
    have hg_a4_fi : hget a4 fi =
        some ⟨none, fother.rootId, some tg, fc, fk, fv⟩ := by
      rw [ha4, hget_hset_ne _ _ _ _ hfi_f3, ha3,
        hget_hset_ne _ _ _ _ hfi_tg, ha2,
        hget_hset_ne _ _ _ _ hfi_f3, ha1,
        hget_hset_self _ _ _ _ hgf]
    have hg_a4_other : ∀ j, j ≠ tg → j ≠ fi → j ≠ f3.i →
        hget a4 j = hget t.heap j := by
      intro j h1 h2 h3
      rw [ha4, hget_hset_ne _ _ _ _ h3, ha3, hget_hset_ne _ _ _ _ h1,
        ha2, hget_hset_ne _ _ _ _ h3, ha1, hget_hset_ne _ _ _ _ h2]
    have hctx1 : RendersCtx t1.heap (f3 :: rest3) (some tg) := by
      refine rendersCtx_cons_mk hg_a4_f3 ?_ ?_
      · refine renders_congr (fun j hj => ?_) ho3
        exact hg_a4_other j (fun hc => htg_o3 (hc ▸ hj))
          (fun hc => hfi_o3 (hc ▸ hj))
          (fun hc => hctxnd3.1 (hc ▸ hj))
      · refine rendersCtx_congr (fun j hj => ?_) hrest3
        exact hg_a4_other j (fun hc => htg_r3 (hc ▸ hj))
          (fun hc => hfi_r3 (hc ▸ hj))
          (fun hc => hctxnd3.2.1 (hc ▸ hj))
    have hsl1 : Renders t1.heap (some tg) sl := by
      refine renders_congr (fun j hj => ?_) hsl
      exact hg_a4_other j (fun hc => htg_sl (hc ▸ hj))
        (fun hc => hfi_sl (hc ▸ hj))
        (fun hc => (hsl_disj j hj).2.2 (hc ▸ hf3_mem))
    have hsr1 : Renders t1.heap (some tg) sr := by
      refine renders_congr (fun j hj => ?_) hsr
      exact hg_a4_other j (fun hc => htg_sr (hc ▸ hj))
        (fun hc => hfi_sr (hc ▸ hj))
        (fun hc => hsr_rest j hj (hc ▸ hf3_mem))
    have hof1 : Renders t1.heap (some fi) fother := by
      refine renders_congr (fun j hj => ?_) hof
      exact hg_a4_other j (fun hc => htg_oth (hc ▸ hj))
        (fun hc => hfi_oth (hc ▸ hj))
        (fun hc => hoth_rest j hj (hc ▸ hf3_mem))
    have hroot1 : t1.root = plugRoot (f3 :: rest3) (some tg) := by
      show t.root = _
      rw [hroot]
      rfl
    obtain ⟨t2, hrun2, hzip2, hsome2, hlen2, hnext2⟩ :=
      rotFinish_right_spec t1 (f3 :: rest3) fi fc fk fv fother sl tg sc
        sk sv sr hg_a4_tg hg_a4_fi hctx1 hsl1 hsr1 hof1 hroot1 hfi_tg
        hfi_sl hfi_sr hfi_oth hfi_rest htg_sl htg_sr htg_oth htg_rest
        hslnd hsl_disj hnd2
    refine ⟨t2, ?_, hzip2, ?_, hlen2, hnext2⟩
    · show rotate t fi Side.right = _
      rw [← hrun2]
      have hsc2 : setChild a2 f3.i f3.side (some tg) = .ok a4 := by
        rw [setChild_some_ok hg_a2_f3 hg_a2_tg htg_f3 f3.side, ha4, ha3]
      rw [ha2, ha1] at hsc2
      simp only [rotate, childOf_ok hgf Side.right,
        childOf_ok hgt Side.left, NodeData.child, bind, Except.bind,
        unwrapO, indexAndParent_ok hgf rfl hg3,
        node_left_detect f3 (pidCtx rest3) fi hfi_o3,
        clearChild_ok hg3 f3.side
          (node_child_hole f3 (pidCtx rest3) (some fi)) hgf hfi_f3,
        node_withChild_hole, pure, Except.pure, Side.opp] at hsc2 ⊢
      rw [hsc2]
    · intro j
      rw [hsome2 j]
      show (hget a4 j).isSome = _
      rw [ha4, hset_isSome, ha3, hset_isSome, ha2, hset_isSome, ha1,
        hset_isSome]

end RBImpl

namespace RBImpl

/-- `rotate` on a rendered zipper: rotating at the parent frame's node
promotes the hole subtree's root over it, preserving the in-order
listing, the allocation census, the length and the allocation cursor. -/
theorem rotate_zip_spec {V : Type} (t : Tree V) (fp : CtxF V)
    (rest : Ctx V) (sl : BT V) (tg : Nat) (sc : Color) (sk : Int)
    (sv : V) (sr : BT V)
    (hz : ZipSt t (fp :: rest) (BT.nd sl tg sc sk sv sr)) :
    ∃ t2 : Tree V,
      rotate t fp.i fp.side = .ok (t2, tg) ∧
      ZipSt t2 rest (rotSub fp sl tg sc sk sv sr) ∧
      (rotSub fp sl tg sc sk sv sr).flat =
        (fp.fill (BT.nd sl tg sc sk sv sr)).flat ∧
      (∀ j, (hget t2.heap j).isSome = (hget t.heap j).isSome) ∧
      t2.len = t.len ∧ t2.nextId = t.nextId := by
  obtain ⟨fs, fi, fc, fk, fv, fother⟩ := fp
  obtain ⟨hctxr, hsubr, hrootEq, hnodup⟩ := hz
  obtain ⟨hgf0, hof0, hrest0⟩ := rendersCtx_cons_inv hctxr
  obtain ⟨hgt0, hsl0, hsr0⟩ := renders_nd_inv hsubr
  obtain ⟨hsubnd, hctxallnd, hdisall⟩ := plug_nodup_parts _ _ hnodup
  obtain ⟨hfp_sub, hfp_oth, hfp_rest, hsub_disj⟩ :=
    zip_nodup_head _ _ _ hnodup
  have htg_mem : tg ∈ (BT.nd sl tg sc sk sv sr).ids := by
    rw [BT.ids_nd]
    exact List.mem_append_right _ (List.mem_cons_self _ _)
  have hsl_mem : ∀ j ∈ sl.ids, j ∈ (BT.nd sl tg sc sk sv sr).ids := by
    intro j hj
    rw [BT.ids_nd]
    exact List.mem_append_left _ hj
  have hsr_mem : ∀ j ∈ sr.ids, j ∈ (BT.nd sl tg sc sk sv sr).ids := by
    intro j hj
    rw [BT.ids_nd]
    exact List.mem_append_right _ (List.mem_cons_of_mem _ hj)
  have hfi_tg : fi ≠ tg := fun hc => hfp_sub (hc ▸ htg_mem)
  have hfi_sl : fi ∉ sl.ids := fun hm => hfp_sub (hsl_mem _ hm)
  have hfi_sr : fi ∉ sr.ids := fun hm => hfp_sub (hsr_mem _ hm)
  obtain ⟨htg_sl, htg_sr⟩ :=
    node_not_in_children sl tg sc sk sv sr hsubnd
  have htg_oth : tg ∉ fother.ids := (hsub_disj tg htg_mem).1
  have htg_rest : tg ∉ ctxIds rest := (hsub_disj tg htg_mem).2
  have hsl_rest : ∀ j ∈ sl.ids, j ∉ ctxIds rest :=
    fun j hm => (hsub_disj j (hsl_mem j hm)).2
  have hsr_rest : ∀ j ∈ sr.ids, j ∉ ctxIds rest :=
    fun j hm => (hsub_disj j (hsr_mem j hm)).2
  have hsl_oth : ∀ j ∈ sl.ids, j ∉ fother.ids :=
    fun j hm => (hsub_disj j (hsl_mem j hm)).1
  have hsr_oth : ∀ j ∈ sr.ids, j ∉ fother.ids :=
    fun j hm => (hsub_disj j (hsr_mem j hm)).1
  have hctxparts : (∀ j ∈ fother.ids, j ∉ ctxIds rest) ∧
      (ctxIds rest).Nodup := by
    have h0 := hctxallnd
    rw [show ctxIds ((⟨fs, fi, fc, fk, fv, fother⟩ : CtxF V) :: rest) =
      fi :: (fother.ids ++ ctxIds rest) from rfl,
      List.nodup_cons, List.nodup_append] at h0
    exact ⟨fun j hj hm => h0.2.2.2 hj hm, h0.2.2.1⟩
  have hsplit : sl.ids.Nodup ∧ sr.ids.Nodup ∧
      (∀ j ∈ sr.ids, j ∉ sl.ids) ∧ (∀ j ∈ sl.ids, j ∉ sr.ids) := by
    have h0 := hsubnd
    rw [BT.ids_nd, List.nodup_append, List.nodup_cons] at h0
    exact ⟨h0.1, h0.2.1.2,
      fun j hj hm => h0.2.2 hm (List.mem_cons_of_mem _ hj),
      fun j hj hm => h0.2.2 hj (List.mem_cons_of_mem _ hm)⟩
  cases fs with
  | left =>
    have hflat : (BT.nd sl tg sc sk sv
        (BT.nd sr fi fc fk fv fother)).flat =
        ((⟨Side.left, fi, fc, fk, fv, fother⟩ : CtxF V).fill
          (BT.nd sl tg sc sk sv sr)).flat := by
      simp [CtxF.fill, BT.flat]
    have hnd2 : (plug rest (BT.nd sl tg sc sk sv
        (BT.nd sr fi fc fk fv fother))).ids.Nodup := by
      rw [plug_ids_congr rest hflat]
      exact hnodup
    have hroot1 : t.root = plugRoot rest (some fi) := by
      rw [hrootEq, plug_rootId]
      rfl
    obtain ⟨t2, hrun, hzip, hsome, hlen, hnext⟩ :=
      rotate_left_spec t rest fi fc fk fv fother sl tg sc sk sv sr
        hgt0 hgf0 hrest0 hsl0 hsr0 hof0 hroot1 hfi_tg hfi_sl hfi_sr
        hfp_oth hfp_rest htg_sl htg_sr htg_oth htg_rest hsl_rest
        hctxparts.1 hctxparts.2 hsplit.2.1
        (fun j hj => ⟨hsplit.2.2.1 j hj, hsr_oth j hj, hsr_rest j hj⟩)
        hnd2
    exact ⟨t2, hrun, hzip, hflat, hsome, hlen, hnext⟩
  | right =>
    have hflat : (BT.nd (BT.nd fother fi fc fk fv sl) tg sc sk sv
        sr).flat =
        ((⟨Side.right, fi, fc, fk, fv, fother⟩ : CtxF V).fill
          (BT.nd sl tg sc sk sv sr)).flat := by
      simp [CtxF.fill, BT.flat]
    have hnd2 : (plug rest (BT.nd (BT.nd fother fi fc fk fv sl) tg sc
        sk sv sr)).ids.Nodup := by
      rw [plug_ids_congr rest hflat]
      exact hnodup
    have hroot1 : t.root = plugRoot rest (some fi) := by
      rw [hrootEq, plug_rootId]
      rfl
    obtain ⟨t2, hrun, hzip, hsome, hlen, hnext⟩ :=
      rotate_right_spec t rest fi fc fk fv fother sl tg sc sk sv sr
        hgt0 hgf0 hrest0 hsl0 hsr0 hof0 hroot1 hfi_tg hfi_sl hfi_sr
        hfp_oth hfp_rest htg_sl htg_sr htg_oth htg_rest hsr_rest
        hctxparts.1 hctxparts.2 hsplit.1
        (fun j hj => ⟨hsplit.2.2.2 j hj, hsl_oth j hj, hsl_rest j hj⟩)
        hnd2
    exact ⟨t2, hrun, hzip, hflat, hsome, hlen, hnext⟩

end RBImpl

namespace RBImpl

theorem fill_rootId {V : Type} (f : CtxF V) (sub : BT V) :
    (f.fill sub).rootId = some f.i := by
  cases hs : f.side <;> simp [CtxF.fill, hs, BT.rootId]

/-- Rebuilding a rendering of a filled frame from its parts. -/
theorem renders_fill {V : Type} {h : Heap V} {f : CtxF V}
    {pid : Option Nat} {sub : BT V}
    (hg : hget h f.i = some (f.node pid sub.rootId))
    (ho : Renders h (some f.i) f.other)
    (hs : Renders h (some f.i) sub) :
    Renders h pid (f.fill sub) := by
  cases hside : f.side
  · rw [show f.fill sub = .nd sub f.i f.c f.k f.v f.other from by
      simp [CtxF.fill, hside]]
    refine .nd ?_ hs ho
    rw [hg]
    simp [CtxF.node, hside]
  · rw [show f.fill sub = .nd f.other f.i f.c f.k f.v sub from by
      simp [CtxF.fill, hside]]
    refine .nd ?_ ho hs
    rw [hg]
    simp [CtxF.node, hside]

end RBImpl

namespace RBImpl

/-- The shared tail of the insert rebalancer on an aligned rendered
zipper (the hole's side on its parent equals the parent's side on the
grandparent): recolor parent black and grandparent red, then rotate at
the grandparent. The loop returns right afterwards, so this is a full
exit contract. -/
theorem balanceInsertTail_spec {V : Type} (t : Tree V) (s1 : Side)
    (i1 : Nat) (c1 : Color) (k1 : Int) (v1 : V) (o1 : BT V)
    (i2 : Nat) (c2 : Color) (k2 : Int) (v2 : V) (o2 : BT V)
    (rest2 : Ctx V) (sub : BT V) (target : Nat)
    (hroot : sub.rootId = some target)
    (hz : ZipSt t ((⟨s1, i1, c1, k1, v1, o1⟩ : CtxF V) ::
      (⟨s1, i2, c2, k2, v2, o2⟩ : CtxF V) :: rest2) sub) :
    BalExit t (plug ((⟨s1, i1, c1, k1, v1, o1⟩ : CtxF V) ::
      (⟨s1, i2, c2, k2, v2, o2⟩ : CtxF V) :: rest2) sub)
      (balanceInsertTail t target) := by
  obtain ⟨hctxr, hsubr, hrootEq, hnodup⟩ := hz
  obtain ⟨hg1, ho1, hrest1⟩ := rendersCtx_cons_inv hctxr
  obtain ⟨hg2, ho2, hrest2⟩ := rendersCtx_cons_inv hrest1
  cases sub with
  | nil => cases hroot
  | nd sl tgt sc sk sv sr =>
    have htgt : target = tgt := by
      simp only [BT.rootId, Option.some_inj] at hroot
      exact hroot.symm
    subst htgt
    obtain ⟨hgt, hsl, hsr⟩ := renders_nd_inv hsubr
    obtain ⟨hi1_sub, hi1_o1, hi1_ctx2, hdisj1⟩ :=
      zip_nodup_head _ _ _ hnodup
    obtain ⟨hsubnd, hctxnd, hdisall⟩ := plug_nodup_parts _ _ hnodup
    have htg_mem : target ∈ (BT.nd sl target sc sk sv sr).ids := by
      rw [BT.ids_nd]
      exact List.mem_append_right _ (List.mem_cons_self _ _)
    have hi1_tg : i1 ≠ target := fun hc => hi1_sub (hc ▸ htg_mem)
    have hsplit2 : target ≠ i2 ∧ target ∉ o2.ids ∧
        target ∉ ctxIds rest2 := by
      have h0 := (hdisj1 target htg_mem).2
      rw [show ctxIds ((⟨s1, i2, c2, k2, v2, o2⟩ : CtxF V) :: rest2) =
        i2 :: (o2.ids ++ ctxIds rest2) from rfl] at h0
      simp only [List.mem_cons, List.mem_append] at h0
      push_neg at h0
      exact h0
    have hi1split : i1 ≠ i2 ∧ i1 ∉ o2.ids ∧ i1 ∉ ctxIds rest2 := by
      have h0 := hi1_ctx2
      rw [show ctxIds ((⟨s1, i2, c2, k2, v2, o2⟩ : CtxF V) :: rest2) =
        i2 :: (o2.ids ++ ctxIds rest2) from rfl] at h0
      simp only [List.mem_cons, List.mem_append] at h0
      push_neg at h0
      exact h0
    have htg_o1 : target ∉ o1.ids := (hdisj1 target htg_mem).1
    have hsub_i2 : ∀ j ∈ (BT.nd sl target sc sk sv sr).ids, j ≠ i2 := by
      intro j hj hc
      refine (hdisj1 j hj).2 ?_
      rw [show ctxIds ((⟨s1, i2, c2, k2, v2, o2⟩ : CtxF V) :: rest2) =
        i2 :: (o2.ids ++ ctxIds rest2) from rfl]
      exact hc ▸ List.mem_cons_self _ _
    have hsub_rest2 : ∀ j ∈ (BT.nd sl target sc sk sv sr).ids,
        j ∉ ctxIds rest2 := by
      intro j hj hm
      refine (hdisj1 j hj).2 ?_
      rw [show ctxIds ((⟨s1, i2, c2, k2, v2, o2⟩ : CtxF V) :: rest2) =
        i2 :: (o2.ids ++ ctxIds rest2) from rfl]
      exact List.mem_cons_of_mem _ (List.mem_append_right _ hm)
    have hctxsplit : i2 ∉ o1.ids ∧ i2 ∉ o2.ids ∧ i2 ∉ ctxIds rest2 ∧
        (∀ j ∈ o1.ids, j ∉ ctxIds rest2) ∧
        (∀ j ∈ o2.ids, j ∉ ctxIds rest2) := by
      have h0 := hctxnd
      rw [show ctxIds ((⟨s1, i1, c1, k1, v1, o1⟩ : CtxF V) ::
          (⟨s1, i2, c2, k2, v2, o2⟩ : CtxF V) :: rest2) =
        i1 :: (o1.ids ++ (i2 :: (o2.ids ++ ctxIds rest2))) from rfl,
        List.nodup_cons, List.nodup_append, List.nodup_cons,
        List.nodup_append] at h0
      refine ⟨?_, ?_, ?_, ?_, ?_⟩
      · intro hm
        exact h0.2.2.2 hm (List.mem_cons_self _ _)
      · intro hm
        exact h0.2.2.1.1 (List.mem_append_left _ hm)
      · intro hm
        exact h0.2.2.1.1 (List.mem_append_right _ hm)
      · intro j hj hm
        exact h0.2.2.2 hj
          (List.mem_cons_of_mem _ (List.mem_append_right _ hm))
      · intro j hj hm
        exact h0.2.2.1.2.2.2 hj hm
    cases s1 with
    | left =>
      have hg1x : hget t.heap i1 =
          some ⟨some i2, some target, o1.rootId, c1, k1, v1⟩ := hg1
      have hg2x : hget t.heap i2 =
          some ⟨pidCtx rest2, some i1, o2.rootId, c2, k2, v2⟩ := hg2
      have hgtx : hget t.heap target =
          some ⟨some i1, sl.rootId, sr.rootId, sc, sk, sv⟩ := hgt
      have hA1t : hget (hset t.heap i1 (⟨some i2, some target,
          o1.rootId, Color.black, k1, v1⟩ : NodeData V)) target =
          some ⟨some i1, sl.rootId, sr.rootId, sc, sk, sv⟩ := by
        rw [hget_hset_ne _ _ _ _ (Ne.symm hi1_tg)]
        exact hgtx
      have hA1i1 : hget (hset t.heap i1 (⟨some i2, some target,
          o1.rootId, Color.black, k1, v1⟩ : NodeData V)) i1 =
          some ⟨some i2, some target, o1.rootId, Color.black, k1,
            v1⟩ := by
        rw [hget_hset_self _ _ _ _ hg1x]
      have hA1i2 : hget (hset t.heap i1 (⟨some i2, some target,
          o1.rootId, Color.black, k1, v1⟩ : NodeData V)) i2 =
          some ⟨pidCtx rest2, some i1, o2.rootId, c2, k2, v2⟩ := by
        rw [hget_hset_ne _ _ _ _ (Ne.symm hi1split.1)]
        exact hg2x
      set A2 : Heap V := hset (hset t.heap i1 (⟨some i2, some target,
        o1.rootId, Color.black, k1, v1⟩ : NodeData V)) i2
        (⟨pidCtx rest2, some i1, o2.rootId, Color.red, k2, v2⟩ :
          NodeData V) with hA2def
      have hA2t : hget A2 target =
          some ⟨some i1, sl.rootId, sr.rootId, sc, sk, sv⟩ := by
        rw [hA2def, hget_hset_ne _ _ _ _ hsplit2.1]
        exact hA1t
      have hA2i1 : hget A2 i1 =
          some ⟨some i2, some target, o1.rootId, Color.black, k1,
            v1⟩ := by
        rw [hA2def, hget_hset_ne _ _ _ _ hi1split.1]
        exact hA1i1
      have hA2i2 : hget A2 i2 =
          some ⟨pidCtx rest2, some i1, o2.rootId, Color.red, k2,
            v2⟩ := by
        rw [hA2def, hget_hset_self _ _ _ _ hA1i2]
      have hA2other : ∀ j, j ≠ i1 → j ≠ i2 →
          hget A2 j = hget t.heap j := by
        intro j hj1 hj2
        rw [hA2def, hget_hset_ne _ _ _ _ hj2, hget_hset_ne _ _ _ _ hj1]
      have hstep : balanceInsertTail t target =
          (do
            let (t2, _) ← rotate { t with heap := A2 } i2 Side.left
            (.ok t2 : Except RErr (Tree V))) := by
        rw [hA2def]
        simp only [balanceInsertTail, parentOf_ok hgtx, bind,
          Except.bind, unwrapO, setColor_ok hg1x Color.black,
          grandparentOf, nread_ok hA1t, parentOf_ok hA1i1,
          setColor_ok hA1i2 Color.red,
          indexOnParent_ok hA2t rfl hA2i1, pure, Except.pure]
        rfl
      have hzA2 : ZipSt { t with heap := A2 }
          ((⟨Side.left, i2, Color.red, k2, v2, o2⟩ : CtxF V) :: rest2)
          (BT.nd (BT.nd sl target sc sk sv sr) i1 Color.black k1 v1
            o1) := by
        refine ⟨?_, ?_, ?_, ?_⟩
        · refine rendersCtx_cons_mk ?_ ?_ ?_
          · exact hA2i2
          · refine renders_congr (fun j hj => ?_) ho2
            exact hA2other j (fun hc => hi1split.2.1 (hc ▸ hj))
              (fun hc => hctxsplit.2.1 (hc ▸ hj))
          · refine rendersCtx_congr (fun j hj => ?_) hrest2
            exact hA2other j (fun hc => hi1split.2.2 (hc ▸ hj))
              (fun hc => hctxsplit.2.2.1 (hc ▸ hj))
        · refine Renders.nd ?_ ?_ ?_
          · exact hA2i1
          · refine renders_congr (fun j hj => ?_) hsubr
            exact hA2other j (fun hc => hi1_sub (hc ▸ hj))
              (hsub_i2 j hj)
          · refine renders_congr (fun j hj => ?_) ho1
            exact hA2other j (fun hc => hi1_o1 (hc ▸ hj))
              (fun hc => hctxsplit.1 (hc ▸ hj))
        · show t.root = _
          rw [hrootEq, plug_rootId, plug_rootId]
          rfl
        · show (plug rest2 (BT.nd (BT.nd (BT.nd sl target sc sk sv sr)
            i1 Color.black k1 v1 o1) i2 Color.red k2 v2 o2)).ids.Nodup
          rw [plug_ids_congr rest2 (show (BT.nd (BT.nd (BT.nd sl target
            sc sk sv sr) i1 Color.black k1 v1 o1) i2 Color.red k2 v2
            o2).flat = (BT.nd (BT.nd (BT.nd sl target sc sk sv sr) i1
            c1 k1 v1 o1) i2 c2 k2 v2 o2).flat from rfl)]
          exact hnodup
      obtain ⟨t2, hrun_rot, hzip2, hflat2, hsome2, hlen2, hnext2⟩ :=
        rotate_zip_spec { t with heap := A2 }
          ⟨Side.left, i2, Color.red, k2, v2, o2⟩ rest2
          (BT.nd sl target sc sk sv sr) i1 Color.black k1 v1 o1 hzA2
      rw [hstep, hrun_rot]
      show BalExit t _ (.ok t2)
      refine balExit_congr (balExit_of_zipSt hzip2 hsome2 hlen2 hnext2)
        ?_ ?_ rfl rfl
      · have h1 := plug_flat_congr rest2 hflat2
        rw [h1]
        exact plug_flat_congr rest2 rfl
      · intro j
        show (hget A2 j).isSome = _
        rw [hA2def, hset_isSome, hset_isSome]
    | right =>
      have hg1x : hget t.heap i1 =
          some ⟨some i2, o1.rootId, some target, c1, k1, v1⟩ := hg1
      have hg2x : hget t.heap i2 =
          some ⟨pidCtx rest2, o2.rootId, some i1, c2, k2, v2⟩ := hg2
      have hgtx : hget t.heap target =
          some ⟨some i1, sl.rootId, sr.rootId, sc, sk, sv⟩ := hgt
      have hno1 : ¬(o1.rootId = some target) := by
        intro hc
        exact htg_o1 (rootId_mem_ids hc)
      have hA1t : hget (hset t.heap i1 (⟨some i2, o1.rootId,
          some target, Color.black, k1, v1⟩ : NodeData V)) target =
          some ⟨some i1, sl.rootId, sr.rootId, sc, sk, sv⟩ := by
        rw [hget_hset_ne _ _ _ _ (Ne.symm hi1_tg)]
        exact hgtx
      have hA1i1 : hget (hset t.heap i1 (⟨some i2, o1.rootId,
          some target, Color.black, k1, v1⟩ : NodeData V)) i1 =
          some ⟨some i2, o1.rootId, some target, Color.black, k1,
            v1⟩ := by
        rw [hget_hset_self _ _ _ _ hg1x]
      have hA1i2 : hget (hset t.heap i1 (⟨some i2, o1.rootId,
          some target, Color.black, k1, v1⟩ : NodeData V)) i2 =
          some ⟨pidCtx rest2, o2.rootId, some i1, c2, k2, v2⟩ := by
        rw [hget_hset_ne _ _ _ _ (Ne.symm hi1split.1)]
        exact hg2x
      set A2 : Heap V := hset (hset t.heap i1 (⟨some i2, o1.rootId,
        some target, Color.black, k1, v1⟩ : NodeData V)) i2
        (⟨pidCtx rest2, o2.rootId, some i1, Color.red, k2, v2⟩ :
          NodeData V) with hA2def
      have hA2t : hget A2 target =
          some ⟨some i1, sl.rootId, sr.rootId, sc, sk, sv⟩ := by
        rw [hA2def, hget_hset_ne _ _ _ _ hsplit2.1]
        exact hA1t
      have hA2i1 : hget A2 i1 =
          some ⟨some i2, o1.rootId, some target, Color.black, k1,
            v1⟩ := by
        rw [hA2def, hget_hset_ne _ _ _ _ hi1split.1]
        exact hA1i1
      have hA2i2 : hget A2 i2 =
          some ⟨pidCtx rest2, o2.rootId, some i1, Color.red, k2,
            v2⟩ := by
        rw [hA2def, hget_hset_self _ _ _ _ hA1i2]
      have hA2other : ∀ j, j ≠ i1 → j ≠ i2 →
          hget A2 j = hget t.heap j := by
        intro j hj1 hj2
        rw [hA2def, hget_hset_ne _ _ _ _ hj2, hget_hset_ne _ _ _ _ hj1]
      have hstep : balanceInsertTail t target =
          (do
            let (t2, _) ← rotate { t with heap := A2 } i2 Side.right
            (.ok t2 : Except RErr (Tree V))) := by
        rw [hA2def]
        simp only [balanceInsertTail, parentOf_ok hgtx, bind,
          Except.bind, unwrapO, setColor_ok hg1x Color.black,
          grandparentOf, nread_ok hA1t, parentOf_ok hA1i1,
          setColor_ok hA1i2 Color.red,
          indexOnParent_ok hA2t rfl hA2i1, if_neg hno1, pure,
          Except.pure]
      have hzA2 : ZipSt { t with heap := A2 }
          ((⟨Side.right, i2, Color.red, k2, v2, o2⟩ : CtxF V) :: rest2)
          (BT.nd o1 i1 Color.black k1 v1
            (BT.nd sl target sc sk sv sr)) := by
        refine ⟨?_, ?_, ?_, ?_⟩
        · refine rendersCtx_cons_mk ?_ ?_ ?_
          · exact hA2i2
          · refine renders_congr (fun j hj => ?_) ho2
            exact hA2other j (fun hc => hi1split.2.1 (hc ▸ hj))
              (fun hc => hctxsplit.2.1 (hc ▸ hj))
          · refine rendersCtx_congr (fun j hj => ?_) hrest2
            exact hA2other j (fun hc => hi1split.2.2 (hc ▸ hj))
              (fun hc => hctxsplit.2.2.1 (hc ▸ hj))
        · refine Renders.nd ?_ ?_ ?_
          · exact hA2i1
          · refine renders_congr (fun j hj => ?_) ho1
            exact hA2other j (fun hc => hi1_o1 (hc ▸ hj))
              (fun hc => hctxsplit.1 (hc ▸ hj))
          · refine renders_congr (fun j hj => ?_) hsubr
            exact hA2other j (fun hc => hi1_sub (hc ▸ hj))
              (hsub_i2 j hj)
        · show t.root = _
          rw [hrootEq, plug_rootId, plug_rootId]
          rfl
        · show (plug rest2 (BT.nd o2 i2 Color.red k2 v2 (BT.nd o1 i1
            Color.black k1 v1 (BT.nd sl target sc sk sv
            sr)))).ids.Nodup
          rw [plug_ids_congr rest2 (show (BT.nd o2 i2 Color.red k2 v2
            (BT.nd o1 i1 Color.black k1 v1 (BT.nd sl target sc sk sv
            sr))).flat = (BT.nd o2 i2 c2 k2 v2 (BT.nd o1 i1 c1 k1 v1
            (BT.nd sl target sc sk sv sr))).flat from rfl)]
          exact hnodup
      obtain ⟨t2, hrun_rot, hzip2, hflat2, hsome2, hlen2, hnext2⟩ :=
        rotate_zip_spec { t with heap := A2 }
          ⟨Side.right, i2, Color.red, k2, v2, o2⟩ rest2
          o1 i1 Color.black k1 v1 (BT.nd sl target sc sk sv sr) hzA2
      rw [hstep, hrun_rot]
      show BalExit t _ (.ok t2)
      refine balExit_congr (balExit_of_zipSt hzip2 hsome2 hlen2 hnext2)
        ?_ ?_ rfl rfl
      · have h1 := plug_flat_congr rest2 hflat2
        rw [h1]
        exact plug_flat_congr rest2 rfl
      · intro j
        show (hget A2 j).isSome = _
        rw [hA2def, hset_isSome, hset_isSome]

end RBImpl

namespace RBImpl

theorem node_color {V : Type} (f : CtxF V) (pid cid : Option Nat) :
    (f.node (V := V) pid cid).color = f.c := rfl

/-- The black-uncle branch of the insert rebalancer on a rendered
zipper: one or two rotations with recolors, after which the loop
returns. -/
theorem balanceInsertSplit_spec {V : Type} (t : Tree V)
    (s1 : Side) (i1 : Nat) (c1 : Color) (k1 : Int) (v1 : V) (o1 : BT V)
    (s2 : Side) (i2 : Nat) (c2 : Color) (k2 : Int) (v2 : V) (o2 : BT V)
    (rest2 : Ctx V) (sub : BT V) (target : Nat)
    (hroot : sub.rootId = some target)
    (hz : ZipSt t ((⟨s1, i1, c1, k1, v1, o1⟩ : CtxF V) ::
      (⟨s2, i2, c2, k2, v2, o2⟩ : CtxF V) :: rest2) sub) :
    BalExit t (plug ((⟨s1, i1, c1, k1, v1, o1⟩ : CtxF V) ::
      (⟨s2, i2, c2, k2, v2, o2⟩ : CtxF V) :: rest2) sub)
      (balanceInsertSplit t target i1) := by
  obtain ⟨hg1, ho1, hrest1⟩ := rendersCtx_cons_inv hz.ctxr
  obtain ⟨hg2, ho2, hrest2⟩ := rendersCtx_cons_inv hrest1
  cases sub with
  | nil => cases hroot
  | nd sl tgt sc sk sv sr =>
    have htgt : target = tgt := by
      simp only [BT.rootId, Option.some_inj] at hroot
      exact hroot.symm
    subst htgt
    obtain ⟨hgt, hsl, hsr⟩ := renders_nd_inv hz.subr
    have hgtx : hget t.heap target =
        some ⟨some i1, sl.rootId, sr.rootId, sc, sk, sv⟩ := hgt
    have hg1x : hget t.heap i1 =
        some ((⟨s1, i1, c1, k1, v1, o1⟩ : CtxF V).node
          (pidCtx ((⟨s2, i2, c2, k2, v2, o2⟩ : CtxF V) :: rest2))
          (some target)) := hg1
    have hg2x : hget t.heap i2 =
        some ((⟨s2, i2, c2, k2, v2, o2⟩ : CtxF V).node (pidCtx rest2)
          (some i1)) := hg2
    obtain ⟨hi1_sub, hi1_o1, hi1_ctx2, hdisj1⟩ :=
      zip_nodup_head _ _ _ hz.nodup
    have htg_mem : target ∈ (BT.nd sl target sc sk sv sr).ids := by
      rw [BT.ids_nd]
      exact List.mem_append_right _ (List.mem_cons_self _ _)
    have htg_o1 : target ∉ o1.ids := (hdisj1 target htg_mem).1
    have hi1_o2 : i1 ∉ o2.ids := by
      intro hm
      refine hi1_ctx2 ?_
      show i1 ∈ i2 :: (o2.ids ++ ctxIds rest2)
      exact List.mem_cons_of_mem _ (List.mem_append_left _ hm)
    have hpio : indexOnParent t.heap i1 = .ok (some s2) := by
      rw [indexOnParent_ok hg1x rfl hg2x,
        node_left_detect _ _ _ hi1_o2]
    have htio : indexOnParent t.heap target = .ok (some s1) := by
      rw [indexOnParent_ok hgtx rfl hg1x,
        node_left_detect _ _ _ htg_o1]
    cases s1 with
    | left =>
      cases s2 with
      | left =>
        have hrun : balanceInsertSplit t target i1 =
            balanceInsertTail t target := by
          simp only [balanceInsertSplit, hpio, htio, bind, Except.bind,
            pure, Except.pure, ne_eq, Option.some_inj, not_true_eq_false,
            if_false, reduceCtorEq, reduceIte]
        rw [hrun]
        exact balanceInsertTail_spec t Side.left i1 c1 k1 v1 o1 i2 c2
          k2 v2 o2 rest2 (BT.nd sl target sc sk sv sr) target rfl hz
      | right =>
        obtain ⟨t2, hrun_rot, hzip2, hflat2, hsome2, hlen2, hnext2⟩ :=
          rotate_zip_spec t ⟨Side.left, i1, c1, k1, v1, o1⟩
            ((⟨Side.right, i2, c2, k2, v2, o2⟩ : CtxF V) :: rest2)
            sl target sc sk sv sr hz
        have hdown := zipSt_down_right hzip2
        have htail := balanceInsertTail_spec t2 Side.right target sc sk
          sv sl i2 c2 k2 v2 o2 rest2 (BT.nd sr i1 c1 k1 v1 o1) i1 rfl
          hdown
        have hrun : balanceInsertSplit t target i1 =
            balanceInsertTail t2 i1 := by
          simp only [balanceInsertSplit, hpio, htio, bind, Except.bind,
            pure, Except.pure, ne_eq, Option.some_inj, reduceCtorEq,
            reduceIte, not_false_eq_true, if_true, unwrapO, hrun_rot]
        rw [hrun]
        refine balExit_congr htail ?_ hsome2 hlen2 hnext2
        exact plug_flat_congr
          ((⟨Side.right, i2, c2, k2, v2, o2⟩ : CtxF V) :: rest2) hflat2
    | right =>
      cases s2 with
      | left =>
        obtain ⟨t2, hrun_rot, hzip2, hflat2, hsome2, hlen2, hnext2⟩ :=
          rotate_zip_spec t ⟨Side.right, i1, c1, k1, v1, o1⟩
            ((⟨Side.left, i2, c2, k2, v2, o2⟩ : CtxF V) :: rest2)
            sl target sc sk sv sr hz
        have hdown := zipSt_down_left hzip2
        have htail := balanceInsertTail_spec t2 Side.left target sc sk
          sv sr i2 c2 k2 v2 o2 rest2 (BT.nd o1 i1 c1 k1 v1 sl) i1 rfl
          hdown
        have hrun : balanceInsertSplit t target i1 =
            balanceInsertTail t2 i1 := by
          simp only [balanceInsertSplit, hpio, htio, bind, Except.bind,
            pure, Except.pure, ne_eq, Option.some_inj, reduceCtorEq,
            reduceIte, not_false_eq_true, if_true, unwrapO, hrun_rot]
        rw [hrun]
        refine balExit_congr htail ?_ hsome2 hlen2 hnext2
        exact plug_flat_congr
          ((⟨Side.left, i2, c2, k2, v2, o2⟩ : CtxF V) :: rest2) hflat2
      | right =>
        have hrun : balanceInsertSplit t target i1 =
            balanceInsertTail t target := by
          simp only [balanceInsertSplit, hpio, htio, bind, Except.bind,
            pure, Except.pure, ne_eq, Option.some_inj, not_true_eq_false,
            if_false, reduceCtorEq, reduceIte]
        rw [hrun]
        exact balanceInsertTail_spec t Side.right i1 c1 k1 v1 o1 i2 c2
          k2 v2 o2 rest2 (BT.nd sl target sc sk sv sr) target rfl hz

end RBImpl

namespace RBImpl

/-- The insert rebalancer on a rendered zipper: with fuel exceeding the
path length it returns a tree rendering the same in-order listing,
without touching the allocation census, the length or the allocation
cursor. -/
theorem balanceAfterInsert_spec {V : Type} :
    ∀ (fuel : Nat) (ctx : Ctx V) (sub : BT V) (t : Tree V)
      (target : Nat),
      ctx.length < fuel →
      sub.rootId = some target →
      ZipSt t ctx sub →
      BalExit t (plug ctx sub) (balanceAfterInsert t fuel target) := by
  intro fuel
  induction fuel with
  | zero =>
    intro ctx sub t target hf
    omega
  | succ n ih =>
    intro ctx sub t target hf hroot hz
    cases sub with
    | nil => cases hroot
    | nd sl tgt sc sk sv sr =>
      have htgt : target = tgt := by
        simp only [BT.rootId, Option.some_inj] at hroot
        exact hroot.symm
      subst htgt
      obtain ⟨hgt, hsl, hsr⟩ := renders_nd_inv hz.subr
      cases ctx with
      | nil =>
        have hgtx : hget t.heap target =
            some ⟨none, sl.rootId, sr.rootId, sc, sk, sv⟩ := hgt
        have hrun : balanceAfterInsert t (n + 1) target = .ok t := by
          simp only [balanceAfterInsert, parentOf_ok hgtx, bind,
            Except.bind]
        rw [hrun]
        exact balExit_of_zipSt hz (fun j => rfl) rfl rfl
      | cons f1 rest =>
        obtain ⟨s1, i1, c1, k1, v1, o1⟩ := f1
        obtain ⟨hg1, ho1, hrest1⟩ := rendersCtx_cons_inv hz.ctxr
        have hg1x : hget t.heap i1 =
            some ((⟨s1, i1, c1, k1, v1, o1⟩ : CtxF V).node (pidCtx rest)
              (some target)) := hg1
        have hgtx : hget t.heap target =
            some ⟨some i1, sl.rootId, sr.rootId, sc, sk, sv⟩ := hgt
        cases c1 with
        | black =>
          have hrun : balanceAfterInsert t (n + 1) target = .ok t := by
            simp only [balanceAfterInsert, parentOf_ok hgtx, bind,
              Except.bind, isRedB_ok hg1x, node_color, pure,
              Except.pure,
              show decide (Color.black = Color.red) = false from rfl,
              Bool.not_false, if_true]
          rw [hrun]
          exact balExit_of_zipSt hz (fun j => rfl) rfl rfl
        | red =>
          obtain ⟨hi1_sub, hi1_o1, hi1_ctx2, hdisj1⟩ :=
            zip_nodup_head _ _ _ hz.nodup
          have htg_mem : target ∈
              (BT.nd sl target sc sk sv sr).ids := by
            rw [BT.ids_nd]
            exact List.mem_append_right _ (List.mem_cons_self _ _)
          have hi1_tg : i1 ≠ target := fun hc => hi1_sub (hc ▸ htg_mem)
          have htg_o1 : target ∉ o1.ids := (hdisj1 target htg_mem).1
          cases rest with
          | nil =>
            have hrun : balanceAfterInsert t (n + 1) target =
                .ok { t with
                      heap := hset t.heap i1
                        { ((⟨s1, i1, Color.red, k1, v1, o1⟩ :
                            CtxF V).node (pidCtx ([] : Ctx V))
                            (some target)) with
                          color := Color.black } } := by
              simp only [balanceAfterInsert, parentOf_ok hgtx, bind,
                Except.bind, isRedB_ok hg1x, node_color, pure,
                Except.pure,
                show decide (Color.red = Color.red) = true from rfl,
                decide_True, decide_False, Bool.not_true, reduceCtorEq,
                reduceIte, grandparentOf, nread_ok hgtx,
                parentOf_ok hg1x, node_parent, pidCtx,
                setColor_ok hg1x Color.black]
            have hrec1 : ({ ((⟨s1, i1, Color.red, k1, v1, o1⟩ :
                CtxF V).node (pidCtx ([] : Ctx V)) (some target)) with
                color := Color.black }) =
                (⟨s1, i1, Color.black, k1, v1, o1⟩ : CtxF V).node
                  (pidCtx ([] : Ctx V)) (some target) := by
              rw [node_recolor]
            rw [hrun, hrec1]
            have hself : hget (hset t.heap i1
                ((⟨s1, i1, Color.black, k1, v1, o1⟩ : CtxF V).node
                  (pidCtx ([] : Ctx V)) (some target))) i1 =
                some ((⟨s1, i1, Color.black, k1, v1, o1⟩ : CtxF V).node
                  (pidCtx ([] : Ctx V)) (some target)) := by
              rw [hget_hset_self _ _ _ _ hg1x]
            have hother : ∀ j, j ≠ i1 → hget (hset t.heap i1
                ((⟨s1, i1, Color.black, k1, v1, o1⟩ : CtxF V).node
                  (pidCtx ([] : Ctx V)) (some target))) j =
                hget t.heap j := by
              intro j hj
              rw [hget_hset_ne _ _ _ _ hj]
            have hz' : ZipSt
                { t with
                  heap := hset t.heap i1
                    ((⟨s1, i1, Color.black, k1, v1, o1⟩ : CtxF V).node
                      (pidCtx ([] : Ctx V)) (some target)) }
                [(⟨s1, i1, Color.black, k1, v1, o1⟩ : CtxF V)]
                (BT.nd sl target sc sk sv sr) := by
              refine ⟨?_, ?_, ?_, ?_⟩
              · refine rendersCtx_cons_mk hself ?_ (.nil _)
                refine renders_congr (fun j hj => ?_) ho1
                exact hother j (fun hc => hi1_o1 (hc ▸ hj))
              · refine renders_congr (fun j hj => ?_) hz.subr
                exact hother j (fun hc => hi1_sub (hc ▸ hj))
              · show t.root = _
                rw [hz.rootEq, plug_rootId, plug_rootId]
                rfl
              · show ((⟨s1, i1, Color.black, k1, v1, o1⟩ :
                  CtxF V).fill (BT.nd sl target sc sk sv
                    sr)).ids.Nodup
                rw [show ((⟨s1, i1, Color.black, k1, v1, o1⟩ :
                  CtxF V).fill (BT.nd sl target sc sk sv sr)).ids =
                  ((⟨s1, i1, Color.red, k1, v1, o1⟩ : CtxF V).fill
                    (BT.nd sl target sc sk sv sr)).ids from
                  congrArg (List.map Prod.fst)
                    (fill_flat_congr _ _ rfl rfl rfl rfl rfl rfl)]
                exact hz.nodup
            refine balExit_congr (balExit_of_zipSt hz'
              (fun j => hset_isSome t.heap i1 _ j) rfl rfl) ?_
              (fun j => rfl) rfl rfl
            show ((⟨s1, i1, Color.black, k1, v1, o1⟩ : CtxF V).fill
              (BT.nd sl target sc sk sv sr)).flat = _
            exact fill_flat_congr _ _ rfl rfl rfl rfl rfl rfl
          | cons f2 rest2 =>
            obtain ⟨s2, i2, c2, k2, v2, o2⟩ := f2
            obtain ⟨hg2, ho2, hrest2⟩ := rendersCtx_cons_inv hrest1
            have hg2x : hget t.heap i2 =
                some ((⟨s2, i2, c2, k2, v2, o2⟩ : CtxF V).node
                  (pidCtx rest2) (some i1)) := hg2
            have hi1split : i1 ≠ i2 ∧ i1 ∉ o2.ids ∧
                i1 ∉ ctxIds rest2 := by
              have h0 := hi1_ctx2
              rw [show ctxIds ((⟨s2, i2, c2, k2, v2, o2⟩ : CtxF V) ::
                rest2) = i2 :: (o2.ids ++ ctxIds rest2) from rfl] at h0
              simp only [List.mem_cons, List.mem_append] at h0
              push_neg at h0
              exact h0
            have hsub_split : ∀ j ∈ (BT.nd sl target sc sk sv sr).ids,
                j ≠ i2 ∧ j ∉ o2.ids ∧ j ∉ ctxIds rest2 := by
              intro j hj
              have h0 := (hdisj1 j hj).2
              rw [show ctxIds ((⟨s2, i2, c2, k2, v2, o2⟩ : CtxF V) ::
                rest2) = i2 :: (o2.ids ++ ctxIds rest2) from rfl] at h0
              simp only [List.mem_cons, List.mem_append] at h0
              push_neg at h0
              exact h0
            have hctxsplit : i2 ∉ o1.ids ∧ i2 ∉ o2.ids ∧
                i2 ∉ ctxIds rest2 ∧ (∀ j ∈ o1.ids, j ∉ o2.ids) ∧
                (∀ j ∈ o1.ids, j ∉ ctxIds rest2) ∧
                (∀ j ∈ o2.ids, j ∉ ctxIds rest2) ∧ o2.ids.Nodup := by
              obtain ⟨_, h0, _⟩ := plug_nodup_parts _ _ hz.nodup
              rw [show ctxIds ((⟨s1, i1, Color.red, k1, v1, o1⟩ :
                  CtxF V) :: (⟨s2, i2, c2, k2, v2, o2⟩ : CtxF V) ::
                  rest2) =
                i1 :: (o1.ids ++ (i2 :: (o2.ids ++ ctxIds rest2)))
                from rfl, List.nodup_cons, List.nodup_append,
                List.nodup_cons, List.nodup_append] at h0
              refine ⟨?_, ?_, ?_, ?_, ?_, ?_, h0.2.2.1.2.1⟩
              · intro hm
                exact h0.2.2.2 hm (List.mem_cons_self _ _)
              · intro hm
                exact h0.2.2.1.1 (List.mem_append_left _ hm)
              · intro hm
                exact h0.2.2.1.1 (List.mem_append_right _ hm)
              · intro j hj hm
                exact h0.2.2.2 hj
                  (List.mem_cons_of_mem _ (List.mem_append_left _ hm))
              · intro j hj hm
                exact h0.2.2.2 hj
                  (List.mem_cons_of_mem _ (List.mem_append_right _ hm))
              · intro j hj hm
                exact h0.2.2.1.2.2.2 hj hm
            have hidx : indexOnParent t.heap i1 = .ok (some s2) := by
              rw [indexOnParent_ok hg1x rfl hg2x,
                node_left_detect _ _ _ hi1split.2.1]
            have huncle : uncleOf t.heap target = .ok o2.rootId := by
              simp only [uncleOf, nread_ok hgtx, bind, Except.bind,
                siblingOf, hidx, nread_ok hg1x,
                node_parent (⟨s1, i1, Color.red, k1, v1, o1⟩ : CtxF V)
                  (some i2) (some target),
                pidCtx, childOf_ok hg2x]
              exact congrArg Except.ok (node_child_opp _ _ _)
            cases o2 with
            | nil =>
              have hrun : balanceAfterInsert t (n + 1) target =
                  balanceInsertSplit t target i1 := by
                simp only [balanceAfterInsert, parentOf_ok hgtx, bind,
                  Except.bind, unwrapO, isRedB_ok hg1x, node_color,
                  pure, Except.pure,
                  show decide (Color.red = Color.red) = true from rfl,
                  decide_True, decide_False, Bool.not_true,
                  reduceCtorEq, reduceIte, grandparentOf,
                  nread_ok hgtx, parentOf_ok hg1x,
                  node_parent, pidCtx, huncle, BT.rootId, optRed]
              rw [hrun]
              exact balanceInsertSplit_spec t s1 i1 Color.red k1 v1 o1
                s2 i2 c2 k2 v2 BT.nil rest2
                (BT.nd sl target sc sk sv sr) target rfl hz
            | nd ol oi oc ok2 ov2 orr =>
              obtain ⟨hgoi, hol, horr⟩ := renders_nd_inv ho2
              have hgoix : hget t.heap oi =
                  some ⟨some i2, ol.rootId, orr.rootId, oc, ok2,
                    ov2⟩ := hgoi
              cases oc with
              | black =>
                have hrun : balanceAfterInsert t (n + 1) target =
                    balanceInsertSplit t target i1 := by
                  simp only [balanceAfterInsert, parentOf_ok hgtx,
                    bind, Except.bind, unwrapO, isRedB_ok hg1x,
                    node_color, pure, Except.pure,
                    show decide (Color.red = Color.red) = true from
                      rfl,
                    decide_True, decide_False, Bool.not_true,
                    Bool.not_false, reduceCtorEq, reduceIte,
                    grandparentOf, nread_ok hgtx, parentOf_ok hg1x,
                    node_parent, pidCtx, huncle, BT.rootId, optRed,
                    isRedB_ok hgoix,
                    show decide (Color.black = Color.red) = false from
                      rfl]
                rw [hrun]
                exact balanceInsertSplit_spec t s1 i1 Color.red k1 v1
                  o1 s2 i2 c2 k2 v2
                  (BT.nd ol oi Color.black ok2 ov2 orr) rest2
                  (BT.nd sl target sc sk sv sr) target rfl hz
              | red =>
                have hoimem : oi ∈
                    (BT.nd ol oi Color.red ok2 ov2 orr).ids := by
                  rw [BT.ids_nd]
                  exact List.mem_append_right _
                    (List.mem_cons_self _ _)
                have holmem : ∀ j ∈ ol.ids, j ∈
                    (BT.nd ol oi Color.red ok2 ov2 orr).ids := by
                  intro j hj
                  rw [BT.ids_nd]
                  exact List.mem_append_left _ hj
                have horrmem : ∀ j ∈ orr.ids, j ∈
                    (BT.nd ol oi Color.red ok2 ov2 orr).ids := by
                  intro j hj
                  rw [BT.ids_nd]
                  exact List.mem_append_right _
                    (List.mem_cons_of_mem _ hj)
                obtain ⟨hoi_ol, hoi_orr⟩ := node_not_in_children ol oi
                  Color.red ok2 ov2 orr hctxsplit.2.2.2.2.2.2
                have hoi_i1 : oi ≠ i1 :=
                  fun hc => hi1split.2.1 (hc ▸ hoimem)
                have hoi_i2 : oi ≠ i2 :=
                  fun hc => hctxsplit.2.1 (hc ▸ hoimem)
                have hoi_tg : oi ≠ target := fun hc =>
                  (hsub_split target htg_mem).2.1 (hc ▸ hoimem)
                set H1 : Heap V := hset t.heap i1
                  { ((⟨s1, i1, Color.red, k1, v1, o1⟩ : CtxF V).node
                      (pidCtx ((⟨s2, i2, c2, k2, v2,
                        BT.nd ol oi Color.red ok2 ov2 orr⟩ : CtxF V) ::
                        rest2)) (some target)) with
                    color := Color.black } with hH1
                have hH1i1 : hget H1 i1 =
                    some ((⟨s1, i1, Color.black, k1, v1, o1⟩ :
                      CtxF V).node (pidCtx ((⟨s2, i2, c2, k2, v2,
                        BT.nd ol oi Color.red ok2 ov2 orr⟩ : CtxF V) ::
                        rest2)) (some target)) := by
                  rw [hH1, hget_hset_self _ _ _ _ hg1x, node_recolor]
                have hH1t : hget H1 target =
                    some ⟨some i1, sl.rootId, sr.rootId, sc, sk,
                      sv⟩ := by
                  rw [hH1, hget_hset_ne _ _ _ _ (Ne.symm hi1_tg)]
                  exact hgtx
                have hH1i2 : hget H1 i2 =
                    some ((⟨s2, i2, c2, k2, v2,
                      BT.nd ol oi Color.red ok2 ov2 orr⟩ :
                      CtxF V).node (pidCtx rest2) (some i1)) := by
                  rw [hH1, hget_hset_ne _ _ _ _ (Ne.symm hi1split.1)]
                  exact hg2x
                have hH1oi : hget H1 oi =
                    some ⟨some i2, ol.rootId, orr.rootId, Color.red,
                      ok2, ov2⟩ := by
                  rw [hH1, hget_hset_ne _ _ _ _ hoi_i1]
                  exact hgoix
                have hidx1 : indexOnParent H1 i1 =
                    .ok (some s2) := by
                  rw [indexOnParent_ok hH1i1 rfl hH1i2,
                    node_left_detect _ _ _ hi1split.2.1]
                have huncle1 : uncleOf H1 target = .ok (some oi) := by
                  simp only [uncleOf, nread_ok hH1t, bind, Except.bind,
                    siblingOf, hidx1, nread_ok hH1i1,
                    node_parent (⟨s1, i1, Color.black, k1, v1, o1⟩ :
                      CtxF V) (some i2) (some target),
                    pidCtx, childOf_ok hH1i2]
                  exact congrArg Except.ok (node_child_opp _ _ _)
                set H2 : Heap V := hset H1 oi
                  { (⟨some i2, ol.rootId, orr.rootId, Color.red, ok2,
                      ov2⟩ : NodeData V) with
                    color := Color.black } with hH2
                have hH2t : hget H2 target =
                    some ⟨some i1, sl.rootId, sr.rootId, sc, sk,
                      sv⟩ := by
                  rw [hH2, hget_hset_ne _ _ _ _ (Ne.symm hoi_tg)]
                  exact hH1t
                have hH2i1 : hget H2 i1 =
                    some ((⟨s1, i1, Color.black, k1, v1, o1⟩ :
                      CtxF V).node (pidCtx ((⟨s2, i2, c2, k2, v2,
                        BT.nd ol oi Color.red ok2 ov2 orr⟩ : CtxF V) ::
                        rest2)) (some target)) := by
                  rw [hH2, hget_hset_ne _ _ _ _ (Ne.symm hoi_i1)]
                  exact hH1i1
                have hH2i2 : hget H2 i2 =
                    some ((⟨s2, i2, c2, k2, v2,
                      BT.nd ol oi Color.red ok2 ov2 orr⟩ :
                      CtxF V).node (pidCtx rest2) (some i1)) := by
                  rw [hH2, hget_hset_ne _ _ _ _ (Ne.symm hoi_i2)]
                  exact hH1i2
                have hH2oi : hget H2 oi =
                    some ⟨some i2, ol.rootId, orr.rootId, Color.black,
                      ok2, ov2⟩ := by
                  rw [hH2, hget_hset_self _ _ _ _ hH1oi]
                have hgp2 : grandparentOf H2 target =
                    .ok (some i2) := by
                  simp only [grandparentOf, nread_ok hH2t, bind,
                    Except.bind, parentOf_ok hH2i1,
                    node_parent (⟨s1, i1, Color.black, k1, v1, o1⟩ :
                      CtxF V) (some i2) (some target),
                    pidCtx]
                set H3 : Heap V := hset H2 i2
                  { ((⟨s2, i2, c2, k2, v2,
                      BT.nd ol oi Color.red ok2 ov2 orr⟩ :
                      CtxF V).node (pidCtx rest2) (some i1)) with
                    color := Color.red } with hH3
                have hH3i2 : hget H3 i2 =
                    some ((⟨s2, i2, Color.red, k2, v2,
                      BT.nd ol oi Color.red ok2 ov2 orr⟩ :
                      CtxF V).node (pidCtx rest2) (some i1)) := by
                  rw [hH3, hget_hset_self _ _ _ _ hH2i2, node_recolor]
                have hH3i1 : hget H3 i1 =
                    some ((⟨s1, i1, Color.black, k1, v1, o1⟩ :
                      CtxF V).node (pidCtx ((⟨s2, i2, c2, k2, v2,
                        BT.nd ol oi Color.red ok2 ov2 orr⟩ : CtxF V) ::
                        rest2)) (some target)) := by
                  rw [hH3, hget_hset_ne _ _ _ _ hi1split.1]
                  exact hH2i1
                have hH3oi : hget H3 oi =
                    some ⟨some i2, ol.rootId, orr.rootId, Color.black,
                      ok2, ov2⟩ := by
                  rw [hH3, hget_hset_ne _ _ _ _ hoi_i2]
                  exact hH2oi
                have hH3other : ∀ j, j ≠ i1 → j ≠ oi → j ≠ i2 →
                    hget H3 j = hget t.heap j := by
                  intro j hj1 hj2 hj3
                  rw [hH3, hget_hset_ne _ _ _ _ hj3, hH2,
                    hget_hset_ne _ _ _ _ hj2, hH1,
                    hget_hset_ne _ _ _ _ hj1]
                have hsc1 : setColor t.heap i1 Color.black =
                    .ok H1 := by
                  rw [setColor_ok hg1x Color.black, hH1]
                have hsc2 : setColor H1 oi Color.black =
                    .ok H2 := by
                  rw [setColor_ok hH1oi Color.black, hH2]
                have hsc3 : setColor H2 i2 Color.red =
                    .ok H3 := by
                  rw [setColor_ok hH2i2 Color.red, hH3]
                have hrun : balanceAfterInsert t (n + 1) target =
                    balanceAfterInsert { t with heap := H3 } n i2 := by
                  simp only [balanceAfterInsert, parentOf_ok hgtx,
                    bind, Except.bind, unwrapO, isRedB_ok hg1x,
                    node_color, pure, Except.pure,
                    decide_True, decide_False, Bool.not_true,
                    Bool.not_false, reduceCtorEq, reduceIte,
                    grandparentOf, nread_ok hgtx, parentOf_ok hg1x,
                    node_parent, pidCtx, huncle, BT.rootId, optRed,
                    isRedB_ok hgoix, hsc1, huncle1, hsc2,
                    nread_ok hH2t, parentOf_ok hH2i1, hsc3]
                have hflen : rest2.length < n := by
                  simp only [List.length_cons] at hf
                  omega
                have hflatEq : ((⟨s2, i2, Color.red, k2, v2,
                    BT.nd ol oi Color.black ok2 ov2 orr⟩ :
                    CtxF V).fill
                    ((⟨s1, i1, Color.black, k1, v1, o1⟩ :
                      CtxF V).fill
                      (BT.nd sl target sc sk sv sr))).flat =
                    ((⟨s2, i2, c2, k2, v2,
                      BT.nd ol oi Color.red ok2 ov2 orr⟩ :
                      CtxF V).fill
                      ((⟨s1, i1, Color.red, k1, v1, o1⟩ :
                        CtxF V).fill
                        (BT.nd sl target sc sk sv sr))).flat :=
                  fill_flat_congr _ _ rfl rfl rfl rfl rfl
                    (fill_flat_congr _ _ rfl rfl rfl rfl rfl rfl)
                have hzH3 : ZipSt { t with heap := H3 } rest2
                    ((⟨s2, i2, Color.red, k2, v2,
                      BT.nd ol oi Color.black ok2 ov2 orr⟩ :
                      CtxF V).fill
                      ((⟨s1, i1, Color.black, k1, v1, o1⟩ :
                        CtxF V).fill
                        (BT.nd sl target sc sk sv sr))) := by
                  refine ⟨?_, ?_, ?_, ?_⟩
                  · rw [fill_rootId]
                    refine rendersCtx_congr (fun j hj => ?_) hrest2
                    exact hH3other j
                      (fun hc => hi1split.2.2 (hc ▸ hj))
                      (fun hc =>
                        hctxsplit.2.2.2.2.2.1 oi hoimem (hc ▸ hj))
                      (fun hc => hctxsplit.2.2.1 (hc ▸ hj))
                  · refine renders_fill ?_ ?_ ?_
                    · rw [fill_rootId]
                      exact hH3i2
                    · refine Renders.nd hH3oi ?_ ?_
                      · refine renders_congr (fun j hj => ?_) hol
                        exact hH3other j
                          (fun hc =>
                            hi1split.2.1 (hc ▸ holmem j hj))
                          (fun hc => hoi_ol (hc ▸ hj))
                          (fun hc =>
                            hctxsplit.2.1 (hc ▸ holmem j hj))
                      · refine renders_congr (fun j hj => ?_) horr
                        exact hH3other j
                          (fun hc =>
                            hi1split.2.1 (hc ▸ horrmem j hj))
                          (fun hc => hoi_orr (hc ▸ hj))
                          (fun hc =>
                            hctxsplit.2.1 (hc ▸ horrmem j hj))
                    · refine renders_fill ?_ ?_ ?_
                      · exact hH3i1
                      · refine renders_congr (fun j hj => ?_) ho1
                        exact hH3other j
                          (fun hc => hi1_o1 (hc ▸ hj))
                          (fun hc => hctxsplit.2.2.2.1 j hj
                            (hc ▸ hoimem))
                          (fun hc => hctxsplit.1 (hc ▸ hj))
                      · refine renders_congr (fun j hj => ?_) hz.subr
                        exact hH3other j
                          (fun hc => hi1_sub (hc ▸ hj))
                          (fun hc => (hsub_split j hj).2.1
                            (hc ▸ hoimem))
                          ((hsub_split j hj).1)
                  · show t.root = _
                    rw [hz.rootEq, plug_rootId, plug_rootId,
                      fill_rootId]
                    rfl
                  · show (plug rest2 _).ids.Nodup
                    rw [plug_ids_congr rest2 hflatEq]
                    exact hz.nodup
                have hrec := ih rest2 _ { t with heap := H3 } i2 hflen
                  (by rw [fill_rootId]) hzH3
                rw [hrun]
                refine balExit_congr hrec ?_ ?_ rfl rfl
                · exact (plug_flat_congr rest2 hflatEq).trans rfl
                · intro j
                  show (hget H3 j).isSome = _
                  rw [hH3, hset_isSome, hH2, hset_isSome, hH1,
                    hset_isSome]

end RBImpl

namespace RBImpl

/-! ## The vacant branch of `insert`, and the full insert contract -/

/-- The vacant branch of `insert`: allocating a fresh red node, linking
it into the empty slot the search stopped at, and rebalancing yields a
well-formed tree whose entry list is the sorted-insert update and whose
length grew by one; the probe key was absent from the old map. -/
theorem insert_vacant_spec {V : Type} (t : Tree V) (bt : BT V)
    (hwf : WF t bt) (k : Int) (v : V) (f : CtxF V) (ctx2 : Ctx V)
    (hempty : t.isEmpty = false)
    (hsn : searchNode t k = .ok (.vacant f.i f.side))
    (hdec : bt = plug (f :: ctx2) BT.nil)
    (hctx : RendersCtx t.heap (f :: ctx2) none)
    (hin : InHole (f :: ctx2) k) :
    lookupE bt.entries k = none ∧
    ∃ (t' : Tree V) (bt' : BT V),
      insert t k v = .ok (t', none) ∧
      WF t' bt' ∧
      bt'.entries = insertE bt.entries k v ∧
      t'.len = t.len + 1 := by
  obtain ⟨hgf, hof, hrest⟩ := rendersCtx_cons_inv hctx
  have hnewfresh : hget t.heap t.nextId = none := by
    cases hx : hget t.heap t.nextId with
    | none => rfl
    | some d =>
      have hs1 : (hget t.heap t.nextId).isSome = true := by
        rw [hx]; rfl
      have := hwf.fresh t.nextId ((hwf.dom t.nextId).mp hs1)
      omega
  have happget : ∀ j,
      hget (t.heap ++ [(t.nextId,
        (⟨none, none, none, Color.red, k, v⟩ : NodeData V))]) j =
      if j = t.nextId
        then some ⟨none, none, none, Color.red, k, v⟩
        else hget t.heap j :=
    hget_append_new t.heap t.nextId _ hnewfresh
  have hbtids : ∀ j ∈ bt.ids, j ≠ t.nextId := by
    intro j hj hc
    have := hwf.fresh j hj
    omega
  have hctxsub : ∀ j ∈ ctxIds (f :: ctx2), j ∈ bt.ids := by
    intro j hj
    rw [hdec]
    exact mem_plug_of_mem_ctxIds _ _ j hj
  have hfimem : f.i ∈ bt.ids := hctxsub f.i (by simp [ctxIds])
  have hfine : f.i ≠ t.nextId := hbtids _ hfimem
  have hg_new : hget (t.heap ++ [(t.nextId,
      (⟨none, none, none, Color.red, k, v⟩ : NodeData V))]) t.nextId =
      some ⟨none, none, none, Color.red, k, v⟩ := by
    rw [happget]
    simp
  have hg_fi : hget (t.heap ++ [(t.nextId,
      (⟨none, none, none, Color.red, k, v⟩ : NodeData V))]) f.i =
      some (f.node (pidCtx ctx2) none) := by
    rw [happget, if_neg hfine]
    exact hgf
  have hsc : setChild (t.heap ++ [(t.nextId,
      (⟨none, none, none, Color.red, k, v⟩ : NodeData V))]) f.i f.side
      (some t.nextId) =
      .ok (hset (hset (t.heap ++ [(t.nextId,
        (⟨none, none, none, Color.red, k, v⟩ : NodeData V))]) t.nextId
        ⟨some f.i, none, none, Color.red, k, v⟩) f.i
        (f.node (pidCtx ctx2) (some t.nextId))) := by
    rw [setChild_some_ok hg_fi hg_new (Ne.symm hfine) f.side,
      node_withChild_hole]
  -- the heap after attaching the fresh node
  have hg2_new : hget (hset (hset (t.heap ++ [(t.nextId,
      (⟨none, none, none, Color.red, k, v⟩ : NodeData V))]) t.nextId
      ⟨some f.i, none, none, Color.red, k, v⟩) f.i
      (f.node (pidCtx ctx2) (some t.nextId))) t.nextId =
      some ⟨some f.i, none, none, Color.red, k, v⟩ := by
    rw [hget_hset_ne _ _ _ _ (Ne.symm hfine)]
    have : hget (t.heap ++ [(t.nextId,
        (⟨none, none, none, Color.red, k, v⟩ : NodeData V))]) t.nextId =
        some ⟨none, none, none, Color.red, k, v⟩ := hg_new
    rw [hget_hset_self _ _ _ _ this]
  have hg2_fi : hget (hset (hset (t.heap ++ [(t.nextId,
      (⟨none, none, none, Color.red, k, v⟩ : NodeData V))]) t.nextId
      ⟨some f.i, none, none, Color.red, k, v⟩) f.i
      (f.node (pidCtx ctx2) (some t.nextId))) f.i =
      some (f.node (pidCtx ctx2) (some t.nextId)) := by
    have h0 : hget (hset (t.heap ++ [(t.nextId,
        (⟨none, none, none, Color.red, k, v⟩ : NodeData V))]) t.nextId
        ⟨some f.i, none, none, Color.red, k, v⟩) f.i =
        some (f.node (pidCtx ctx2) none) := by
      rw [hget_hset_ne _ _ _ _ hfine]
      exact hg_fi
    rw [hget_hset_self _ _ _ _ h0]
  have hg2_old : ∀ j, j ≠ t.nextId → j ≠ f.i →
      hget (hset (hset (t.heap ++ [(t.nextId,
        (⟨none, none, none, Color.red, k, v⟩ : NodeData V))]) t.nextId
        ⟨some f.i, none, none, Color.red, k, v⟩) f.i
        (f.node (pidCtx ctx2) (some t.nextId))) j = hget t.heap j := by
    intro j hj1 hj2
    rw [hget_hset_ne _ _ _ _ hj2, hget_hset_ne _ _ _ _ hj1, happget,
      if_neg hj1]
  -- disjointness from the no-duplicate id list
  have hnd0 := hwf.nodup
  rw [hdec] at hnd0
  obtain ⟨hfi_nil, hfi_of, hfi_ctx, _⟩ := zip_nodup_head f ctx2 BT.nil hnd0
  obtain ⟨hnilnd, hctxnd, hdis⟩ := plug_nodup_parts (f :: ctx2) BT.nil hnd0
  have hctxids_eq : ctxIds (f :: ctx2) =
      f.i :: (f.other.ids ++ ctxIds ctx2) := rfl
  -- the attached zipper state
  have hz : ZipSt (⟨hset (hset (t.heap ++ [(t.nextId,
      (⟨none, none, none, Color.red, k, v⟩ : NodeData V))]) t.nextId
      ⟨some f.i, none, none, Color.red, k, v⟩) f.i
      (f.node (pidCtx ctx2) (some t.nextId)),
      t.nextId + 1, t.root, t.len + 1⟩ : Tree V)
      (f :: ctx2) (BT.nd BT.nil t.nextId Color.red k v BT.nil) := by
    refine ⟨?_, ?_, ?_, ?_⟩
    · refine rendersCtx_cons_mk hg2_fi ?_ ?_
      · refine renders_congr (fun j hj => ?_) hof
        exact hg2_old j
          (hbtids j (hctxsub j (by
            rw [hctxids_eq]
            exact List.mem_cons_of_mem _ (List.mem_append_left _ hj))))
          (fun hc => hfi_of (hc ▸ hj))
      · refine rendersCtx_congr (fun j hj => ?_) hrest
        exact hg2_old j
          (hbtids j (hctxsub j (by
            rw [hctxids_eq]
            exact List.mem_cons_of_mem _ (List.mem_append_right _ hj))))
          (fun hc => hfi_ctx (hc ▸ hj))
    · exact Renders.nd hg2_new (.nil _) (.nil _)
    · show t.root = _
      rw [hwf.rootEq, hdec, plug_rootId, plug_rootId]
      rfl
    · show (plug (f :: ctx2) _).ids.Nodup
      refine (plug_ids_perm _ _).nodup_iff.mpr ?_
      rw [show (BT.nd BT.nil t.nextId Color.red k v BT.nil).ids =
        [t.nextId] from by simp [BT.ids, BT.flat]]
      rw [List.singleton_append, List.nodup_cons]
      exact ⟨fun hmem => hbtids t.nextId (hctxsub t.nextId hmem) rfl,
        hctxnd⟩
  -- the fuel the source chooses suffices
  have hctxlen : (f :: ctx2).length <
      (t.heap ++ [(t.nextId,
        (⟨none, none, none, Color.red, k, v⟩ :
          NodeData V))]).length + 1 := by
    have h1 := ctx_length_le_ids (f :: ctx2)
    have h2 : (ctxIds (f :: ctx2)).length = bt.ids.length := by
      have hperm := plug_ids_perm (f :: ctx2) BT.nil
      rw [← hdec] at hperm
      have := hperm.length_eq
      simpa [BT.ids, BT.flat] using this.symm
    have h3 : bt.ids.length ≤ t.heap.length :=
      ids_length_le t.heap bt.ids hwf.nodup
        (fun i hi => (hwf.dom i).mpr hi)
    simp only [List.length_append, List.length_cons] at h1 ⊢
    omega
  obtain ⟨t', bt', hrunEq, hren, hroot', hflat, hsome, hlen, hnext⟩ :=
    balanceAfterInsert_spec
      ((t.heap ++ [(t.nextId,
        (⟨none, none, none, Color.red, k, v⟩ :
          NodeData V))]).length + 1)
      (f :: ctx2) (BT.nd BT.nil t.nextId Color.red k v BT.nil)
      (⟨hset (hset (t.heap ++ [(t.nextId,
        (⟨none, none, none, Color.red, k, v⟩ : NodeData V))]) t.nextId
        ⟨some f.i, none, none, Color.red, k, v⟩) f.i
        (f.node (pidCtx ctx2) (some t.nextId)),
        t.nextId + 1, t.root, t.len + 1⟩ : Tree V) t.nextId
      hctxlen rfl hz
  -- entries bookkeeping
  obtain ⟨A, B, hAB⟩ := plug_entries (f :: ctx2)
  have hbtAB : bt.entries = A ++ B := by
    rw [hdec, hAB BT.nil]
    simp [BT.entries, BT.flat]
  have hordnew : Ordered (plug (f :: ctx2)
      (BT.nd BT.nil t.nextId Color.red k v BT.nil)) := by
    refine ordered_plug_replace (f :: ctx2) BT.nil _ ?_ ?_ ?_
    · rw [← hdec]
      exact hwf.ord
    · exact .nd (fun k' hk' => by simp [BT.keys, BT.flat] at hk')
        (fun k' hk' => by simp [BT.keys, BT.flat] at hk') .nil .nil
    · intro k' hk'
      have hk2 : k' = k := by
        simpa [BT.keys, BT.flat] using hk'
      rw [hk2]
      exact hin
  have hentriesNew : (plug (f :: ctx2)
      (BT.nd BT.nil t.nextId Color.red k v BT.nil)).entries =
      A ++ (k, v) :: B := by
    rw [hAB]
    simp [BT.entries, BT.flat]
  have hpair : List.Pairwise (· < ·) (keysE (A ++ (k, v) :: B)) := by
    rw [← hentriesNew, ← keys_eq_keysE_entries]
    exact (ordered_iff_pairwise _).mp hordnew
  have hid : bt'.ids = (plug (f :: ctx2)
      (BT.nd BT.nil t.nextId Color.red k v BT.nil)).ids :=
    congrArg (List.map Prod.fst) hflat
  have hmem_iff : ∀ i, i ∈ (plug (f :: ctx2)
      (BT.nd BT.nil t.nextId Color.red k v BT.nil)).ids ↔
      i = t.nextId ∨ i ∈ bt.ids := by
    intro i
    rw [(plug_ids_perm _ _).mem_iff]
    constructor
    · intro hmem
      rcases List.mem_append.mp hmem with hmem | hmem
      · left
        simpa [BT.ids, BT.flat] using hmem
      · right
        exact hctxsub i hmem
    · intro hmem
      rcases hmem with hmem | hmem
      · exact List.mem_append_left _ (by simp [BT.ids, BT.flat, hmem])
      · refine List.mem_append_right _ ?_
        have hperm := plug_ids_perm (f :: ctx2) BT.nil
        rw [← hdec] at hperm
        have := hperm.mem_iff.mp hmem
        simpa [BT.ids, BT.flat] using this
  have hsome2 : ∀ i, (hget (hset (hset (t.heap ++ [(t.nextId,
      (⟨none, none, none, Color.red, k, v⟩ : NodeData V))]) t.nextId
      ⟨some f.i, none, none, Color.red, k, v⟩) f.i
      (f.node (pidCtx ctx2) (some t.nextId))) i).isSome =
      (if i = t.nextId then true else (hget t.heap i).isSome) := by
    intro i
    rw [hset_isSome, hset_isSome, happget]
    by_cases hi : i = t.nextId
    · rw [if_pos hi, if_pos hi]
      rfl
    · rw [if_neg hi, if_neg hi]
  refine ⟨?_, t', bt', ?_, ?_, ?_, ?_⟩
  · rw [hbtAB]
    exact lookupE_missing k v A B hpair
  · simp only [insert, hempty, Bool.false_eq_true, if_false, hsn,
      bind, Except.bind, nodeNew, hsc, hrunEq]
  · refine ⟨hren, hroot', ?_, ?_, ?_, ?_, ?_⟩
    · rw [hid]
      exact hz.nodup
    · intro i
      have e1 : (hget t'.heap i).isSome =
          (if i = t.nextId then true else (hget t.heap i).isSome) :=
        (hsome i).trans (hsome2 i)
      rw [e1, hid, hmem_iff i]
      by_cases hi : i = t.nextId
      · simp [hi]
      · rw [if_neg hi, hwf.dom i]
        exact ⟨Or.inr, fun h => h.resolve_left hi⟩
    · intro i hi
      rw [hid, hmem_iff i] at hi
      rw [hnext]
      show i < t.nextId + 1
      rcases hi with hi | hi
      · omega
      · have := hwf.fresh i hi
        omega
    · show t'.len = bt'.size
      rw [hlen]
      show t.len + 1 = bt'.size
      have hsz : bt'.flat.length = bt.flat.length + 1 := by
        obtain ⟨FA, FB, hFAB⟩ := plug_flat (f :: ctx2)
        have e2 : bt'.flat.length = ((plug (f :: ctx2)
            (BT.nd BT.nil t.nextId Color.red k v
              BT.nil)).flat).length :=
          congrArg List.length hflat
        have e3 : bt.flat.length = (FA ++ (BT.nil : BT V).flat ++
            FB).length := by
          rw [hdec, hFAB]
        rw [e2, hFAB, e3]
        simp only [List.length_append]
        simp [BT.flat]
        omega
      show t.len + 1 = bt'.flat.length
      rw [hsz, hwf.lenEq]
      rfl
    · rw [ordered_iff_pairwise]
      have hkeys : bt'.keys = (plug (f :: ctx2)
          (BT.nd BT.nil t.nextId Color.red k v BT.nil)).keys :=
        congrArg (List.map (fun p : Nat × Int × V => p.2.1)) hflat
      rw [hkeys, ← ordered_iff_pairwise]
      exact hordnew
  · have hent : bt'.entries = (plug (f :: ctx2)
        (BT.nd BT.nil t.nextId Color.red k v BT.nil)).entries :=
      congrArg (List.map Prod.snd) hflat
    rw [hent, hentriesNew, hbtAB]
    exact (insertE_insert k v A B hpair).symm
  · exact hlen

end RBImpl

namespace RBImpl

/-- **C2.** `insert(k, v)` on a well-formed map: when `k` is absent it
returns `None`, adds the entry `(k, v)` (the entry list becomes the
sorted insert of `(k, v)`), and grows `len` by one; when `k` is
present bound to `w` it returns `Some((k, w))` — the caller's key
paired with the displaced value — replaces the stored value with `v`
in place (the entry list becomes the sorted replace, keys unchanged),
and leaves `len` unchanged.  The result is again well formed, so
chained duplicate inserts (37,a), (37,b), (37,c) return `None`,
`Some((37,a))`, `Some((37,b))` with final value `c`. -/
theorem claim2_insert_correct {V : Type} (t : Tree V) (bt : BT V)
    (hwf : WF t bt) (k : Int) (v : V) :
    ∃ (t' : Tree V) (bt' : BT V),
      insert t k v =
        .ok (t', (lookupE bt.entries k).map (fun w => (k, w))) ∧
      WF t' bt' ∧
      bt'.entries = insertE bt.entries k v ∧
      t'.len = (if (lookupE bt.entries k).isSome then t.len
        else t.len + 1) := by
  cases hempty : t.isEmpty with
  | true =>
    have hroot : t.root = none := by
      simpa [Tree.isEmpty, Option.isNone_iff_eq_none] using hempty
    have hbt : bt = BT.nil := by
      cases hbt : bt with
      | nil => rfl
      | nd l i c k0 v0 r =>
        have h0 := hwf.rootEq
        rw [hroot, hbt] at h0
        cases h0
    subst hbt
    have hfresh : hget t.heap t.nextId = none := by
      cases hx : hget t.heap t.nextId with
      | none => rfl
      | some d =>
        have hs1 : (hget t.heap t.nextId).isSome = true := by
          rw [hx]; rfl
        have hmem := (hwf.dom t.nextId).mp hs1
        simp [BT.ids, BT.flat] at hmem
    refine ⟨⟨t.heap ++ [(t.nextId, ⟨none, none, none, Color.red, k, v⟩)],
      t.nextId + 1, some t.nextId, t.len + 1⟩,
      BT.nd BT.nil t.nextId Color.red k v BT.nil, ?_, ?_, ?_, ?_⟩
    · show insert t k v = _
      rw [insert, if_pos hempty]
      rfl
    · refine ⟨?_, rfl, ?_, ?_, ?_, ?_, ?_⟩
      · refine Renders.nd ?_ (.nil _) (.nil _)
        show hget (t.heap ++ [(t.nextId,
          (⟨none, none, none, Color.red, k, v⟩ : NodeData V))])
          t.nextId = _
        rw [hget_append_new t.heap t.nextId _ hfresh]
        simp [BT.rootId]
      · simp [BT.ids, BT.flat]
      · intro i
        show (hget (t.heap ++ [(t.nextId,
          (⟨none, none, none, Color.red, k, v⟩ : NodeData V))])
          i).isSome = true ↔ _
        rw [hget_append_new t.heap t.nextId _ hfresh]
        by_cases hi : i = t.nextId
        · simp [hi, BT.ids, BT.flat]
        · rw [if_neg hi]
          have hnone : ¬ (hget t.heap i).isSome = true := fun hx => by
            simpa [BT.ids, BT.flat] using (hwf.dom i).mp hx
          exact iff_of_false hnone (by simp [BT.ids, BT.flat, hi])
      · intro i hi
        simp [BT.ids, BT.flat] at hi
        subst hi
        show t.nextId < t.nextId + 1
        omega
      · show t.len + 1 = _
        rw [hwf.lenEq]
        simp [BT.size, BT.flat]
      · exact .nd (fun k' hk' => by simp [BT.keys, BT.flat] at hk')
          (fun k' hk' => by simp [BT.keys, BT.flat] at hk') .nil .nil
    · rfl
    · rfl
  | false =>
    obtain ⟨r, hr⟩ : ∃ r, t.root = some r := by
      cases hrr : t.root with
      | none =>
        rw [Tree.isEmpty, hrr] at hempty
        cases hempty
      | some r => exact ⟨r, rfl⟩
    have hbtroot : bt.rootId = some r := by
      rw [← hwf.rootEq]
      exact hr
    have hsz : bt.size < t.heap.length + 1 := by
      have h3 : bt.ids.length ≤ t.heap.length :=
        ids_length_le t.heap bt.ids hwf.nodup
          (fun i hi => (hwf.dom i).mpr hi)
      rw [size_eq_ids_length]
      omega
    have hsnode : searchNode t k =
        searchFrom t.heap (t.heap.length + 1) r k := by
      simp only [searchNode, hr]
    have hspec := searchFrom_spec (t.heap.length + 1) bt [] t.heap k r
      hsz hbtroot (.nil _) hwf.renders trivial
    rcases hspec with
      ⟨ctx2, l, i, c, v1, rr, hsf, hplug, hctx2, hnode, hin2⟩ |
      ⟨f, ctx2, hsf, hplug, hctx2, hin2⟩
    · -- the key is present: the value-replacement branch
      have hdec : bt = plug ctx2 (.nd l i c k v1 rr) := hplug
      obtain ⟨hlook, bt', hwf', hent', hsz'⟩ :=
        insert_found_spec t bt hwf k v ctx2 l i c v1 rr hdec hctx2 hnode
      have hget0 : hget t.heap i =
          some ⟨pidCtx ctx2, l.rootId, rr.rootId, c, k, v1⟩ :=
        (renders_nd_inv hnode).1
      refine ⟨{ t with heap := hset t.heap i ⟨pidCtx ctx2, l.rootId, rr.rootId, c, k, v⟩ }, bt', ?_, hwf', hent', ?_⟩
      · rw [hlook]
        show insert t k v = .ok (_, some (k, v1))
        simp only [insert, hempty, Bool.false_eq_true, if_false,
          hsnode, hsf, bind, Except.bind, nread_ok hget0]
      · rw [hlook]
        rfl
    · -- the key is absent: the attach-and-rebalance branch
      have hdec : bt = plug (f :: ctx2) BT.nil := hplug
      obtain ⟨hlook, t', bt', hins, hwf', hent', hlen'⟩ :=
        insert_vacant_spec t bt hwf k v f ctx2 hempty
          (hsnode.trans hsf) hdec hctx2 hin2
      refine ⟨t', bt', ?_, hwf', hent', ?_⟩
      · rw [hlook]
        exact hins
      · rw [hlook]
        exact hlen'

/-- Witness: inserting 37 ↦ 'a' into a concrete well-formed empty map
(the fresh map renders `BT.nil`); the contract instantiates with all
hypotheses discharged. -/
theorem claim2_insert_correct_witness :
    ∃ (t' : Tree Char) (bt' : BT Char),
      insert (Tree.new Char) 37 'a' =
        .ok (t', (lookupE (BT.nil : BT Char).entries 37).map
          (fun w => (37, w))) ∧
      WF t' bt' ∧
      bt'.entries = insertE (BT.nil : BT Char).entries 37 'a' ∧
      t'.len = (if (lookupE (BT.nil : BT Char).entries 37).isSome
        then (Tree.new Char).len else (Tree.new Char).len + 1) :=
  claim2_insert_correct (Tree.new Char) BT.nil
    ⟨.nil none, rfl, List.nodup_nil,
      fun i => by simp [Tree.new, hget, BT.ids, BT.flat],
      fun i hi => by simp [BT.ids, BT.flat] at hi,
      rfl, .nil⟩
    37 'a'

end RBImpl
